import Mathlib

/-!
# ponto-cli: credential store, token manager, resource client and commands

A shallow embedding of `internal/auth` and `internal/api` of the ponto-cli
repository, and of the functions of `internal/cmd`, `internal/config` and
`internal/output` that the properties below are about, together with those
properties.

Conventions of the embedding:
* a Go `string` or `[]byte` that holds text (a profile name, a key of the
  store, a response body, a date) is modelled as `String`; a client id, a
  client secret and the data of a stored item, which the credential store
  takes and keeps byte for byte, are modelled as `Bytes`, valid UTF-8 or not;
* Go `int` and `time.Duration` are 64-bit: arithmetic that can overflow is
  wrapped with `wrapInt64`;
* for the token manager a `time.Time` is an `Int` number of nanoseconds on
  one clock, so `t.Add(d)` is `t + d` and `a.After(b)` is `b < a`; where dates
  are computed and printed, the current time is a number of Unix seconds read
  in a `Location`, and a parsed time is the civil date of its wall clock
  (section Package time);
* Go functions returning `(value, error)` return `Except`;
* what a function reads from its environment (the clock, a remote endpoint,
  the secret-storage backend, standard input, the case tables of package
  `unicode`) is an explicit argument.
-/

namespace Ponto

/-! ## Machine integers and time -/

/-- Two's-complement wrap of an integer to the range of Go's `int64`. -/
def wrapInt64 (x : Int) : Int := (x + 2 ^ 63) % 2 ^ 64 - 2 ^ 63

/-- The constant `time.Second`, in nanoseconds. -/
def Second : Int := 1000000000

/-! ## Go strings and package unicode/utf8 -/

/-- A Go `string` or `[]byte` value that need not be text: the list of its
bytes, each a number below 256. -/
abbrev Bytes := List Nat

/-- The bytes of the UTF-8 encoding of a character. -/
def utf8Bytes (c : Char) : List Nat :=
  let n := c.toNat
  if n < 0x80 then [n]
  else if n < 0x800 then [0xC0 + n / 64, 0x80 + n % 64]
  else if n < 0x10000 then [0xE0 + n / 4096, 0x80 + n / 64 % 64, 0x80 + n % 64]
  else [0xF0 + n / 262144, 0x80 + n / 4096 % 64, 0x80 + n / 64 % 64, 0x80 + n % 64]

/-- The Go string that holds a text: its UTF-8 encoding. -/
def utf8 (s : String) : Bytes := s.data.flatMap utf8Bytes

/-- The constant `utf8.RuneError`, U+FFFD. -/
def RuneError : Char := Char.ofNat 0xFFFD

/-- The function `utf8.DecodeRune`: the first rune of `p` and its width in
bytes. A byte that begins no valid encoding gives `(RuneError, 1)`; overlong
encodings, surrogates and values above U+10FFFF are invalid. `sz` is the
width that the first byte announces, `lo` and `hi` bound the second byte. -/
def DecodeRune (p : Bytes) : Char × Nat :=
  match p with
  | [] => (RuneError, 0)
  | p0 :: rest =>
    if p0 < 0x80 then (Char.ofNat p0, 1)
    else if p0 < 0xC2 ∨ 0xF4 < p0 then (RuneError, 1)
    else
      let sz := if p0 < 0xE0 then 2 else if p0 < 0xF0 then 3 else 4
      let lo := if p0 = 0xE0 then 0xA0 else if p0 = 0xF0 then 0x90 else 0x80
      let hi := if p0 = 0xED then 0x9F else if p0 = 0xF4 then 0x8F else 0xBF
      if p.length < sz then (RuneError, 1)
      else
        match rest with
        | [] => (RuneError, 1)
        | b1 :: rest1 =>
          if b1 < lo ∨ hi < b1 then (RuneError, 1)
          else if sz ≤ 2 then (Char.ofNat (p0 % 32 * 64 + b1 % 64), 2)
          else
            match rest1 with
            | [] => (RuneError, 1)
            | b2 :: rest2 =>
              if b2 < 0x80 ∨ 0xBF < b2 then (RuneError, 1)
              else if sz ≤ 3 then
                (Char.ofNat (p0 % 16 * 4096 + b1 % 64 * 64 + b2 % 64), 3)
              else
                match rest2 with
                | [] => (RuneError, 1)
                | b3 :: _ =>
                  if b3 < 0x80 ∨ 0xBF < b3 then (RuneError, 1)
                  else
                    (Char.ofNat (p0 % 8 * 262144 + b1 % 64 * 4096 + b2 % 64 * 64 + b3 % 64), 4)

/-- The runes of a Go string with their widths, as a loop over
`utf8.DecodeRuneInString(s[i:])` with `i += size` meets them; the first `skip`
bytes belong to the rune before. -/
def decodeRunes : Bytes → Nat → List (Char × Nat)
  | [], _ => []
  | _ :: rest, skip + 1 => decodeRunes rest skip
  | b :: rest, 0 => DecodeRune (b :: rest) :: decodeRunes rest ((DecodeRune (b :: rest)).2 - 1)

/-- The text that a Go string is read as, rune by rune: each byte that begins
no valid encoding counts as U+FFFD. -/
def runes (s : Bytes) : String := String.mk ((decodeRunes s 0).map Prod.fst)

/-! ## internal/auth/oauth.go -/

/-- The constant `tokenBufferSec`: refresh token 60s before expiry. -/
def tokenBufferSec : Int := 60

/-- The struct `Token`. -/
structure Token where
  AccessToken : String
  TokenType : String
  ExpiresIn : Int
  Scope : String
  ExpiresAt : Int
deriving DecidableEq, Repr

/-- The method `(*Token).IsExpired`, with `now` the value of `time.Now()`:
`time.Now().After(t.ExpiresAt.Add(-tokenBufferSec * time.Second))`. -/
def Token.IsExpired (t : Token) (now : Int) : Bool :=
  decide (t.ExpiresAt + (-tokenBufferSec * Second) < now)

/-- What `client.Do(req)` followed by `io.ReadAll(resp.Body)` gives for a
request to the token endpoint. -/
inductive TokenReply where
  /-- `client.Do` returned an error. -/
  | doError (msg : String)
  /-- a response arrived but reading its body failed. -/
  | readError (msg : String)
  /-- a response with its status code, status line and body. -/
  | response (StatusCode : Int) (Status : String) (body : String)
deriving DecidableEq, Repr

/-- Errors of `fetchToken`, one constructor per `fmt.Errorf` of the source. -/
inductive TokenError where
  | tokenRequest (msg : String)
  | readTokenResponse (msg : String)
  | tokenRequestFailed (status : String) (body : String)
  | parseTokenResponse (msg : String)
deriving DecidableEq, Repr

/-- The token endpoint as seen from the process: the reply to the `n`-th
token-exchange request made with HTTP Basic credentials `clientID:clientSecret`,
and `json.Unmarshal(body, &token)` of the standard library. -/
structure TokenEndpoint where
  reply : Nat → String → String → TokenReply
  unmarshal : String → Except String Token

/-- The function `fetchToken`. `n` is the number of exchanges made before this
one and `fetchedAt` the value of `time.Now()` once the body is decoded. -/
def fetchToken (ep : TokenEndpoint) (n : Nat) (fetchedAt : Int)
    (clientID clientSecret : String) : Except TokenError Token :=
  match ep.reply n clientID clientSecret with
  | .doError msg => .error (.tokenRequest msg)
  | .readError msg => .error (.readTokenResponse msg)
  | .response StatusCode Status body =>
    if StatusCode ≠ 200 then .error (.tokenRequestFailed Status body)
    else
      match ep.unmarshal body with
      | .error msg => .error (.parseTokenResponse msg)
      | .ok token =>
        .ok { token with
              ExpiresAt := fetchedAt + wrapInt64 (wrapInt64 token.ExpiresIn * Second) }

/-- The process-wide state of the token manager: the map `tokenCache` and, as
a ghost field, the log of the exchanges sent to the token endpoint. -/
structure AuthState where
  tokenCache : String → Option Token
  exchanges : List (String × String)

/-- The function `GetAccessToken`. `now` is the clock when the cache is
checked, `fetchedAt` the clock when a fetched token is stamped. -/
def GetAccessToken (ep : TokenEndpoint) (st : AuthState) (now fetchedAt : Int)
    (clientID clientSecret : String) : Except TokenError Token × AuthState :=
  let cacheKey := clientID
  match st.tokenCache cacheKey with
  | some cached =>
    if !cached.IsExpired now then (.ok cached, st)
    else
      let st1 := { st with exchanges := st.exchanges ++ [(clientID, clientSecret)] }
      match fetchToken ep st.exchanges.length fetchedAt clientID clientSecret with
      | .error e => (.error e, st1)
      | .ok token =>
        (.ok token,
         { st1 with tokenCache := fun k => if k = cacheKey then some token else st.tokenCache k })
  | none =>
    let st1 := { st with exchanges := st.exchanges ++ [(clientID, clientSecret)] }
    match fetchToken ep st.exchanges.length fetchedAt clientID clientSecret with
    | .error e => (.error e, st1)
    | .ok token =>
      (.ok token,
       { st1 with tokenCache := fun k => if k = cacheKey then some token else st.tokenCache k })

/-- The function `ClearTokenCache`. -/
def ClearTokenCache (st : AuthState) : AuthState :=
  { st with tokenCache := fun _ => none }

/-! ## encoding/json

The part of the standard library's JSON codec that the repository relies on:
the parser of JSON text, the decoding of objects into structs, and the
encoding of a struct of strings. -/

/-- A parsed JSON value. A number keeps its literal; an object keeps its members
in the order of the text, repeated keys included. -/
inductive JSON where
  | null
  | bool (b : Bool)
  | number (lit : String)
  | string (s : String)
  | array (elems : List JSON)
  | object (members : List (String × JSON))
deriving Repr

/-- The white space of JSON: space, tab, carriage return, line feed. -/
def isJSONSpace (c : Char) : Bool :=
  c = ' ' || c = '\t' || c = '\r' || c = '\n'

/-- Drops leading JSON white space. -/
def skipSpace : List Char → List Char
  | [] => []
  | c :: cs => if isJSONSpace c then skipSpace cs else c :: cs

/-- The value of a hexadecimal digit. -/
def hexVal (c : Char) : Option Nat :=
  if '0' ≤ c ∧ c ≤ '9' then some (c.toNat - '0'.toNat)
  else if 'a' ≤ c ∧ c ≤ 'f' then some (c.toNat - 'a'.toNat + 10)
  else if 'A' ≤ c ∧ c ≤ 'F' then some (c.toNat - 'A'.toNat + 10)
  else none

/-- The character a one-letter escape stands for, `none` for an invalid escape. -/
def simpleEscape (c : Char) : Option Char :=
  if c = '"' then some '"'
  else if c = '\\' then some '\\'
  else if c = '/' then some '/'
  else if c = 'b' then some (Char.ofNat 8)
  else if c = 'f' then some (Char.ofNat 12)
  else if c = 'n' then some '\n'
  else if c = 'r' then some '\r'
  else if c = 't' then some '\t'
  else none

/-- A unit of a string literal: a character, or a four-digit hexadecimal escape. -/
inductive StrUnit where
  | ch (c : Char)
  | u16 (n : Nat)
deriving DecidableEq, Repr

/-- Scans the characters of a string literal after its opening quote, up to the
closing quote: raw characters below U+0020 and invalid escapes are errors.
Returns the units read and the text after the closing quote. -/
def scanString : List Char → Option (List StrUnit × List Char)
  | [] => none
  | c :: rest =>
    if c = '"' then some ([], rest)
    else if c = '\\' then
      match rest with
      | [] => none
      | e :: rest1 =>
        if e = 'u' then
          match rest1 with
          | a :: b :: c1 :: d :: rest2 =>
            match hexVal a, hexVal b, hexVal c1, hexVal d with
            | some x, some y, some z, some w =>
              (scanString rest2).map fun p =>
                (StrUnit.u16 (((x * 16 + y) * 16 + z) * 16 + w) :: p.1, p.2)
            | _, _, _, _ => none
          | _ => none
        else
          match simpleEscape e with
          | none => none
          | some ch => (scanString rest1).map fun p => (StrUnit.ch ch :: p.1, p.2)
    else if c.toNat < 0x20 then none
    else (scanString rest).map fun p => (StrUnit.ch c :: p.1, p.2)

/-- The function `utf16.IsSurrogate`. -/
def isSurrogate (n : Nat) : Bool := 0xD800 ≤ n && n < 0xE000

/-- Turns the units of a literal into its characters: a high and a low surrogate
escape in a row give one character, any other surrogate escape gives U+FFFD. -/
def unquoteUnits : List StrUnit → List Char
  | [] => []
  | .ch c :: rest => c :: unquoteUnits rest
  | [.u16 rr] => [if isSurrogate rr then Char.ofNat 0xFFFD else Char.ofNat rr]
  | .u16 rr :: .ch c :: rest =>
    (if isSurrogate rr then Char.ofNat 0xFFFD else Char.ofNat rr) :: c :: unquoteUnits rest
  | .u16 rr :: .u16 rr1 :: rest =>
    if isSurrogate rr then
      if rr < 0xDC00 ∧ 0xDC00 ≤ rr1 ∧ rr1 < 0xE000 then
        Char.ofNat ((rr - 0xD800) * 1024 + (rr1 - 0xDC00) + 0x10000) :: unquoteUnits rest
      else Char.ofNat 0xFFFD :: unquoteUnits (.u16 rr1 :: rest)
    else Char.ofNat rr :: unquoteUnits (.u16 rr1 :: rest)

/-- The string value of a literal, and the text after its closing quote. -/
def unquote (cs : List Char) : Option (List Char × List Char) :=
  (scanString cs).map fun p => (unquoteUnits p.1, p.2)


/-- Splits off the leading decimal digits. -/
def spanDigits : List Char → List Char × List Char
  | [] => ([], [])
  | c :: cs =>
    if '0' ≤ c ∧ c ≤ '9' then ((spanDigits cs).1.cons c, (spanDigits cs).2)
    else ([], c :: cs)

/-- Scans the optional exponent of a number. -/
def scanExp (acc : List Char) (cs : List Char) : Option (List Char × List Char) :=
  match cs with
  | [] => some (acc, [])
  | e :: r =>
    if e = 'e' ∨ e = 'E' then
      match r with
      | [] => none
      | s :: r1 =>
        if s = '+' ∨ s = '-' then
          if (spanDigits r1).1 = [] then none
          else some (acc ++ e :: s :: (spanDigits r1).1, (spanDigits r1).2)
        else
          if (spanDigits r).1 = [] then none
          else some (acc ++ e :: (spanDigits r).1, (spanDigits r).2)
    else some (acc, cs)

/-- Scans the optional fraction of a number, then its exponent. -/
def scanFrac (acc : List Char) (cs : List Char) : Option (List Char × List Char) :=
  match cs with
  | [] => some (acc, [])
  | p :: r =>
    if p = '.' then
      if (spanDigits r).1 = [] then none
      else scanExp (acc ++ p :: (spanDigits r).1) (spanDigits r).2
    else scanExp acc cs

/-- Scans the integer part of a number (no leading zeros), then the rest. -/
def scanInt (acc : List Char) (cs : List Char) : Option (List Char × List Char) :=
  match cs with
  | [] => none
  | d :: r =>
    if d = '0' then scanFrac (acc ++ [d]) r
    else if '1' ≤ d ∧ d ≤ '9' then scanFrac (acc ++ d :: (spanDigits r).1) (spanDigits r).2
    else none

/-- Scans a JSON number; returns its literal and the text after it. -/
def scanNumber (cs : List Char) : Option (List Char × List Char) :=
  match cs with
  | [] => none
  | c :: r => if c = '-' then scanInt [c] r else scanInt [] cs

/-- Expects the remaining letters of `true`, `false` or `null`. -/
def scanLiteral (lit : List Char) (cs : List Char) : Option (List Char) :=
  if lit.isPrefixOf cs then some (cs.drop lit.length) else none

/-- The nesting limit of encoding/json. -/
def maxNestingDepth : Nat := 10000

/-! The value parser. `fuel` bounds the number of nested calls; `2 * n + 1` is
enough for a text of `n` characters, since each call either consumes a
character or is followed by one that does. `depth` counts the open arrays and
objects. -/

mutual
/-- Parses one JSON value, after optional white space. -/
def parseValue : Nat → Nat → List Char → Option (JSON × List Char)
  | 0, _, _ => none
  | fuel + 1, depth, cs =>
    match skipSpace cs with
    | [] => none
    | c :: rest =>
      if c = '"' then
        (unquote rest).map fun p => (JSON.string (String.mk p.1), p.2)
      else if c = '{' then
        if maxNestingDepth ≤ depth then none
        else
          match skipSpace rest with
          | [] => none
          | c1 :: rest1 =>
            if c1 = '}' then some (JSON.object [], rest1)
            else (parseMembers fuel (depth + 1) (c1 :: rest1)).map fun p => (JSON.object p.1, p.2)
      else if c = '[' then
        if maxNestingDepth ≤ depth then none
        else
          match skipSpace rest with
          | [] => none
          | c1 :: rest1 =>
            if c1 = ']' then some (JSON.array [], rest1)
            else (parseElems fuel (depth + 1) (c1 :: rest1)).map fun p => (JSON.array p.1, p.2)
      else if c = 't' then (scanLiteral ['r', 'u', 'e'] rest).map fun r => (JSON.bool true, r)
      else if c = 'f' then (scanLiteral ['a', 'l', 's', 'e'] rest).map fun r => (JSON.bool false, r)
      else if c = 'n' then (scanLiteral ['u', 'l', 'l'] rest).map fun r => (JSON.null, r)
      else (scanNumber (c :: rest)).map fun p => (JSON.number (String.mk p.1), p.2)
/-- Parses the elements of a non-empty array up to the closing bracket. -/
def parseElems : Nat → Nat → List Char → Option (List JSON × List Char)
  | 0, _, _ => none
  | fuel + 1, depth, cs =>
    match parseValue fuel depth cs with
    | none => none
    | some (v, rest) =>
      match skipSpace rest with
      | [] => none
      | c :: rest1 =>
        if c = ',' then (parseElems fuel depth rest1).map fun p => (v :: p.1, p.2)
        else if c = ']' then some ([v], rest1)
        else none
/-- Parses the members of a non-empty object up to the closing brace. -/
def parseMembers : Nat → Nat → List Char → Option (List (String × JSON) × List Char)
  | 0, _, _ => none
  | fuel + 1, depth, cs =>
    match skipSpace cs with
    | [] => none
    | q :: rest =>
      if q = '"' then
        match unquote rest with
        | none => none
        | some (key, rest1) =>
          match skipSpace rest1 with
          | [] => none
          | c :: rest2 =>
            if c = ':' then
              match parseValue fuel depth rest2 with
              | none => none
              | some (v, rest3) =>
                match skipSpace rest3 with
                | [] => none
                | c1 :: rest4 =>
                  if c1 = ',' then
                    (parseMembers fuel depth rest4).map fun p => ((String.mk key, v) :: p.1, p.2)
                  else if c1 = '}' then some ([(String.mk key, v)], rest4)
                  else none
            else none
      else none
end

/-- The first JSON value of the text, as `(*json.Decoder).Decode` reads it. -/
def jsonDecodeFirst (data : String) : Option JSON :=
  (parseValue (2 * data.data.length + 1) 0 data.data).map Prod.fst

/-- The JSON value of a text that holds exactly one, as `json.Unmarshal` requires. -/
def jsonUnmarshal (data : String) : Option JSON :=
  match parseValue (2 * data.data.length + 1) 0 data.data with
  | none => none
  | some (v, rest) => if skipSpace rest = [] then some v else none

/-- Case folding of a key character, as far as it can reach an ASCII letter:
besides the ASCII letters only U+017F and U+212A fold to one. -/
def foldRune (c : Char) : Char :=
  if 'a' ≤ c ∧ c ≤ 'z' then Char.ofNat (c.toNat - 32)
  else if c = Char.ofNat 0x17F then 'S'
  else if c = Char.ofNat 0x212A then 'K'
  else c

/-- The folded form of a key. -/
def foldName (s : String) : String := String.mk (s.data.map foldRune)

/-- Whether an object key selects the struct field with JSON name `name`: an
exact match, or else a match up to case folding. -/
def fieldMatches (name key : String) : Bool :=
  key = name || foldName key = foldName name

/-- Decoding of a JSON value into a `string` field: a string is stored, `null`
leaves the field as it is, anything else is an `UnmarshalTypeError`. -/
def bindString (cur : String) : JSON → Option String
  | .string s => some s
  | .null => some cur
  | _ => none

/-- The struct `credentials`, stored as JSON in a single keyring item. Its
fields are Go strings: they hold what the caller passed, byte for byte. -/
structure credentials where
  ClientID : Bytes
  ClientSecret : Bytes
deriving DecidableEq, Repr

/-- Decoding of a JSON value into a `string` field kept as bytes: the value of
a string literal is stored in UTF-8. -/
def bindGoString (cur : Bytes) : JSON → Option Bytes
  | .string s => some (utf8 s)
  | .null => some cur
  | _ => none

/-- Decoding of the members of an object into a `credentials` value; a key that
matches no field is skipped. -/
def bindCredentials (cur : credentials) : List (String × JSON) → Option credentials
  | [] => some cur
  | (k, v) :: rest =>
    if fieldMatches "client_id" k then
      match bindGoString cur.ClientID v with
      | none => none
      | some s => bindCredentials { cur with ClientID := s } rest
    else if fieldMatches "client_secret" k then
      match bindGoString cur.ClientSecret v with
      | none => none
      | some s => bindCredentials { cur with ClientSecret := s } rest
    else bindCredentials cur rest

/-- The call `json.Unmarshal(item.Data, &creds)` on the bytes of an item; `none`
when it returns an error. The decoder reads a byte that begins no valid UTF-8
encoding as U+FFFD inside a string literal and rejects it anywhere else, which
is what parsing the text `runes data` does. -/
def unmarshalCredentials (data : Bytes) : Option credentials :=
  match jsonUnmarshal (runes data) with
  | some (.object ms) => bindCredentials ⟨[], []⟩ ms
  | some .null => some ⟨[], []⟩
  | _ => none

/-- The hexadecimal digit of a value below 16, in lower case. -/
def hexDigit (n : Nat) : Char :=
  if n < 10 then Char.ofNat (48 + n) else Char.ofNat (87 + n)

/-- The table `htmlSafeSet` of encoding/json: the ASCII characters written as
they are when HTML escaping is on. -/
def htmlSafe (c : Char) : Bool :=
  0x20 ≤ c.toNat && c.toNat < 0x80 && c != '"' && c != '&' && c != '<' && c != '>' && c != '\\'

/-- How `json.Marshal` writes one character of a string that is text. -/
def quoteChar (c : Char) : List Char :=
  if c.toNat < 0x80 then
    if htmlSafe c then [c]
    else if c = '\\' ∨ c = '"' then ['\\', c]
    else if c.toNat = 8 then ['\\', 'b']
    else if c.toNat = 12 then ['\\', 'f']
    else if c = '\n' then ['\\', 'n']
    else if c = '\r' then ['\\', 'r']
    else if c = '\t' then ['\\', 't']
    else ['\\', 'u', '0', '0', hexDigit (c.toNat / 16), hexDigit (c.toNat % 16)]
  else if c.toNat = 0x2028 ∨ c.toNat = 0x2029 then
    ['\\', 'u', '2', '0', '2', hexDigit (c.toNat % 16)]
  else [c]

/-- How `json.Marshal` writes a string that is text. -/
def appendString (s : String) : List Char :=
  '"' :: (s.data.flatMap quoteChar ++ ['"'])

/-- How `json.Marshal` writes one rune `c, size := utf8.DecodeRuneInString(s[i:])`
of a Go string: `c == utf8.RuneError && size == 1`, a byte that begins no valid
encoding, is written as the escape `\ufffd`. -/
def quoteRune (u : Char × Nat) : List Char :=
  if u.1 = RuneError ∧ u.2 = 1 then ['\\', 'u', 'f', 'f', 'f', 'd'] else quoteChar u.1

/-- How `json.Marshal` writes a Go string. -/
def appendGoString (s : Bytes) : List Char :=
  '"' :: ((decodeRunes s 0).flatMap quoteRune ++ ['"'])

/-- The call `json.Marshal(creds)` for a `credentials` value; it cannot fail.
The result is the UTF-8 encoding of the JSON text. -/
def marshalCredentials (c : credentials) : Bytes :=
  utf8 (String.mk ("\x7b\"client_id\":".data ++ appendGoString c.ClientID ++
    ",\"client_secret\":".data ++ appendGoString c.ClientSecret ++ ['}']))

/-! Two functions used to state how a quoted string scans. -/

/-- The unit of a string literal that `quoteChar c` scans as. -/
def unitOf (c : Char) : StrUnit :=
  if (quoteChar c).length = 6 then StrUnit.u16 c.toNat else StrUnit.ch c

/-- The character a non-surrogate unit stands for. -/
def unitChar : StrUnit → Char
  | .ch c => c
  | .u16 n => Char.ofNat n

/-- The unit of a string literal that `quoteRune u` scans as. -/
def unitOfRune (u : Char × Nat) : StrUnit :=
  if u.1 = RuneError ∧ u.2 = 1 then StrUnit.u16 0xFFFD else unitOf u.1

/-! ## internal/auth/keyring.go -/

/-- The function `unicode.IsSpace`. -/
def isSpace (c : Char) : Bool :=
  let n := c.toNat
  (0x09 ≤ n && n ≤ 0x0D) || n = 0x20 || n = 0x85 || n = 0xA0 || n = 0x1680 ||
  (0x2000 ≤ n && n ≤ 0x200A) || n = 0x2028 || n = 0x2029 || n = 0x202F ||
  n = 0x205F || n = 0x3000

/-- The function `strings.TrimSpace`. -/
def TrimSpace (s : String) : String :=
  String.mk ((s.data.dropWhile isSpace).rdropWhile isSpace)

/-- An error of the secret-storage backend: `keyring.ErrKeyNotFound`, which
`errors.Is` recognises, or any other failure. -/
inductive KeyringError where
  | ErrKeyNotFound
  | other (msg : String)
deriving DecidableEq, Repr

/-- The secret-storage backend behind the `keyring.Keyring` interface.
`items` maps the key of a stored item to its data, a byte slice. `calls` counts the calls
made so far and `fault n`, when present, is the error with which the `n`-th
call fails, leaving the items as they are. `removeAbsent` is what `Remove`
returns for a key that is not stored, which differs between backends. -/
structure Keyring where
  items : String → Option Bytes
  calls : Nat
  fault : Nat → Option KeyringError
  removeAbsent : Option KeyringError

/-- The method `Get` of the backend. -/
def Keyring.Get (r : Keyring) (key : String) : Except KeyringError Bytes × Keyring :=
  let r1 := { r with calls := r.calls + 1 }
  match r.fault r.calls with
  | some err => (.error err, r1)
  | none =>
    match r.items key with
    | some data => (.ok data, r1)
    | none => (.error KeyringError.ErrKeyNotFound, r1)

/-- The method `Set` of the backend; the result is the returned `error`. -/
def Keyring.Set (r : Keyring) (key : String) (data : Bytes) :
    Option KeyringError × Keyring :=
  match r.fault r.calls with
  | some err => (some err, { r with calls := r.calls + 1 })
  | none =>
    (none, { r with calls := r.calls + 1,
                    items := fun k => if k = key then some data else r.items k })

/-- The method `Remove` of the backend; the result is the returned `error`. -/
def Keyring.Remove (r : Keyring) (key : String) : Option KeyringError × Keyring :=
  match r.fault r.calls with
  | some err => (some err, { r with calls := r.calls + 1 })
  | none =>
    match r.items key with
    | some _ =>
      (none, { r with calls := r.calls + 1,
                      items := fun k => if k = key then none else r.items k })
    | none => (r.removeAbsent, { r with calls := r.calls + 1 })

/-- A backend none of whose calls fails by an injected fault. -/
def Keyring.reliable (r : Keyring) : Prop := ∀ n, r.fault n = none

/-- Errors of the credential store: `errMissingProfile` and one constructor per
`fmt.Errorf` wrapping a backend error. -/
inductive StoreError where
  | errMissingProfile
  | getCredentials (err : KeyringError)
  | storeCredentials (err : KeyringError)
  | deleteCredentials (err : KeyringError)
deriving DecidableEq, Repr

/-- The error the specification calls `CredentialsNotFound`: the wrapped
`keyring.ErrKeyNotFound` of a failed read. -/
def CredentialsNotFound : StoreError := StoreError.getCredentials KeyringError.ErrKeyNotFound

/-- The function `credentialsKey`. -/
def credentialsKey (profile : String) : String :=
  "ponto:" ++ profile ++ ":credentials"

/-- The function `legacyClientIDKey`. -/
def legacyClientIDKey (profile : String) : String :=
  "ponto:" ++ profile ++ ":client_id"

/-- The function `legacyClientSecretKey`. -/
def legacyClientSecretKey (profile : String) : String :=
  "ponto:" ++ profile ++ ":client_secret"

/-- The method `(*KeyringStore).SetCredentials`. -/
def SetCredentials (s : Keyring) (profile : String) (clientID clientSecret : Bytes) :
    Option StoreError × Keyring :=
  let profile := TrimSpace profile
  if profile = "" then (some StoreError.errMissingProfile, s)
  else
    let creds : credentials := { ClientID := clientID, ClientSecret := clientSecret }
    let data := marshalCredentials creds
    match s.Set (credentialsKey profile) data with
    | (some err, s1) => (some (StoreError.storeCredentials err), s1)
    | (none, s1) => (none, s1)

/-- The method `(*KeyringStore).GetCredentials`. -/
def GetCredentials (s : Keyring) (profile : String) :
    Except StoreError (Bytes × Bytes) × Keyring :=
  let profile := TrimSpace profile
  if profile = "" then (.error StoreError.errMissingProfile, s)
  else
    -- Try new unified key first
    let got := s.Get (credentialsKey profile)
    let unified : Option credentials :=
      match got.1 with
      | .ok data => unmarshalCredentials data
      | .error _ => none
    match unified with
    | some creds => (.ok (creds.ClientID, creds.ClientSecret), got.2)
    | none =>
      -- Fall back to legacy separate keys and migrate
      match got.2.Get (legacyClientIDKey profile) with
      | (.error err, s2) => (.error (StoreError.getCredentials err), s2)
      | (.ok idData, s2) =>
        match s2.Get (legacyClientSecretKey profile) with
        | (.error err, s3) => (.error (StoreError.getCredentials err), s3)
        | (.ok secretData, s3) =>
          let clientID := idData
          let clientSecret := secretData
          -- Migrate to new format
          let s4 := (SetCredentials s3 profile clientID clientSecret).2
          -- Clean up legacy keys
          let s5 := (s4.Remove (legacyClientIDKey profile)).2
          let s6 := (s5.Remove (legacyClientSecretKey profile)).2
          (.ok (clientID, clientSecret), s6)

/-- The method `(*KeyringStore).DeleteCredentials`. -/
def DeleteCredentials (s : Keyring) (profile : String) : Option StoreError × Keyring :=
  let profile := TrimSpace profile
  if profile = "" then (some StoreError.errMissingProfile, s)
  else
    -- Remove new key
    let removed := s.Remove (credentialsKey profile)
    match removed.1 with
    | some (KeyringError.other msg) =>
      (some (StoreError.deleteCredentials (KeyringError.other msg)), removed.2)
    | _ =>
      -- Also clean up legacy keys if they exist
      let s2 := (removed.2.Remove (legacyClientIDKey profile)).2
      let s3 := (s2.Remove (legacyClientSecretKey profile)).2
      (none, s3)

/-! ## internal/api/types.go -/

/-- A Go `float64`, kept as its bit pattern: no arithmetic is done on it. -/
structure Float64 where
  bits : Nat
deriving DecidableEq, Repr

/-- The struct `Transaction`. -/
structure Transaction where
  ID : String
  Amount : Float64
  Currency : String
  Description : String
  CounterpartName : String
  CounterpartRef : String
  RemittanceInfo : String
  RemittanceInfoType : String
  EndToEndID : String
  InternalRef : String
  BankTransactionCode : String
  ExecutionDate : String
  ValueDate : String
deriving DecidableEq, Repr

/-- The struct `Account`. -/
structure Account where
  ID : String
  Description : String
  Reference : String
  Product : String
  Currency : String
  CurrentBalance : Float64
  AvailableBalance : Float64
  Deprecated : Bool
deriving DecidableEq, Repr

/-- The struct `PendingTransaction`. -/
structure PendingTransaction where
  ID : String
  Amount : Float64
  Currency : String
  Description : String
  CounterpartName : String
  CounterpartRef : String
  RemittanceInfo : String
  ValueDate : String
deriving DecidableEq, Repr

/-- One entry of the field `Errors` of a `Synchronization`. -/
structure SyncError where
  Code : String
  Message : String
deriving DecidableEq, Repr

/-- The struct `Synchronization`. -/
structure Synchronization where
  ID : String
  Subtype : String
  Status : String
  CreatedAt : String
  UpdatedAt : String
  Errors : List SyncError
deriving DecidableEq, Repr

/-- The struct `FinancialInstitution`. -/
structure FinancialInstitution where
  ID : String
  Name : String
  Country : String
  Status : String
  MaintenanceFrom : String
  MaintenanceTo : String
deriving DecidableEq, Repr

/-- The struct `Organization`. -/
structure Organization where
  ID : String
  Name : String
deriving DecidableEq, Repr

/-- The resource types that the client exposes as typed results: the types
that the type parameter `T` of `decodeResponse` and `decodeListResponse`
ranges over. -/
inductive Kind where
  | Account
  | Transaction
  | PendingTransaction
  | Synchronization
  | FinancialInstitution
  | Organization
deriving DecidableEq, Repr

/-- The Go type of a resource kind. -/
def Kind.type : Kind → Type
  | .Account => Ponto.Account
  | .Transaction => Ponto.Transaction
  | .PendingTransaction => Ponto.PendingTransaction
  | .Synchronization => Ponto.Synchronization
  | .FinancialInstitution => Ponto.FinancialInstitution
  | .Organization => Ponto.Organization

/-- The field `ID` of a value of a resource kind. -/
def Kind.idOf : (k : Kind) → k.type → String
  | .Account, (r : Ponto.Account) => r.ID
  | .Transaction, (r : Ponto.Transaction) => r.ID
  | .PendingTransaction, (r : Ponto.PendingTransaction) => r.ID
  | .Synchronization, (r : Ponto.Synchronization) => r.ID
  | .FinancialInstitution, (r : Ponto.FinancialInstitution) => r.ID
  | .Organization, (r : Ponto.Organization) => r.ID

/-- The assignment `item.ID = id` for a value of a resource kind: what the
identity setters passed to `decodeListResponse` do. -/
def Kind.setID : (k : Kind) → k.type → String → k.type
  | .Account, (r : Ponto.Account), id => ({ r with ID := id } : Ponto.Account)
  | .Transaction, (r : Ponto.Transaction), id => ({ r with ID := id } : Ponto.Transaction)
  | .PendingTransaction, (r : Ponto.PendingTransaction), id =>
    ({ r with ID := id } : Ponto.PendingTransaction)
  | .Synchronization, (r : Ponto.Synchronization), id =>
    ({ r with ID := id } : Ponto.Synchronization)
  | .FinancialInstitution, (r : Ponto.FinancialInstitution), id =>
    ({ r with ID := id } : Ponto.FinancialInstitution)
  | .Organization, (r : Ponto.Organization), id => ({ r with ID := id } : Ponto.Organization)

/-- The struct `TransactionListOptions`. -/
structure TransactionListOptions where
  Since : String
  Until : String
  Limit : Int
deriving DecidableEq, Repr

/-- The struct `Links`. -/
structure Links where
  First : String
  Last : String
  Prev : String
  Next : String
deriving DecidableEq, Repr

/-- The struct `Paging`. -/
structure Paging where
  Before : String
  After : String
  Limit : Int
deriving DecidableEq, Repr

/-- The struct `ListMeta`; `none` is the nil pointer. -/
structure ListMeta where
  Paging : Option Paging
deriving DecidableEq, Repr

/-- The struct `Resource`. `Attributes` holds the members of the attribute
object in the order of the text; `none` is the nil map. -/
structure Resource where
  ID : String
  Type' : String
  Attributes : Option (List (String × JSON))

/-- The struct `ListWrapper[Resource]`; `none` is a nil pointer. -/
structure ListWrapper where
  Data : List Resource
  Links : Option Links
  Meta : Option ListMeta

/-- The struct `APIError`. -/
structure APIError where
  StatusCode : Int
  Code : String
  Message : String
deriving DecidableEq, Repr

/-- The method `(*APIError).Error`. -/
def APIError.Error (e : APIError) : String :=
  if e.Message ≠ "" then e.Message else e.Code

/-! ## internal/api/client.go -/

/-- An `http.Response` as the client reads it: the status code and the bytes
that reading the body yields. -/
structure Response where
  StatusCode : Int
  Body : String
deriving DecidableEq, Repr

/-- Errors returned by the resource client, one constructor per error path. -/
inductive Error where
  /-- the `*APIError` built by `parseAPIError`. -/
  | api (e : APIError)
  /-- the error wrapped as `decode response`. -/
  | decodeResponse
  /-- the errors wrapped as `marshal attributes`, `unmarshal to type` and
  `unmarshal transaction`. -/
  | unmarshalAttributes (msg : String)
  /-- an error of `(*Client).do`: no access token, or the request failed. -/
  | request (msg : String)
  /-- the error wrapped as `invalid since date`. -/
  | invalidSince (msg : String)
  /-- the error wrapped as `invalid until date`. -/
  | invalidUntil (msg : String)
  /-- the error `ctx.Err()` of a context that is done. -/
  | context (msg : String)
deriving DecidableEq, Repr

/-- One entry of the anonymous struct that `parseAPIError` decodes into. -/
structure ErrorEntry where
  Code : String
  Detail : String
deriving DecidableEq, Repr

/-- Decoding of the members of an object into an error entry. -/
def bindErrorEntry (cur : ErrorEntry) : List (String × JSON) → Option ErrorEntry
  | [] => some cur
  | (k, v) :: rest =>
    if fieldMatches "code" k then
      match bindString cur.Code v with
      | none => none
      | some s => bindErrorEntry { cur with Code := s } rest
    else if fieldMatches "detail" k then
      match bindString cur.Detail v with
      | none => none
      | some s => bindErrorEntry { cur with Detail := s } rest
    else bindErrorEntry cur rest

/-- Decoding of one array element into an error entry: `null` leaves the
element as it is, a value that is no object is an `UnmarshalTypeError`. -/
def bindErrorElem (cur : ErrorEntry) : JSON → Option ErrorEntry
  | .object ms => bindErrorEntry cur ms
  | .null => some cur
  | _ => none

/-- Decoding of an array into the slice `Errors`: the elements are decoded one
by one over the elements the slice already has, new ones over zero values. -/
def bindErrorArray : List ErrorEntry → List JSON → Option (List ErrorEntry)
  | _, [] => some []
  | cur, v :: vs =>
    match bindErrorElem (cur.headD { Code := "", Detail := "" }) v with
    | none => none
    | some e =>
      match bindErrorArray cur.tail vs with
      | none => none
      | some es => some (e :: es)

/-- Decoding of the members of an object into the field `Errors`. -/
def bindErrResp (cur : List ErrorEntry) : List (String × JSON) → Option (List ErrorEntry)
  | [] => some cur
  | (k, v) :: rest =>
    if fieldMatches "errors" k then
      match v with
      | .array vs =>
        match bindErrorArray cur vs with
        | none => none
        | some es => bindErrResp es rest
      | .null => bindErrResp [] rest
      | _ => none
    else bindErrResp cur rest

/-- The call `json.Unmarshal(body, &errResp)` of `parseAPIError`: the decoded
`errResp.Errors`, or `none` when it returns an error. -/
def unmarshalErrResp (body : String) : Option (List ErrorEntry) :=
  match jsonUnmarshal body with
  | some (.object ms) => bindErrResp [] ms
  | some .null => some []
  | _ => none

/-- The function `parseAPIError`. -/
def parseAPIError (resp : Response) : APIError :=
  let body := resp.Body
  let apiErr : APIError := { StatusCode := resp.StatusCode, Code := "", Message := "" }
  match unmarshalErrResp body with
  | some (e :: _) => { apiErr with Code := e.Code, Message := e.Detail }
  | _ => { apiErr with Message := body }

/-- The call `strconv.ParseInt(lit, 10, 64)`, which decodes a JSON number
into an `int` field: an optional sign and decimal digits, within 64 bits. -/
def parseInt64 (lit : String) : Option Int :=
  let digits : List Char :=
    match lit.data with
    | [] => []
    | c :: r => if c = '-' ∨ c = '+' then r else c :: r
  if digits = [] ∨ ¬ digits.all (fun c => decide ('0' ≤ c ∧ c ≤ '9')) then none
  else
    let v : Int := Int.ofNat (digits.foldl (fun a c => a * 10 + (c.toNat - 48)) 0)
    let x : Int := if lit.data.head? = some '-' then -v else v
    if -(2 ^ 63) ≤ x ∧ x < 2 ^ 63 then some x else none

/-- Decoding of a JSON value into an `int` field. -/
def bindInt (cur : Int) : JSON → Option Int
  | .number lit => parseInt64 lit
  | .null => some cur
  | _ => none

/-- Decoding of the members of an object into a `Links` value. -/
def bindLinks (cur : Links) : List (String × JSON) → Option Links
  | [] => some cur
  | (k, v) :: rest =>
    if fieldMatches "first" k then
      match bindString cur.First v with
      | none => none
      | some s => bindLinks { cur with First := s } rest
    else if fieldMatches "last" k then
      match bindString cur.Last v with
      | none => none
      | some s => bindLinks { cur with Last := s } rest
    else if fieldMatches "prev" k then
      match bindString cur.Prev v with
      | none => none
      | some s => bindLinks { cur with Prev := s } rest
    else if fieldMatches "next" k then
      match bindString cur.Next v with
      | none => none
      | some s => bindLinks { cur with Next := s } rest
    else bindLinks cur rest

/-- Decoding of the members of an object into a `Paging` value. -/
def bindPaging (cur : Paging) : List (String × JSON) → Option Paging
  | [] => some cur
  | (k, v) :: rest =>
    if fieldMatches "before" k then
      match bindString cur.Before v with
      | none => none
      | some s => bindPaging { cur with Before := s } rest
    else if fieldMatches "after" k then
      match bindString cur.After v with
      | none => none
      | some s => bindPaging { cur with After := s } rest
    else if fieldMatches "limit" k then
      match bindInt cur.Limit v with
      | none => none
      | some n => bindPaging { cur with Limit := n } rest
    else bindPaging cur rest

/-- Decoding of the members of an object into a `ListMeta` value. -/
def bindListMeta (cur : ListMeta) : List (String × JSON) → Option ListMeta
  | [] => some cur
  | (k, v) :: rest =>
    if fieldMatches "paging" k then
      match v with
      | .object ms =>
        match bindPaging (cur.Paging.getD { Before := "", After := "", Limit := 0 }) ms with
        | none => none
        | some pg => bindListMeta { cur with Paging := some pg } rest
      | .null => bindListMeta { cur with Paging := none } rest
      | _ => none
    else bindListMeta cur rest

/-- The parts of encoding/json that handle the attribute map of a resource,
which is where `float64` enters. `decodable ms` tells whether the members `ms`
of an attribute object decode into `map[string]any` (a number outside the
range of `float64` does not). `unmarshal attrs` is `json.Marshal(attrs)`
followed by `json.Unmarshal(b, &item)` into the target type `T`. -/
structure AttrCodec (T : Type) where
  decodable : List (String × JSON) → Bool
  unmarshal : Option (List (String × JSON)) → Except String T

/-- Decoding of the members of an object into a `Resource` value. -/
def bindResource (decodable : List (String × JSON) → Bool) (cur : Resource) :
    List (String × JSON) → Option Resource
  | [] => some cur
  | (k, v) :: rest =>
    if fieldMatches "id" k then
      match bindString cur.ID v with
      | none => none
      | some s => bindResource decodable { cur with ID := s } rest
    else if fieldMatches "type" k then
      match bindString cur.Type' v with
      | none => none
      | some s => bindResource decodable { cur with Type' := s } rest
    else if fieldMatches "attributes" k then
      match v with
      | .object ms =>
        if decodable ms then
          bindResource decodable { cur with Attributes := some (cur.Attributes.getD [] ++ ms) } rest
        else none
      | .null => bindResource decodable { cur with Attributes := none } rest
      | _ => none
    else bindResource decodable cur rest

/-- Decoding of an array into the slice `Data`, element by element over the
elements the slice already has, new ones over zero values. -/
def bindResources (decodable : List (String × JSON) → Bool) :
    List Resource → List JSON → Option (List Resource)
  | _, [] => some []
  | cur, v :: vs =>
    let cur0 : Resource := cur.headD { ID := "", Type' := "", Attributes := none }
    let elem : Option Resource :=
      match v with
      | .object ms => bindResource decodable cur0 ms
      | .null => some cur0
      | _ => none
    match elem with
    | none => none
    | some r =>
      match bindResources decodable cur.tail vs with
      | none => none
      | some rs => some (r :: rs)

/-- Decoding of the members of an object into a `ListWrapper[Resource]`. -/
def bindListWrapper (decodable : List (String × JSON) → Bool) (cur : ListWrapper) :
    List (String × JSON) → Option ListWrapper
  | [] => some cur
  | (k, v) :: rest =>
    if fieldMatches "data" k then
      match v with
      | .array vs =>
        match bindResources decodable cur.Data vs with
        | none => none
        | some rs => bindListWrapper decodable { cur with Data := rs } rest
      | .null => bindListWrapper decodable { cur with Data := [] } rest
      | _ => none
    else if fieldMatches "links" k then
      match v with
      | .object ms =>
        match bindLinks (cur.Links.getD { First := "", Last := "", Prev := "", Next := "" }) ms with
        | none => none
        | some l => bindListWrapper decodable { cur with Links := some l } rest
      | .null => bindListWrapper decodable { cur with Links := none } rest
      | _ => none
    else if fieldMatches "meta" k then
      match v with
      | .object ms =>
        match bindListMeta (cur.Meta.getD { Paging := none }) ms with
        | none => none
        | some m => bindListWrapper decodable { cur with Meta := some m } rest
      | .null => bindListWrapper decodable { cur with Meta := none } rest
      | _ => none
    else bindListWrapper decodable cur rest

/-- The call `json.NewDecoder(resp.Body).Decode(&wrapper)` for a list wrapper:
the first JSON value of the body is decoded, what follows it is not read. -/
def decodeListWrapper (decodable : List (String × JSON) → Bool) (body : String) :
    Option ListWrapper :=
  match jsonDecodeFirst body with
  | some (.object ms) => bindListWrapper decodable { Data := [], Links := none, Meta := none } ms
  | some .null => some { Data := [], Links := none, Meta := none }
  | _ => none

/-- The loop of `decodeTransactionPage` over `wrapper.Data`. -/
def decodeTransactions (codec : AttrCodec Transaction) :
    List Resource → Except Error (List Transaction)
  | [] => .ok []
  | res :: rest =>
    match codec.unmarshal res.Attributes with
    | .error msg => .error (Error.unmarshalAttributes msg)
    | .ok tx =>
      match decodeTransactions codec rest with
      | .error e => .error e
      | .ok txs => .ok ({ tx with ID := res.ID } :: txs)

/-- The function `decodeTransactionPage`: the transactions of a page and the
next page URL, empty when there is none. -/
def decodeTransactionPage (codec : AttrCodec Transaction) (resp : Response) :
    Except Error (List Transaction × String) :=
  if resp.StatusCode ≥ 400 then .error (Error.api (parseAPIError resp))
  else
    match decodeListWrapper codec.decodable resp.Body with
    | none => .error Error.decodeResponse
    | some wrapper =>
      match decodeTransactions codec wrapper.Data with
      | .error e => .error e
      | .ok transactions =>
        let nextPath : String :=
          match wrapper.Links with
          | some links => if links.Next ≠ "" then links.Next else ""
          | none => ""
        .ok (transactions, nextPath)

/-- The type switch at the end of `decodeResponse`, which sets the `ID` of the
result: it has a case for `*Account`, `*Transaction`, `*Synchronization`,
`*FinancialInstitution` and `*Organization`; a result of any other type is
left as it is. -/
def injectID : (k : Kind) → k.type → String → k.type
  | .Account, r, id => Kind.setID .Account r id
  | .Transaction, r, id => Kind.setID .Transaction r id
  | .Synchronization, r, id => Kind.setID .Synchronization r id
  | .FinancialInstitution, r, id => Kind.setID .FinancialInstitution r id
  | .Organization, r, id => Kind.setID .Organization r id
  | .PendingTransaction, r, _ => r

/-- Decoding of the members of an object into a `DataWrapper[Resource]`, whose
only field is `Data`. -/
def bindDataWrapper (decodable : List (String × JSON) → Bool) (cur : Resource) :
    List (String × JSON) → Option Resource
  | [] => some cur
  | (k, v) :: rest =>
    if fieldMatches "data" k then
      match v with
      | .object ms =>
        match bindResource decodable cur ms with
        | none => none
        | some r => bindDataWrapper decodable r rest
      | .null => bindDataWrapper decodable cur rest
      | _ => none
    else bindDataWrapper decodable cur rest

/-- The call `json.NewDecoder(resp.Body).Decode(&wrapper)` for a single
resource: the decoded `wrapper.Data`, `none` when it returns an error. -/
def decodeDataWrapper (decodable : List (String × JSON) → Bool) (body : String) :
    Option Resource :=
  match jsonDecodeFirst body with
  | some (.object ms) =>
    bindDataWrapper decodable { ID := "", Type' := "", Attributes := none } ms
  | some .null => some { ID := "", Type' := "", Attributes := none }
  | _ => none

/-- The function `decodeResponse[T]` for the resource kind `k`. -/
def decodeResponse (k : Kind) (codec : AttrCodec k.type) (resp : Response) :
    Except Error k.type :=
  if resp.StatusCode ≥ 400 then .error (Error.api (parseAPIError resp))
  else
    match decodeDataWrapper codec.decodable resp.Body with
    | none => .error Error.decodeResponse
    | some data =>
      -- Convert Resource to T
      match codec.unmarshal data.Attributes with
      | .error msg => .error (Error.unmarshalAttributes msg)
      | .ok result =>
        -- Set ID if the result has an ID field
        .ok (injectID k result data.ID)

/-- The loop of `decodeListResponse[T]` over `wrapper.Data`; `setID` is the
identity setter, `none` when it is nil. -/
def decodeItems {T : Type} (codec : AttrCodec T) (setID : Option (T → String → T)) :
    List Resource → Except Error (List T)
  | [] => .ok []
  | res :: rest =>
    match codec.unmarshal res.Attributes with
    | .error msg => .error (Error.unmarshalAttributes msg)
    | .ok item =>
      let item1 : T :=
        match setID with
        | some f => f item res.ID
        | none => item
      match decodeItems codec setID rest with
      | .error e => .error e
      | .ok items => .ok (item1 :: items)

/-- The function `decodeListResponse[T]`. -/
def decodeListResponse {T : Type} (codec : AttrCodec T) (setID : Option (T → String → T))
    (resp : Response) : Except Error (List T) :=
  if resp.StatusCode ≥ 400 then .error (Error.api (parseAPIError resp))
  else
    match decodeListWrapper codec.decodable resp.Body with
    | none => .error Error.decodeResponse
    | some wrapper => decodeItems codec setID wrapper.Data

/-- The calls of the `time` package that `parseDate` makes. `nowAddDays n` is
`time.Now().AddDate(0, 0, n).Format("2006-01-02")`; `parseDateOnly s` tells
whether `time.Parse("2006-01-02", s)` succeeds; `parseRFC3339 s` is
`time.Parse(time.RFC3339, s)` followed by `t.Format("2006-01-02")`, `none`
when parsing fails. -/
structure TimeLib where
  nowAddDays : Int → String
  parseDateOnly : String → Bool
  parseRFC3339 : String → Option String

/-- The loop of `parseDate` over the digits of a relative date; `none` when a
character is no decimal digit. -/
def relativeDays : List Char → Int → Option Int
  | [], days => some days
  | c :: cs, days =>
    if c < '0' ∨ c > '9' then none
    else relativeDays cs (wrapInt64 (days * 10 + (Int.ofNat c.toNat - 48)))

/-- The function `parseDate`. -/
def parseDate (tl : TimeLib) (s : String) : Except String String :=
  if s.data.length > 1 ∧ s.data.head? = some '-' ∧ s.data.getLast? = some 'd' then
    let daysStr := (s.data.drop 1).dropLast
    match relativeDays daysStr 0 with
    | none => .error ("invalid relative date: " ++ s)
    | some days => .ok (tl.nowAddDays (wrapInt64 (-days)))
  else if tl.parseDateOnly s then .ok s
  else
    match tl.parseRFC3339 s with
    | some d => .ok d
    | none => .error ("unsupported date format: " ++ s ++ " (use YYYY-MM-DD or -Nd)")

/-- The upper-case hexadecimal digit of a value below 16. -/
def upperHexDigit (n : Nat) : Char :=
  if n < 10 then Char.ofNat (48 + n) else Char.ofNat (55 + n)

/-- The function `url.QueryEscape`: letters, digits, `-`, `_`, `.` and `~` are
kept, a space becomes `+`, every other byte is percent-encoded. -/
def QueryEscape (s : String) : String :=
  String.mk (s.data.flatMap fun c =>
    if c.isAlphanum ∨ c = '-' ∨ c = '_' ∨ c = '.' ∨ c = '~' then [c]
    else if c = ' ' then ['+']
    else (utf8Bytes c).flatMap fun b => ['%', upperHexDigit (b / 16), upperHexDigit (b % 16)])

/-- The formatting of an `int` by the verb `%d`. -/
def formatInt (n : Int) : String :=
  if n < 0 then "-" ++ Nat.repr n.natAbs else Nat.repr n.toNat

/-- The constant `maxPageSize`. -/
def maxPageSize : Int := 100

/-- The page size `ListTransactions` asks for: the API maximum, or the
caller's limit when that is smaller. -/
def pageSize (opts : TransactionListOptions) : Int :=
  if opts.Limit > 0 ∧ opts.Limit < maxPageSize then opts.Limit else maxPageSize

/-- The first part of `ListTransactions`: the path and query of the first
request. The keys of `params.Encode()` come out sorted and escaped. -/
def transactionsPath (tl : TimeLib) (accountID : String) (opts : TransactionListOptions) :
    Except Error String :=
  let basePath := "/accounts/" ++ accountID ++ "/transactions"
  let limitParam := "limit=" ++ QueryEscape (formatInt (pageSize opts))
  let sinceParam : Except Error String :=
    if opts.Since ≠ "" then
      match parseDate tl opts.Since with
      | .error msg => .error (Error.invalidSince msg)
      | .ok since => .ok ("filter%5BvalueDate%5D%5Bgte%5D=" ++ QueryEscape since ++ "&")
    else .ok ""
  let untilParam : Except Error String :=
    if opts.Until ≠ "" then
      match parseDate tl opts.Until with
      | .error msg => .error (Error.invalidUntil msg)
      | .ok until_ => .ok ("filter%5BvalueDate%5D%5Blte%5D=" ++ QueryEscape until_ ++ "&")
    else .ok ""
  match sinceParam with
  | .error e => .error e
  | .ok since =>
    match untilParam with
    | .error e => .error e
    | .ok until_ => .ok (basePath ++ "?" ++ since ++ until_ ++ limitParam)

/-- A parsed `url.URL`: the scheme, the user information (empty when there is
none), the host, the decoded path and the raw query. The client reads the
last two only. -/
structure URL where
  Scheme : String
  User : String
  Host : String
  Path : String
  RawQuery : String
deriving DecidableEq, Repr

/-- What a call of the client ends in: a value, an error, or a run-time panic. -/
inductive CallResult (α : Type) where
  | ok (v : α)
  | error (e : Error)
  | panic
deriving DecidableEq, Repr

/-- The record of a call: its result, `none` when the model ran out of fuel,
and the paths it requested, in order. -/
structure Run (α : Type) where
  result : Option (CallResult α)
  requests : List String
deriving DecidableEq, Repr

/-- The environment of the resource client. `get n path` is what
`(*Client).get` returns for the `n`-th request of a call (it obtains the
access token and sends the request through the transport); `urlParse` is
`url.Parse`, `none` when it returns an error and a nil URL. -/
structure Env where
  get : Nat → String → Except Error Response
  urlParse : String → Option URL
  time : TimeLib
  codec : AttrCodec Transaction

/-- The constant `baseURL`. -/
def baseURL : String := "https://api.myponto.com"

/-- The URL that `(*Client).do` builds for a request: `u := baseURL + path`. -/
def requestURL (path : String) : String := baseURL ++ path

/-- The authority component of an absolute URL: the text between the `//`
that follows the scheme and the next `/`, `?` or `#`; it names the host a
request is sent to. Empty when the text has no such component. -/
def urlAuthority (u : String) : String :=
  match u.data.dropWhile (fun c => c ≠ ':') with
  | ':' :: '/' :: '/' :: rest =>
    String.mk (rest.takeWhile fun c => c ≠ '/' ∧ c ≠ '?' ∧ c ≠ '#')
  | _ => ""

/-- The text of an absolute URL after its authority: the path, the query and
the fragment as they are written. Empty when the text has no authority. -/
def urlAfterAuthority (u : String) : List Char :=
  match u.data.dropWhile (fun c => c ≠ ':') with
  | ':' :: '/' :: '/' :: rest => rest.dropWhile fun c => c ≠ '/' ∧ c ≠ '?' ∧ c ≠ '#'
  | _ => []

/-- The path component of an absolute URL as it is written: the text from the
end of the authority to the first `?` or `#`. -/
def urlPath (u : String) : String :=
  String.mk ((urlAfterAuthority u).takeWhile fun c => c ≠ '?' ∧ c ≠ '#')

/-- The query component of an absolute URL as it is written: the text between
the `?` that ends the path and the `#`, empty when there is none. -/
def urlQuery (u : String) : String :=
  match (urlAfterAuthority u).dropWhile (fun c => c ≠ '?' ∧ c ≠ '#') with
  | '?' :: rest => String.mk (rest.takeWhile fun c => c ≠ '#')
  | _ => ""

/-- The function `unescape` of package net/url in the mode of a path, on a text
whose escapes name ASCII characters: each `%XX` becomes the character with the
code XX; `none` for a `%` that two hexadecimal digits do not follow. -/
def unescape : List Char → Option (List Char)
  | [] => some []
  | '%' :: a :: b :: rest =>
    match hexVal a, hexVal b with
    | some x, some y => (unescape rest).map fun r => Char.ofNat (x * 16 + y) :: r
    | _, _ => none
  | '%' :: _ => none
  | c :: rest => (unescape rest).map fun r => c :: r

/-- The path of the next request, taken from the parsed next link. -/
def nextRequestPath (nextURL : URL) : String :=
  if nextURL.RawQuery ≠ "" then nextURL.Path ++ "?" ++ nextURL.RawQuery else nextURL.Path

/-- The `for` loop of `ListTransactions`. `fuel` bounds the number of
iterations, `n` counts the requests made, `path` is the path to request and
`allTransactions` what has been accumulated. -/
def listTransactionsLoop (env : Env) (limit : Int) :
    Nat → Nat → String → List Transaction → Run (List Transaction)
  | 0, _, _, _ => { result := none, requests := [] }
  | fuel + 1, n, path, allTransactions =>
    match env.get n path with
    | .error e => { result := some (.error e), requests := [path] }
    | .ok resp =>
      match decodeTransactionPage env.codec resp with
      | .error e => { result := some (.error e), requests := [path] }
      | .ok (transactions, nextPath) =>
        let allTransactions := allTransactions ++ transactions
        -- Stop if we've reached the desired limit
        if limit > 0 ∧ (allTransactions.length : Int) ≥ limit then
          { result := some (.ok (allTransactions.take limit.toNat)), requests := [path] }
        -- Stop if no more pages
        else if nextPath = "" then
          { result := some (.ok allTransactions), requests := [path] }
        else
          -- Extract path from full URL
          match env.urlParse nextPath with
          | none => { result := some .panic, requests := [path] }
          | some nextURL =>
            let r := listTransactionsLoop env limit fuel (n + 1) (nextRequestPath nextURL)
              allTransactions
            { result := r.result, requests := path :: r.requests }

/-- The method `(*Client).ListTransactions`. -/
def ListTransactions (env : Env) (fuel : Nat) (accountID : String)
    (opts : TransactionListOptions) : Run (List Transaction) :=
  match transactionsPath env.time accountID opts with
  | .error e => { result := some (.error e), requests := [] }
  | .ok path => listTransactionsLoop env opts.Limit fuel 0 path []

/-- A page of a transaction listing as `decodeTransactionPage` returns it. -/
structure Page where
  transactions : List Transaction
  next : String
deriving DecidableEq, Repr

/-- The page that request `n` at `path` yields; `none` when the request or
the decoding of its response fails. -/
def pageAt (env : Env) (n : Nat) (path : String) : Option Page :=
  match env.get n path with
  | .error _ => none
  | .ok resp =>
    match decodeTransactionPage env.codec resp with
    | .error _ => none
    | .ok (transactions, nextPath) => some { transactions := transactions, next := nextPath }

/-- Whether the environment serves the chain `pages` from request `n` at
`path` on: each request succeeds and decodes to the page, every page but the
last carries a next link that parses and leads to the following page, and
the last page carries none. -/
def servesChain (env : Env) : Nat → String → List Page → Bool
  | _, _, [] => false
  | n, path, [p] => decide (pageAt env n path = some p) && decide (p.next = "")
  | n, path, p :: q :: rest =>
    decide (pageAt env n path = some p) && decide (p.next ≠ "") &&
    (env.urlParse p.next).any fun nextURL =>
      servesChain env (n + 1) (nextRequestPath nextURL) (q :: rest)

/-- The paths at which the pages of a chain starting at `path` are requested. -/
def chainPaths (env : Env) : String → List Page → List String
  | _, [] => []
  | path, p :: rest =>
    path ::
      (match env.urlParse p.next with
       | none => []
       | some nextURL => chainPaths env (nextRequestPath nextURL) rest)

/-- All transactions of a chain of pages, in page order and in-page order. -/
def allTransactionsOf (pages : List Page) : List Transaction :=
  pages.flatMap fun p => p.transactions

/-- The number of leading pages it takes to hold `need` transactions: the
position of the first page at which the accumulated count reaches `need`. -/
def pagesNeeded : Nat → List Page → Nat
  | _, [] => 0
  | need, p :: rest =>
    if need ≤ p.transactions.length then 1
    else 1 + pagesNeeded (need - p.transactions.length) rest

/-! ## The retry transport

The constructor `NewRetryTransport` is called by `NewClientFromContext`; its
source file is not among the files of the repository at hand. -/

/-- The outcome of one attempt of the underlying transport: a network error,
or a response with its status code. -/
inductive Attempt where
  | networkError (msg : String)
  | response (status : Int)
deriving DecidableEq, Repr

/-- Modelled from the spec: the classification of the retry transport, whose
source is missing. An outcome is transient, and so retried, when it is a
network error, a 5xx response or a 429 response; a 2xx response and a 4xx
response other than 429 are left untouched. -/
def retryable : Attempt → Bool
  | .networkError _ => true
  | .response status => decide ((500 ≤ status ∧ status ≤ 599) ∨ status = 429)

/-- What the retry transport hands back: the outcome it stopped at, or
`TransportExhausted` carrying the last transient outcome. -/
inductive RetryResult where
  | returned (outcome : Attempt)
  | TransportExhausted (last : Option Attempt)
deriving DecidableEq, Repr

/-- Modelled from the spec: the attempt loop of the retry transport, whose
source is missing. `outcomes i` is what attempt `i` of the underlying
transport yields, `remaining` the attempts left of the budget and `made` the
attempts made so far. The loop stops at the first outcome that is not
transient and otherwise when the budget is used up. The result comes with
the number of attempts made. -/
def retryLoop (outcomes : Nat → Attempt) : Nat → Nat → Option Attempt → RetryResult × Nat
  | 0, made, last => (RetryResult.TransportExhausted last, made)
  | remaining + 1, made, _ =>
    if retryable (outcomes made) then retryLoop outcomes remaining (made + 1) (some (outcomes made))
    else (RetryResult.returned (outcomes made), made + 1)

/-- Modelled from the spec: the method `RoundTrip` of the retry transport,
whose source is missing, with an attempt budget of `budget`. -/
def RoundTrip (budget : Nat) (outcomes : Nat → Attempt) : RetryResult × Nat :=
  retryLoop outcomes budget 0 none

/-- Modelled from the spec: the attempt budget that `NewRetryTransport` sets
up, its source being missing: one attempt when the no-retry flag is set, the
fixed maximum otherwise. -/
def NewRetryTransport (noRetry : Bool) (maxAttempts : Nat) : Nat :=
  if noRetry then 1 else maxAttempts

/-! ## Package time

The part of Go's package `time` that `parseDate` reaches, over the proleptic
Gregorian calendar. A parsed time is kept as the civil date of its wall clock,
or as the number of that day counted from 1970-01-01; its time of day and zone
offset are read when the string is parsed and play no part in the date that
`Format("2006-01-02")` prints, since a parsed time carries the written offset as
its location. The current time `time.Now()` is a number of Unix seconds, read
in the local `Location`; `AddDate` takes its wall clock apart and puts it
together again with `time.Date`, in 64-bit arithmetic and by way of the zone
lookup. -/

/-- The function `isLeap` of package `time`. -/
def isLeap (year : Int) : Bool :=
  decide (year % 4 = 0 ∧ (year % 100 ≠ 0 ∨ year % 400 = 0))

/-- The function `daysIn` of package `time`: the number of days of a month. -/
def daysIn (month year : Int) : Int :=
  if month = 2 then (if isLeap year then 29 else 28)
  else if month = 4 ∨ month = 6 ∨ month = 9 ∨ month = 11 then 30
  else 31

/-- A date of the civil calendar, as returned by `Time.Date()`. -/
structure CivilDate where
  year : Int
  month : Int
  day : Int
deriving DecidableEq, Repr

/-- A date is valid when its month is 1 to 12 and its day is a day of that
month; this is the test `time.Parse` makes before it returns. -/
def CivilDate.valid (c : CivilDate) : Bool :=
  decide (1 ≤ c.month ∧ c.month ≤ 12 ∧ 1 ≤ c.day ∧ c.day ≤ daysIn c.month c.year)

/-- The table `daysBefore` of package `time`: the days of a non-leap year that
precede a month. -/
def daysBefore (month : Int) : Int :=
  if month ≤ 1 then 0 else if month = 2 then 31 else if month = 3 then 59
  else if month = 4 then 90 else if month = 5 then 120 else if month = 6 then 151
  else if month = 7 then 181 else if month = 8 then 212 else if month = 9 then 243
  else if month = 10 then 273 else if month = 11 then 304 else 334

/-- The days of `year` that precede `month`, the leap day counted from March on. -/
def daysBeforeIn (month year : Int) : Int :=
  daysBefore month + (if isLeap year ∧ 3 ≤ month then 1 else 0)

/-- The day number, counted from 1970-01-01, that `time.Date` gives a civil
date. The day may lie outside its month, as it does in `AddDate`: it is added
as it is. -/
def daysFromCivil (c : CivilDate) : Int :=
  let y := c.year - 1
  365 * y + y / 4 - y / 100 + y / 400 + daysBeforeIn c.month c.year + (c.day - 1) - 719162

/-- The year of day number `z` and the zero-based day within that year, found as
`absDate` does: by cutting off cycles of 400, 100, 4 and 1 years. -/
def yearDay (z : Int) : Int × Int :=
  let d := z + 719162
  let n400 := d / 146097
  let r := d % 146097
  let n100 := if r / 36524 = 4 then 3 else r / 36524
  let r1 := r - 36524 * n100
  let n4 := r1 / 1461
  let r2 := r1 % 1461
  let n1 := if r2 / 365 = 4 then 3 else r2 / 365
  (400 * n400 + 100 * n100 + 4 * n4 + n1 + 1, r2 - 365 * n1)

/-- Month and day of the month of the zero-based day `yday` of `year`, found by
walking the months from `month` on. -/
def monthDay (year : Int) : Nat → Int → Int → Int × Int
  | 0, month, yday => (month, yday + 1)
  | fuel + 1, month, yday =>
    if yday < daysIn month year then (month, yday + 1)
    else monthDay year fuel (month + 1) (yday - daysIn month year)

/-- The civil date of day number `z`: the method `Time.Date`. -/
def civilFromDays (z : Int) : CivilDate :=
  let yd := yearDay z
  let md := monthDay yd.1 11 1 yd.2
  { year := yd.1, month := md.1, day := md.2 }

/-- What `(*Location).lookup(sec)` returns for an instant, the name of the zone
apart: the offset in effect, in seconds east of UTC, and the instants at which
the zone with that offset begins (`start`) and ends (`end` in the source). -/
structure ZoneSpan where
  offset : Int
  start : Int
  stop : Int
deriving DecidableEq, Repr

/-- A `*time.Location`, given by its zone lookup on instants in Unix seconds. -/
structure Location where
  lookup : Int → ZoneSpan

/-- The constant `secondsPerDay`. -/
def secondsPerDay : Int := 86400

/-- The constant `unixToInternal + internalToAbsolute`: the seconds from the
absolute epoch of package `time`, the first day of the year -292277022399, to
1970-01-01; a whole number of days. -/
def unixToAbsolute : Int := 9223372028715321600

/-- The method `Time.abs` on the instant `t` of location `loc`: the seconds of
its wall clock since the absolute epoch, an unsigned 64-bit number. -/
def Time.abs (loc : Location) (t : Int) : Int :=
  (t + (loc.lookup t).offset + unixToAbsolute) % 2 ^ 64

/-- The function `absDate`: the civil date of the day that holds the absolute
second `abs`. -/
def absDate (abs : Int) : CivilDate :=
  civilFromDays (abs / secondsPerDay - unixToAbsolute / secondsPerDay)

/-- The function `time.Date` for a year and a month in their ranges, a day that
may lie outside its month, and the second `clock` of the day: the instant, in
Unix seconds, that has this wall clock in `loc`. The wall clock is first read
as if it were UTC; the offset found there is kept when the instant it leads to
lies in the same zone span, else the offset at that instant is taken. -/
def Date (year month day clock : Int) (loc : Location) : Int :=
  let unix := wrapInt64 (daysFromCivil { year := year, month := month, day := day } *
    secondsPerDay + clock)
  let span := loc.lookup unix
  if span.offset ≠ 0 then
    let utc := wrapInt64 (unix - span.offset)
    -- If utc is valid for the time zone we found, then we have the right offset.
    -- If not, we get the correct offset by looking up utc in the location.
    let offset :=
      if utc < span.start ∨ utc ≥ span.stop then (loc.lookup utc).offset else span.offset
    wrapInt64 (unix - offset)
  else unix

/-- The method `Time.AddDate(0, 0, days)` on the instant `t` of location `loc`:
`Date(year, month, day+days, hour, min, sec, nsec, loc)` with the date and the
clock of `t`. -/
def AddDate (loc : Location) (t : Int) (days : Int) : Int :=
  let a := Time.abs loc t
  let c := absDate a
  Date c.year c.month (wrapInt64 (c.day + days)) (a % secondsPerDay) loc

/-- The function `appendInt` of package `time`: a minus sign for a negative
number, then its decimal digits padded with zeros to `width` digits. -/
def appendInt (x : Int) (width : Nat) : List Char :=
  let u := x.natAbs
  (if x < 0 then ['-'] else []) ++
    (if width = 2 ∧ u < 100 then [Nat.digitChar (u / 10), Nat.digitChar (u % 10)]
     else if width = 4 ∧ u < 10000 then
       [Nat.digitChar (u / 1000), Nat.digitChar (u / 100 % 10), Nat.digitChar (u / 10 % 10),
         Nat.digitChar (u % 10)]
     else List.replicate (width - (Nat.toDigits 10 u).length) '0' ++ Nat.toDigits 10 u)

/-- The method `Time.Format("2006-01-02")` on a time of civil date `c`. -/
def formatDate (c : CivilDate) : String :=
  ⟨appendInt c.year 4 ++ '-' :: appendInt c.month 2 ++ '-' :: appendInt c.day 2⟩

/-- The function `isDigit` of package `time`. -/
def isDigit (c : Char) : Bool := decide ('0' ≤ c ∧ c ≤ '9')

/-- The value `int(c - '0')` of a character. -/
def digitValue (c : Char) : Int := Int.ofNat c.toNat - 48

/-- The function `getnum` of package `time`: a number of one or two digits, of
two digits exactly when `fixed`, and the text after it. -/
def getnum (s : List Char) (fixed : Bool) : Option (Int × List Char) :=
  match s with
  | [] => none
  | [c0] => if isDigit c0 ∧ ¬ fixed then some (digitValue c0, []) else none
  | c0 :: c1 :: rest =>
    if ¬ isDigit c0 then none
    else if ¬ isDigit c1 then (if fixed then none else some (digitValue c0, c1 :: rest))
    else some (digitValue c0 * 10 + digitValue c1, rest)

/-- The function `skip` of package `time` for a layout prefix of one character
that is no space: the value has to begin with that character. -/
def skip (value : List Char) (c : Char) : Option (List Char) :=
  match value with
  | [] => none
  | c0 :: rest => if c0 = c then some rest else none

/-- A test inside a parser: failure when the condition does not hold. -/
def check (b : Bool) : Option Unit := if b then some () else none

/-- The chunks `2006-01-02` of a layout, the start of both layouts that
`parseDate` uses: a year of four digits, a month of two digits that has to be 1
to 12, a day of two digits; the day is checked against the month at the end of
parsing. Returns the fields and the text that follows. -/
def parseYMD (value : List Char) : Option (CivilDate × List Char) :=
  match value with
  | y0 :: y1 :: y2 :: y3 :: value => do
    check (isDigit y0 && isDigit y1 && isDigit y2 && isDigit y3)
    let year := ((digitValue y0 * 10 + digitValue y1) * 10 + digitValue y2) * 10 + digitValue y3
    let value ← skip value '-'
    let month ← getnum value true
    check (decide (¬ (month.1 ≤ 0 ∨ 12 < month.1)))
    let value ← skip month.2 '-'
    let day ← getnum value true
    pure ({ year := year, month := month.1, day := day.1 }, day.2)
  | _ => none

/-- The call `time.Parse("2006-01-02", s)`: the civil date of the parsed time,
`none` when parsing fails. -/
def timeParseDateOnly (s : String) : Option CivilDate := do
  let ymd ← parseYMD s.data
  check (decide (ymd.2 = []))
  check (decide (¬ (ymd.1.day < 1 ∨ ymd.1.day > daysIn ymd.1.month ymd.1.year)))
  pure ymd.1

/-- A fraction of a second after the seconds, which `time.Parse` reads although
the layout has none: a period or comma and the digits after it are dropped when
a digit follows the period or comma. -/
def skipFraction (value : List Char) : List Char :=
  match value with
  | c0 :: c1 :: rest =>
    if (c0 = '.' ∨ c0 = ',') ∧ isDigit c1 then rest.dropWhile isDigit else value
  | _ => value

/-- The chunk `Z07:00` of a layout: `Z`, or a sign, two digits, a colon and two
digits, with an hour of at most 24 and a minute of at most 60. -/
def parseZone (value : List Char) : Option (List Char) :=
  match value with
  | 'Z' :: rest => some rest
  | sign :: h0 :: h1 :: colon :: m0 :: m1 :: rest => do
    check (decide (colon = ':'))
    let hr ← getnum [h0, h1] true
    let mm ← getnum [m0, m1] true
    check (decide (¬ hr.1 > 24))
    check (decide (¬ mm.1 > 60))
    check (decide (sign = '+' ∨ sign = '-'))
    pure rest
  | _ => none

/-- The chunks `T15:04:05` of a layout: `T`, an hour of one or two digits below
24, a minute and a second of two digits below 60, with colons between them.
Returns the text that follows. -/
def parseClock (value : List Char) : Option (List Char) := do
  let value ← skip value 'T'
  let hour ← getnum value false
  check (decide (¬ (hour.1 < 0 ∨ 24 ≤ hour.1)))
  let value ← skip hour.2 ':'
  let min ← getnum value true
  check (decide (¬ (min.1 < 0 ∨ 60 ≤ min.1)))
  let value ← skip min.2 ':'
  let sec ← getnum value true
  check (decide (¬ (sec.1 < 0 ∨ 60 ≤ sec.1)))
  pure sec.2

/-- The call `time.Parse(time.RFC3339, s)`, the layout being
`2006-01-02T15:04:05Z07:00`: the civil date of the wall clock of the parsed
time, `none` when parsing fails. The hour may have one digit, since the layout
chunk `15` is not of fixed width. -/
def timeParseRFC3339 (s : String) : Option CivilDate := do
  let ymd ← parseYMD s.data
  let value ← parseClock ymd.2
  let value ← parseZone (skipFraction value)
  check (decide (value = []))
  check (decide (¬ (ymd.1.day < 1 ∨ ymd.1.day > daysIn ymd.1.month ymd.1.year)))
  pure ymd.1

/-- The `time` package as `parseDate` uses it when `time.Now()` is the instant
`now`, in Unix seconds, and the local zone is `loc`. A time is printed by way
of its day number, as `Format` does. -/
def goTime (loc : Location) (now : Int) : TimeLib :=
  ⟨fun n => formatDate (absDate (Time.abs loc (AddDate loc now n))),
    fun s => (timeParseDateOnly s).isSome,
    fun s => (timeParseRFC3339 s).map fun c => formatDate (civilFromDays (daysFromCivil c))⟩

/-! Notions of the specification of `parseDate`. -/

/-- The wall clock of the instant `t` in `loc`, in seconds counted from
1970-01-01 00:00 of that clock. -/
def wallSeconds (loc : Location) (t : Int) : Int := t + (loc.lookup t).offset

/-- The current date: the civil date of the wall clock of `t` in `loc`. -/
def localDate (loc : Location) (t : Int) : CivilDate :=
  civilFromDays (wallSeconds loc t / secondsPerDay)

/-- The wall-clock second `w` is shown by the clocks of `loc`, with one offset
of at most a day: the offset that the zone lookup gives for `w` read as an
instant is the offset in effect at the instant that lies that offset before
it. This fails where a change of the clocks skips `w` or lies within that
offset of it. -/
def steadyAt (loc : Location) (w : Int) : Bool :=
  decide ((loc.lookup (w - (loc.lookup w).offset)).offset = (loc.lookup w).offset ∧
    -86400 ≤ (loc.lookup w).offset ∧ (loc.lookup w).offset ≤ 86400)

/-- A string is a calendar date in the form YYYY-MM-DD: ten characters, a year
of four digits, a month of two and a day of two, separated by hyphens, that
name a day of the calendar. -/
def isCalendarDate (s : String) : Bool :=
  match s.data with
  | [y0, y1, y2, y3, a, m0, m1, b, d0, d1] =>
    isDigit y0 && isDigit y1 && isDigit y2 && isDigit y3 && decide (a = '-') &&
      isDigit m0 && isDigit m1 && decide (b = '-') && isDigit d0 && isDigit d1 &&
      CivilDate.valid
        ⟨((digitValue y0 * 10 + digitValue y1) * 10 + digitValue y2) * 10 + digitValue y3,
          digitValue m0 * 10 + digitValue m1, digitValue d0 * 10 + digitValue d1⟩
  | _ => false

/-- The `time-offset` of RFC 3339, section 5.6: `Z`, or a sign and an hour
00 to 23 and a minute 00 to 59 with a colon between them; `z` when `lower`. -/
def rfc3339Offset (lower : Bool) (value : List Char) : Bool :=
  match value with
  | [z] => decide (z = 'Z') || (lower && decide (z = 'z'))
  | [sign, h0, h1, colon, m0, m1] =>
    decide (sign = '+' ∨ sign = '-') && isDigit h0 && isDigit h1 && decide (colon = ':') &&
      isDigit m0 && isDigit m1 && decide (digitValue h0 * 10 + digitValue h1 ≤ 23) &&
      decide (digitValue m0 * 10 + digitValue m1 ≤ 59)
  | _ => false

/-- What follows the seconds in the `date-time` of RFC 3339: an optional
fraction, a period and one or more digits, and the offset. -/
def rfc3339Tail (lower : Bool) (value : List Char) : Bool :=
  match value with
  | '.' :: c :: rest => isDigit c && rfc3339Offset lower (rest.dropWhile isDigit)
  | _ => rfc3339Offset lower value

/-- The `date-time` of RFC 3339, section 5.6, with the ranges of section 5.7: a
valid calendar date, `T`, hour 00 to 23, minute 00 to 59, second 00 to
`maxSecond`, an optional fraction and an offset. RFC 3339 itself is
`maxSecond = 60`, the second 60 being a leap second, and `lower = true`, which
admits `t` and `z` for `T` and `Z`. -/
def rfc3339DateTime (maxSecond : Int) (lower : Bool) (s : String) : Bool :=
  isCalendarDate ⟨s.data.take 10⟩ &&
    (match s.data.drop 10 with
     | t :: h0 :: h1 :: a :: m0 :: m1 :: b :: s0 :: s1 :: rest =>
       (decide (t = 'T') || (lower && decide (t = 't'))) &&
         isDigit h0 && isDigit h1 && decide (a = ':') && isDigit m0 && isDigit m1 &&
         decide (b = ':') && isDigit s0 && isDigit s1 &&
         decide (digitValue h0 * 10 + digitValue h1 ≤ 23) &&
         decide (digitValue m0 * 10 + digitValue m1 ≤ 59) &&
         decide (digitValue s0 * 10 + digitValue s1 ≤ maxSecond) && rfc3339Tail lower rest
     | _ => false)

/-- A string has the form `-Nd` with `N` a non-empty sequence of decimal
digits. -/
def isRelativeDate (s : String) : Bool :=
  decide (s.data.head? = some '-' ∧ s.data.getLast? = some 'd' ∧ s.data.length > 1) &&
    decide ((s.data.drop 1).dropLast ≠ []) && ((s.data.drop 1).dropLast).all isDigit

/-- The number that a sequence of decimal digits writes. -/
def decimalValue (digits : List Char) : Int :=
  digits.foldl (fun n c => n * 10 + digitValue c) 0

/-! ## Synchronization polling (internal/api/client.go) -/

/-- The environment of `WaitForSync`. `get n path` is what `(*Client).get`
returns for the `n`-th request of the call; `done n` is what the `select` after
the `n`-th fetch receives: `some err` when `ctx.Done()` is closed before the
timer of two seconds fires, `err` being `ctx.Err()`, and `none` when the timer
fires first. -/
structure SyncEnv where
  get : Nat → String → Except Error Response
  codec : AttrCodec Synchronization
  done : Nat → Option Error

/-- The method `(*Client).GetSync`, as the `n`-th request of a call. -/
def GetSync (env : SyncEnv) (n : Nat) (id : String) : Except Error Synchronization :=
  match env.get n ("/synchronizations/" ++ id) with
  | .error e => .error e
  | .ok resp => decodeResponse Kind.Synchronization env.codec resp

/-- The `for` loop of `WaitForSync`. `fuel` bounds the number of iterations and
`n` counts the fetches made; the requests of the run are the paths fetched. -/
def waitForSyncLoop (env : SyncEnv) (id : String) : Nat → Nat → Run Synchronization
  | 0, _ => { result := none, requests := [] }
  | fuel + 1, n =>
    match GetSync env n id with
    | .error e => { result := some (.error e), requests := ["/synchronizations/" ++ id] }
    | .ok sync =>
      if sync.Status = "success" ∨ sync.Status = "error" then
        { result := some (.ok sync), requests := ["/synchronizations/" ++ id] }
      else
        match env.done n with
        | some err => { result := some (.error err), requests := ["/synchronizations/" ++ id] }
        | none =>
          -- continue polling
          let r := waitForSyncLoop env id fuel (n + 1)
          { result := r.result, requests := ("/synchronizations/" ++ id) :: r.requests }

/-- The method `(*Client).WaitForSync`. -/
def WaitForSync (env : SyncEnv) (fuel : Nat) (id : String) : Run Synchronization :=
  waitForSyncLoop env id fuel 0

/-- A status at which polling ends. -/
def isTerminal (sync : Synchronization) : Bool :=
  decide (sync.Status = "success" ∨ sync.Status = "error")

/-- The `i`-th round of a call of `WaitForSync` goes on to the next: the fetch
returns a synchronization whose status is not terminal, and the timer fires
before the caller cancels. -/
def stillPolling (env : SyncEnv) (id : String) (i : Nat) : Bool :=
  match GetSync env i id with
  | .ok sync => !isTerminal sync && (env.done i).isNone
  | .error _ => false

/-! ## Package strings and package unicode -/

/-- The function `unicode.ToLower`: the letters `A` to `Z` are handled in the
code, every rune above U+007F is looked up in the case tables of package
`unicode`, here the argument `caseTable`. -/
def unicodeToLower (caseTable : Char → Char) (r : Char) : Char :=
  if r.toNat ≤ 0x7F then
    if 'A' ≤ r ∧ r ≤ 'Z' then Char.ofNat (r.toNat + 32) else r
  else caseTable r

/-- The function `strings.ToLower`. -/
def ToLower (caseTable : Char → Char) (s : String) : String :=
  String.mk (s.data.map (unicodeToLower caseTable))

/-- The parts of a text between the occurrences of the character `sep`. -/
def splitChars (sep : Char) : List Char → List (List Char)
  | [] => [[]]
  | c :: cs =>
    if c = sep then [] :: splitChars sep cs
    else
      match splitChars sep cs with
      | [] => [[c]]
      | part :: parts => (c :: part) :: parts

/-- The function `strings.Split` for a separator of one character. -/
def Split (s : String) (sep : Char) : List String :=
  (splitChars sep s.data).map String.mk

/-- The function `strings.ReplaceAll` for an old and a new text of one character. -/
def ReplaceAll (s : String) (old new : Char) : String :=
  String.mk (s.data.map fun c => if c = old then new else c)

/-- The function `strings.HasPrefix`. -/
def HasPrefix (s start : String) : Bool :=
  start.data.isPrefixOf s.data

/-! ## internal/config/config.go and the backend override (internal/auth/keyring.go) -/

/-- The struct `config.File`, without its map of profiles, which the keyring
code does not read. -/
structure File where
  DefaultProfile : String
  KeyringBackend : String
deriving DecidableEq, Repr

/-- The constant `keyringBackendAuto`. -/
def keyringBackendAuto : String := "auto"

/-- The function `resolveKeyringBackend`. `env` is the value of
`os.Getenv(keyringBackendEnv)`, empty when the variable is not set, and `cfg`
what `config.ReadConfig()` returns. -/
def resolveKeyringBackend (caseTable : Char → Char) (env : String) (cfg : Except String File) :
    String :=
  if env ≠ "" then ToLower caseTable (TrimSpace env)
  else
    match cfg with
    | .ok cfg =>
      if cfg.KeyringBackend ≠ "" then ToLower caseTable (TrimSpace cfg.KeyringBackend)
      else keyringBackendAuto
    | .error _ => keyringBackendAuto

/-- The backends of package `keyring` that the code names. -/
inductive BackendType where
  | KeychainBackend
  | FileBackend
deriving DecidableEq, Repr

/-- The error `errInvalidBackend`, wrapped with the backend name it quotes. -/
structure InvalidBackend where
  backend : String
deriving DecidableEq, Repr

/-- The function `allowedBackends`; the empty list is the nil slice, which
lets package `keyring` choose. -/
def allowedBackends (backend : String) : Except InvalidBackend (List BackendType) :=
  if backend = "" ∨ backend = keyringBackendAuto then .ok []
  else if backend = "keychain" then .ok [BackendType.KeychainBackend]
  else if backend = "file" then .ok [BackendType.FileBackend]
  else .error ⟨backend⟩

/-- The backend selection of `openKeyring`: `allowedBackends` applied to
`resolveKeyringBackend()`. -/
def selectBackends (caseTable : Char → Char) (env : String) (cfg : Except String File) :
    Except InvalidBackend (List BackendType) :=
  allowedBackends (resolveKeyringBackend caseTable env cfg)

/-- The override value of the specification: the environment variable if it is
set to a non-empty text, else the persisted value if the configuration can be
read and holds one, else `auto`. -/
def backendOverride (env : String) (cfg : Except String File) : String :=
  if env ≠ "" then env
  else
    match cfg with
    | .ok cfg => if cfg.KeyringBackend ≠ "" then cfg.KeyringBackend else "auto"
    | .error _ => "auto"

/-- A value names a backend when, surrounding white space and case set aside,
it is one of `auto`, `keychain` and `file`. -/
def isBackendName (caseTable : Char → Char) (value : String) : Bool :=
  decide (ToLower caseTable (TrimSpace value) ∈ ["auto", "keychain", "file"])

/-! ## internal/output/table.go -/

/-- The function `Truncate`. The runes of a string are its characters. -/
def Truncate (s : String) (maxLen : Int) : String :=
  if maxLen ≤ 0 then ""
  else if (s.data.length : Int) ≤ maxLen then s
  else
    let runes := s.data
    if maxLen ≤ 3 then String.mk (runes.take maxLen.toNat)
    else String.mk (runes.take (maxLen - 3).toNat) ++ "..."

/-! ## internal/cmd -/

/-- The statement `m[k] = v` on a Go `map[string]bool`, kept as the list of its
entries, one for each key. -/
def mapSet (m : List (String × Bool)) (k : String) (v : Bool) : List (String × Bool) :=
  (k, v) :: m.filter fun kv => kv.1 ≠ k

/-- The expression `m[k]` on a Go `map[string]bool`: `false` for a missing key. -/
def mapGet (m : List (String × Bool)) (k : String) : Bool :=
  (m.lookup k).getD false

/-- The function `parseEnabledCommands`. -/
def parseEnabledCommands (caseTable : Char → Char) (value : String) : List (String × Bool) :=
  (Split value ',').foldl
    (fun out part =>
      let part := TrimSpace (ToLower caseTable part)
      if part = "" then out else mapSet out part true)
    []

/-- Errors of the commands, one constructor per error path. -/
inductive CmdError where
  /-- the error of `enforceEnabledCommands`, whose message quotes the command
  path and the allow-list. -/
  | notEnabled (cmdPath enabled : String)
  /-- the error of `api.NewClientFromContext`. -/
  | newClient (msg : String)
  /-- the error of `ResolveAccountID`. -/
  | resolveAccountID (msg : String)
  /-- the error wrapped as `read stdin`. -/
  | readStdin (msg : String)
  /-- the errors wrapped as `get account` and `get transaction`. -/
  | get (id : String) (err : Error)
  /-- the error of writing a result. -/
  | output (msg : String)
deriving DecidableEq, Repr

/-- The struct `ExitError`. -/
structure ExitError where
  Code : Int
  Err : CmdError
deriving DecidableEq, Repr

/-- The function `enforceEnabledCommands`; `command` is what `kctx.Command()`
returns, the names on the command path joined by spaces. The result is the
returned `error`. -/
def enforceEnabledCommands (caseTable : Char → Char) (command enabled : String) :
    Option ExitError :=
  let enabled := TrimSpace enabled
  if enabled = "" then none
  else
    let allow := parseEnabledCommands caseTable enabled
    if allow.length = 0 then none
    else if mapGet allow "*" ∨ mapGet allow "all" then none
    else
      -- Get full command path (e.g., "accounts list" -> "accounts.list")
      let cmdPath := ToLower caseTable (ReplaceAll command ' ' '.')
      -- Check exact match first
      if mapGet allow cmdPath then none
      else
        -- Check top-level command
        match Split cmdPath '.' with
        | part0 :: _ =>
          if mapGet allow part0 then none
          else some { Code := 2, Err := CmdError.notEnabled cmdPath enabled }
        | [] => some { Code := 2, Err := CmdError.notEnabled cmdPath enabled }

/-- The entries of an allow-list: its comma-separated parts, lower-cased and
trimmed, the empty ones dropped. -/
def enabledEntries (caseTable : Char → Char) (value : String) : List String :=
  ((Split value ',').map fun part => TrimSpace (ToLower caseTable part)).filter
    fun part => part ≠ ""

/-- The dotted path of a command, lower-cased. -/
def commandPath (caseTable : Char → Char) (command : String) : String :=
  ToLower caseTable (ReplaceAll command ' ' '.')

/-- The top-level name of a dotted command path: the text before its first dot. -/
def topLevel (cmdPath : String) : String :=
  String.mk (cmdPath.data.takeWhile fun c => c ≠ '.')

/-- A `bufio.Scanner` over standard input: the texts of the successive calls of
`Scan` that return true, and what `Err` returns after them. -/
structure Scanner where
  lines : List String
  err : Option String

/-- The function `ReadStdinIDs`. A slice is `none` when it is nil: `ids`
starts as nil and stays so until a line is appended. -/
def ReadStdinIDs (arg : String) (stdin : Scanner) : Except String (Option (List String)) :=
  if arg ≠ "-" then .ok none
  else
    let ids : Option (List String) :=
      stdin.lines.foldl
        (fun ids text =>
          let line := TrimSpace text
          if line ≠ "" ∧ ¬ HasPrefix line "#" then some (ids.getD [] ++ [line]) else ids)
        none
    match stdin.err with
    | some err => .error err
    | none => .ok ids

/-- The function `IsStdin`. -/
def IsStdin (arg : String) : Bool := decide (arg = "-")

/-- The record of a command run: the returned `error` and the ids that were
requested from the API, in order. -/
structure CmdRun where
  err : Option CmdError
  requested : List String
deriving DecidableEq, Repr

/-- What the `get` commands reach outside themselves. `newClient` is the error
of `api.NewClientFromContext`, `resolveAccountID` is `ResolveAccountID`,
`getAccount n id` and `getTransaction n accountID id` are the `n`-th call of
`client.GetAccount` and `client.GetTransaction`, and the two output functions
return the error of writing a result. -/
structure CmdEnv where
  newClient : Option String
  resolveAccountID : String → Except String String
  stdin : Scanner
  getAccount : Nat → String → Except Error Account
  getTransaction : Nat → String → String → Except Error Transaction
  outputAccount : Account → Option String
  outputTransaction : Transaction → Option String

/-- The loop `for _, id := range ids` of the two `get` commands; `n` counts the
requests made. -/
def getEach {T : Type} (fetch : Nat → String → Except Error T) (output : T → Option String) :
    List String → Nat → CmdRun
  | [], _ => { err := none, requested := [] }
  | id :: ids, n =>
    match fetch n id with
    | .error e => { err := some (CmdError.get id e), requested := [id] }
    | .ok item =>
      match output item with
      | some msg => { err := some (CmdError.output msg), requested := [id] }
      | none =>
        let r := getEach fetch output ids (n + 1)
        { err := r.err, requested := id :: r.requested }

/-- The struct `AccountsGetCmd`. -/
structure AccountsGetCmd where
  ID : String
deriving DecidableEq, Repr

/-- The method `(*AccountsGetCmd).Run`. -/
def AccountsGetCmd.Run (c : AccountsGetCmd) (env : CmdEnv) : CmdRun :=
  match env.newClient with
  | some msg => { err := some (CmdError.newClient msg), requested := [] }
  | none =>
    -- Handle stdin batching
    match ReadStdinIDs c.ID env.stdin with
    | .error msg => { err := some (CmdError.readStdin msg), requested := [] }
    | .ok ids =>
      let ids := match ids with
        | none => [c.ID]
        | some ids => ids
      getEach env.getAccount env.outputAccount ids 0

/-- The struct `TransactionsGetCmd`. -/
structure TransactionsGetCmd where
  AccountID : String
  ID : String
deriving DecidableEq, Repr

/-- The method `(*TransactionsGetCmd).Run`. -/
def TransactionsGetCmd.Run (c : TransactionsGetCmd) (env : CmdEnv) : CmdRun :=
  match env.resolveAccountID c.AccountID with
  | .error msg => { err := some (CmdError.resolveAccountID msg), requested := [] }
  | .ok accountID =>
    match env.newClient with
    | some msg => { err := some (CmdError.newClient msg), requested := [] }
    | none =>
      -- Handle stdin batching
      match ReadStdinIDs c.ID env.stdin with
      | .error msg => { err := some (CmdError.readStdin msg), requested := [] }
      | .ok ids =>
        let ids := match ids with
          | none => [c.ID]
          | some ids => ids
        getEach (fun n id => env.getTransaction n accountID id) env.outputTransaction ids 0

/-- The ids that the specification has a `get` command request when its
argument is `-`: the lines of standard input, trimmed, without the blank ones
and those that begin with `#`. -/
def stdinIDs (stdin : Scanner) : List String :=
  (stdin.lines.map TrimSpace).filter fun line => line ≠ "" ∧ ¬ HasPrefix line "#"

/-! ## Sample data -/

/-- Three 503 responses followed by 200 responses. -/
def threeFailuresThenOK (i : Nat) : Attempt :=
  if i < 3 then Attempt.response 503 else Attempt.response 200

/-- A token endpoint that answers every exchange with a token valid for an hour. -/
def sampleEndpoint : TokenEndpoint :=
  { reply := fun _ _ _ => TokenReply.response 200 "200 OK" "",
    unmarshal := fun _ =>
      .ok { AccessToken := "tok", TokenType := "bearer", ExpiresIn := 3600, Scope := "ai",
            ExpiresAt := 0 } }

/-- The token that `sampleEndpoint` hands out when fetched at time 0. -/
def sampleToken : Token :=
  { AccessToken := "tok", TokenType := "bearer", ExpiresIn := 3600, Scope := "ai",
    ExpiresAt := 3600000000000 }

/-- A token manager with an empty cache and no exchange made. -/
def emptyAuthState : AuthState :=
  { tokenCache := fun _ => none, exchanges := [] }

/-- A token manager whose cache holds `sampleToken` for client `id`. -/
def cachedAuthState : AuthState :=
  { tokenCache := fun k => if k = "id" then some sampleToken else none, exchanges := [] }



/-- The JSON:API error payload with one entry of code `X` and detail `Y`:
the text `{"errors":[{"code":X,"detail":Y}]}` with both strings quoted. -/
def errorBody (X Y : String) : String :=
  String.mk ("\x7b\"errors\":[\x7b\"code\":".data ++ appendString X ++
    ",\"detail\":".data ++ appendString Y ++ "\x7d]\x7d".data)

/-- A transaction with every field empty. -/
def zeroTransaction : Transaction :=
  { ID := "", Amount := { bits := 0 }, Currency := "", Description := "",
    CounterpartName := "", CounterpartRef := "", RemittanceInfo := "",
    RemittanceInfoType := "", EndToEndID := "", InternalRef := "",
    BankTransactionCode := "", ExecutionDate := "", ValueDate := "" }

/-- The JSON text of a list response whose resources have the ids `ids`
(written in decimal) and whose next link is `next`. -/
def samplePageBody (ids : List Nat) (next : String) : String :=
  "\x7b\"data\":[" ++
    String.intercalate "," (ids.map fun i => "\x7b\"id\":\"" ++ Nat.repr i ++ "\"\x7d") ++
    "],\"links\":\x7b\"next\":\"" ++ next ++ "\"\x7d\x7d"

/-- The page that `samplePageBody ids next` decodes to with `sampleEnv`. -/
def samplePage (ids : List Nat) (next : String) : Page :=
  { transactions := ids.map fun i => { zeroTransaction with ID := Nat.repr i }, next := next }

/-- A stand-in for `url.Parse` on the sample links: a link on the API host is
split at its first question mark, any other text is rejected. -/
def sampleURLParse (s : String) : Option URL :=
  if "https://api.myponto.com".data.isPrefixOf s.data then
    let rest := s.data.drop "https://api.myponto.com".data.length
    some { Scheme := "https", User := "", Host := "api.myponto.com",
           Path := String.mk (rest.takeWhile fun c => c ≠ '?'),
           RawQuery := String.mk ((rest.dropWhile fun c => c ≠ '?').drop 1) }
  else none

/-- An environment that serves three pages of 100, 100 and 42 transactions
of account `acc`, numbered from 0 to 241. -/
def sampleEnv : Env :=
  { get := fun _ path =>
      if path = "/accounts/acc/transactions?limit=100" then
        .ok ⟨200, samplePageBody (List.range' 0 100)
          "https://api.myponto.com/accounts/acc/transactions?page=2"⟩
      else if path = "/accounts/acc/transactions?page=2" then
        .ok ⟨200, samplePageBody (List.range' 100 100)
          "https://api.myponto.com/accounts/acc/transactions?page=3"⟩
      else if path = "/accounts/acc/transactions?page=3" then
        .ok ⟨200, samplePageBody (List.range' 200 42) ""⟩
      else .ok ⟨404, errorBody "resourceNotFound" "no such page"⟩,
    urlParse := sampleURLParse,
    time := { nowAddDays := fun _ => "2024-01-01", parseDateOnly := fun _ => false,
              parseRFC3339 := fun _ => none },
    codec := { decodable := fun _ => true, unmarshal := fun _ => .ok zeroTransaction } }

/-- The three pages that `sampleEnv` serves. -/
def samplePages : List Page :=
  [samplePage (List.range' 0 100) "https://api.myponto.com/accounts/acc/transactions?page=2",
   samplePage (List.range' 100 100) "https://api.myponto.com/accounts/acc/transactions?page=3",
   samplePage (List.range' 200 42) ""]

/-- An empty, reliable backend whose `Remove` reports a missing key. -/
def emptyKeyring : Keyring :=
  { items := fun _ => none, calls := 0, fault := fun _ => none,
    removeAbsent := some KeyringError.ErrKeyNotFound }

/-- A working store that holds only the two legacy records of profile `default`. -/
def legacyKeyring : Keyring :=
  { items := fun k =>
      if k = "ponto:default:client_id" then some (utf8 "my-id")
      else if k = "ponto:default:client_secret" then some (utf8 "my-secret")
      else none,
    calls := 0, fault := fun _ => none, removeAbsent := none }

/-- A working store that holds only the two legacy records of profile
`default`; the client id is the three bytes ff 69 64, which are no valid
UTF-8. -/
def invalidLegacyKeyring : Keyring :=
  { items := fun k =>
      if k = "ponto:default:client_id" then some [0xFF, 0x69, 0x64]
      else if k = "ponto:default:client_secret" then some (utf8 "my-secret")
      else none,
    calls := 0, fault := fun _ => none, removeAbsent := none }

/-- A working file backend that holds only the two legacy records of profile
`default`. Its `Remove` is `os.Remove` on the file of the key, which reports a
missing file by an error of its own, not by `keyring.ErrKeyNotFound`. -/
def fileKeyring : Keyring :=
  { items := fun k =>
      if k = "ponto:default:client_id" then some (utf8 "my-id")
      else if k = "ponto:default:client_secret" then some (utf8 "my-secret")
      else none,
    calls := 0, fault := fun _ => none,
    removeAbsent := some (KeyringError.other
      "remove ponto:default:credentials: no such file or directory") }

/-- A store that holds the unified record of profile `default` and whose
backend fails every call after the first one. -/
def failingLegacyKeyring : Keyring :=
  { items := fun k =>
      if k = "ponto:default:credentials" then some (utf8 "\x7b\x7d")
      else if k = "ponto:default:client_id" then some (utf8 "my-id")
      else none,
    calls := 0,
    fault := fun n => if n = 0 then none else some (KeyringError.other "backend unavailable"),
    removeAbsent := some KeyringError.ErrKeyNotFound }

/-- A stand-in for `url.Parse` on links of the API host that have no fragment:
the text after the host is split at its first question mark into the path as
written and the raw query, and `Path` is that path unescaped, as `url.Parse`
sets it; any other text is rejected. -/
def escapedURLParse (s : String) : Option URL :=
  if "https://api.myponto.com".data.isPrefixOf s.data then
    let rest := s.data.drop "https://api.myponto.com".data.length
    match unescape (rest.takeWhile fun c => c ≠ '?') with
    | none => none
    | some path =>
      some { Scheme := "https", User := "", Host := "api.myponto.com",
             Path := String.mk path,
             RawQuery := String.mk ((rest.dropWhile fun c => c ≠ '?').drop 1) }
  else none

/-- An environment that serves two pages of account `acc`; the path of the next
link of the first page holds an escaped question mark. -/
def escapedLinkEnv : Env :=
  { get := fun _ path =>
      if path = "/accounts/acc/transactions?limit=100" then
        .ok ⟨200, samplePageBody [1, 2]
          "https://api.myponto.com/accounts/acc/transactions%3Fa=b?page=2"⟩
      else if path = "/accounts/acc/transactions?a=b?page=2" then
        .ok ⟨200, samplePageBody [3] ""⟩
      else .ok ⟨404, errorBody "resourceNotFound" "no such page"⟩,
    urlParse := escapedURLParse,
    time := { nowAddDays := fun _ => "2024-01-01", parseDateOnly := fun _ => false,
              parseRFC3339 := fun _ => none },
    codec := { decodable := fun _ => true, unmarshal := fun _ => .ok zeroTransaction } }

/-- An environment that serves two pages of account `acc`; the next link of
the first page names another scheme, user and host than the API. -/
def foreignLinkEnv : Env :=
  { get := fun _ path =>
      if path = "/accounts/acc/transactions?limit=100" then
        .ok ⟨200, samplePageBody [1, 2]
          "http://user:pw@evil.example/accounts/acc/transactions?page=2"⟩
      else if path = "/accounts/acc/transactions?page=2" then
        .ok ⟨200, samplePageBody [3] ""⟩
      else .ok ⟨404, errorBody "resourceNotFound" "no such page"⟩,
    urlParse := fun link =>
      if link = "http://user:pw@evil.example/accounts/acc/transactions?page=2" then
        some ⟨"http", "user:pw", "evil.example", "/accounts/acc/transactions", "page=2"⟩
      else none,
    time := { nowAddDays := fun _ => "2024-01-01", parseDateOnly := fun _ => false,
              parseRFC3339 := fun _ => none },
    codec := { decodable := fun _ => true, unmarshal := fun _ => .ok zeroTransaction } }

/-- The string that the member `name` of an attribute object holds: the value
of the last member that selects the field and is a string, else empty. -/
def attrString (attrs : Option (List (String × JSON))) (name : String) : String :=
  (attrs.getD []).foldl
    (fun cur kv =>
      if fieldMatches name kv.1 then
        match kv.2 with
        | .string str => str
        | _ => cur
      else cur) ""

/-- A stand-in for the attribute codec of `PendingTransaction` on attribute
objects whose members are strings: each string field takes the member of its
JSON name, the amount is left zero. -/
def samplePendingCodec : AttrCodec PendingTransaction :=
  { decodable := fun _ => true,
    unmarshal := fun attrs =>
      .ok { ID := attrString attrs "id", Amount := { bits := 0 },
            Currency := attrString attrs "currency",
            Description := attrString attrs "description",
            CounterpartName := attrString attrs "counterpartName",
            CounterpartRef := attrString attrs "counterpartReference",
            RemittanceInfo := attrString attrs "remittanceInformation",
            ValueDate := attrString attrs "valueDate" } }

/-- A stand-in for the attribute codec of `Organization` on attribute objects
whose members are strings. -/
def sampleOrganizationCodec : AttrCodec Organization :=
  { decodable := fun _ => true,
    unmarshal := fun attrs => .ok { ID := attrString attrs "id", Name := attrString attrs "name" } }

/-- A successful single-resource response for the pending transaction `pt-1`. -/
def pendingTransactionResponse : Response :=
  ⟨200, "\x7b\"data\":\x7b\"id\":\"pt-1\",\"type\":\"pendingTransaction\"," ++
    "\"attributes\":\x7b\"description\":\"rent\",\"currency\":\"EUR\"\x7d\x7d\x7d"⟩

/-- A successful list response holding the pending transactions `pt-1` and `pt-2`. -/
def pendingTransactionsResponse : Response :=
  ⟨200, "\x7b\"data\":[\x7b\"id\":\"pt-1\",\"type\":\"pendingTransaction\"," ++
    "\"attributes\":\x7b\"description\":\"rent\",\"currency\":\"EUR\"\x7d\x7d," ++
    "\x7b\"id\":\"pt-2\",\"attributes\":\x7b\"id\":\"inner\",\"description\":\"gas\"\x7d\x7d]," ++
    "\"links\":\x7b\"next\":\"\"\x7d\x7d"⟩

/-- A successful single-resource response for an organization whose attribute
map holds an `id` of its own. -/
def organizationResponse : Response :=
  ⟨200, "\x7b\"data\":\x7b\"id\":\"org-7\",\"type\":\"organization\"," ++
    "\"attributes\":\x7b\"id\":\"inner\",\"name\":\"ACME\"\x7d\x7d\x7d"⟩

/-- The location `time.UTC`: no offset at any instant. -/
def utcLoc : Location := ⟨fun _ => ⟨0, -(2 ^ 63), 2 ^ 63 - 1⟩⟩

/-- A current time for the examples: noon of 4 November 2026 in UTC. -/
def sampleNow : Int := 1793793600

/-- The location `America/Santiago` in the year from April 2026: the offset is
-04:00 until the clocks go forward at midnight of 6 September 2026, which is
04:00 UTC, and -03:00 from then on. -/
def santiago : Location :=
  ⟨fun sec =>
    if sec < 1788667200 then ⟨-14400, 1775358000, 1788667200⟩
    else ⟨-10800, 1788667200, 1806807600⟩⟩

/-- The instant at which the clocks of Santiago show 00:30 on 10 September
2026. -/
def santiagoNow : Int := 1789011000

/-- A case table that leaves every rune as it is. -/
def noCaseTable : Char → Char := fun c => c

/-- A synchronization with the given status. -/
def syncWithStatus (status : String) : Synchronization :=
  { ID := "", Subtype := "", Status := status, CreatedAt := "", UpdatedAt := "", Errors := [] }

/-- A stand-in for the attribute codec of `Synchronization` on attribute
objects whose members are strings. -/
def sampleSyncCodec : AttrCodec Synchronization :=
  { decodable := fun _ => true,
    unmarshal := fun attrs => .ok (syncWithStatus (attrString attrs "status")) }

/-- A successful single-resource response for the synchronization `s1` with the
given status. -/
def syncResponse (status : String) : Response :=
  ⟨200, "\x7b\"data\":\x7b\"id\":\"s1\",\"attributes\":\x7b\"status\":\"" ++ status ++
    "\"\x7d\x7d\x7d"⟩

/-- A server on which the synchronization `s1` is pending, running, and from
the third fetch on successful; the caller never cancels. -/
def pollingEnv : SyncEnv :=
  { get := fun n _ =>
      .ok (syncResponse (if n = 0 then "pending" else if n = 1 then "running" else "success")),
    codec := sampleSyncCodec,
    done := fun _ => none }

/-- The same server, with a caller that cancels during the second wait. -/
def cancelledEnv : SyncEnv :=
  { get := fun _ _ => .ok (syncResponse "running"),
    codec := sampleSyncCodec,
    done := fun n => if n = 1 then some (Error.context "context canceled") else none }

/-- A store that holds only the two legacy records of profile `default` and
whose backend fails the fourth call, the write of the migration. -/
def writeFailingKeyring : Keyring :=
  { items := fun k =>
      if k = "ponto:default:client_id" then some (utf8 "my-id")
      else if k = "ponto:default:client_secret" then some (utf8 "my-secret")
      else none,
    calls := 0,
    fault := fun n => if n = 3 then some (KeyringError.other "read-only") else none,
    removeAbsent := none }

/-- An environment that serves one page of account `acc` whose next link begins
with a colon; `url.Parse` rejects such a text, since it has a colon and no
scheme before it. -/
def brokenLinkEnv : Env :=
  { get := fun _ path =>
      if path = "/accounts/acc/transactions?limit=100" then
        .ok ⟨200, samplePageBody [1, 2] "://next"⟩
      else .ok ⟨404, errorBody "resourceNotFound" "no such page"⟩,
    urlParse := fun link => if link.data.head? = some ':' then none else sampleURLParse link,
    time := goTime utcLoc sampleNow,
    codec := { decodable := fun _ => true, unmarshal := fun _ => .ok zeroTransaction } }

/-- An account with every field empty. -/
def zeroAccount : Account :=
  { ID := "", Description := "", Reference := "", Product := "", Currency := "",
    CurrentBalance := { bits := 0 }, AvailableBalance := { bits := 0 }, Deprecated := false }

/-- An environment of the `get` commands in which every call succeeds and
standard input holds only blank lines and comments. -/
def blankStdinEnv : CmdEnv :=
  { newClient := none,
    resolveAccountID := fun id => .ok id,
    stdin := { lines := ["", "# ids follow", "   "], err := none },
    getAccount := fun _ id => .ok { zeroAccount with ID := id },
    getTransaction := fun _ _ id => .ok { zeroTransaction with ID := id },
    outputAccount := fun _ => none,
    outputTransaction := fun _ => none }

/-- The same environment with two ids, a comment and a blank line on standard
input. -/
def idsStdinEnv : CmdEnv :=
  { blankStdinEnv with
    stdin := { lines := [" acc-1 ", "# skipped", "", "acc-2\r"], err := none } }

/-! ## Theorems -/

/-! ### Token manager -/

theorem wrapInt64_of_range (x : Int) (hlo : -(2 ^ 63) ≤ x) (hhi : x < 2 ^ 63) :
    wrapInt64 x = x := by
  unfold wrapInt64
  omega

theorem isExpired_eq_false_iff (t : Token) (now : Int) :
    t.IsExpired now = false ↔ now ≤ t.ExpiresAt - tokenBufferSec * Second := by
  unfold Token.IsExpired tokenBufferSec Second
  simp only [decide_eq_false_iff_not, not_lt]
  omega

theorem fetchToken_expiresAt (ep : TokenEndpoint) (n : Nat) (fetchedAt : Int)
    (clientID clientSecret : String) (tok : Token)
    (h : fetchToken ep n fetchedAt clientID clientSecret = .ok tok) :
    tok.ExpiresAt = fetchedAt + wrapInt64 (wrapInt64 tok.ExpiresIn * Second) := by
  unfold fetchToken at h
  split at h
  · simp at h
  · simp at h
  · split at h
    · simp at h
    · split at h
      · simp at h
      · simp only [Except.ok.injEq] at h
        subst h
        rfl

/-- C3. Token caching: starting from a cache without an entry for `clientID`,
when the first `GetAccessToken` exchanges the credentials for a token `tok`
and the second call is made while `tok` is still outside the 60-second buffer
(which takes an `ExpiresIn` above the buffer), the first call caches `tok`,
both calls return `tok`, and the two calls together send exactly one request
to the token endpoint. -/
theorem C3_token_caching (ep : TokenEndpoint) (st : AuthState)
    (now1 fetched1 now2 fetched2 : Int) (clientID clientSecret : String) (tok : Token)
    (habsent : st.tokenCache clientID = none)
    (hfetch : fetchToken ep st.exchanges.length fetched1 clientID clientSecret = .ok tok)
    (hout : now2 ≤ tok.ExpiresAt - tokenBufferSec * Second) :
    (GetAccessToken ep st now1 fetched1 clientID clientSecret).1 = .ok tok ∧
    (GetAccessToken ep st now1 fetched1 clientID clientSecret).2.tokenCache clientID
      = some tok ∧
    (GetAccessToken ep (GetAccessToken ep st now1 fetched1 clientID clientSecret).2
      now2 fetched2 clientID clientSecret).1 = .ok tok ∧
    (GetAccessToken ep (GetAccessToken ep st now1 fetched1 clientID clientSecret).2
      now2 fetched2 clientID clientSecret).2.exchanges
      = st.exchanges ++ [(clientID, clientSecret)] := by
  have hne : tok.IsExpired now2 = false := (isExpired_eq_false_iff tok now2).2 hout
  simp only [GetAccessToken, habsent, hfetch, if_true, hne, Bool.not_false, and_self]

theorem C3_token_caching_witness :
    (GetAccessToken sampleEndpoint emptyAuthState 5 0 "id" "secret").1 = .ok sampleToken ∧
    (GetAccessToken sampleEndpoint emptyAuthState 5 0 "id" "secret").2.tokenCache "id"
      = some sampleToken ∧
    (GetAccessToken sampleEndpoint
      (GetAccessToken sampleEndpoint emptyAuthState 5 0 "id" "secret").2
      3540000000000 3540000000007 "id" "other secret").1 = .ok sampleToken ∧
    (GetAccessToken sampleEndpoint
      (GetAccessToken sampleEndpoint emptyAuthState 5 0 "id" "secret").2
      3540000000000 3540000000007 "id" "secret").2.exchanges = [("id", "secret")] :=
  ⟨(C3_token_caching sampleEndpoint emptyAuthState 5 0 3540000000000 3540000000007
      "id" "secret" sampleToken rfl rfl (by decide)).1,
   (C3_token_caching sampleEndpoint emptyAuthState 5 0 3540000000000 3540000000007
      "id" "secret" sampleToken rfl rfl (by decide)).2.1,
   rfl,
   (C3_token_caching sampleEndpoint emptyAuthState 5 0 3540000000000 3540000000007
      "id" "secret" sampleToken rfl rfl (by decide)).2.2.2⟩

/-- C4, as written, fails at the boundary: the cache entry for client `id`
expires exactly 60 seconds after the current time, which is within the
60-second buffer as the specification draws it (usable only while
`now < ExpiresAt - 60 s`), and `GetAccessToken` serves it from the cache
without any exchange. -/
theorem C4_boundary_counterexample :
    cachedAuthState.tokenCache "id" = some sampleToken ∧
    sampleToken.ExpiresAt - tokenBufferSec * Second = 3540000000000 ∧
    ¬ (3540000000000 < sampleToken.ExpiresAt - tokenBufferSec * Second) ∧
    (GetAccessToken sampleEndpoint cachedAuthState 3540000000000 3540000000009
      "id" "secret").1 = .ok sampleToken ∧
    (GetAccessToken sampleEndpoint cachedAuthState 3540000000000 3540000000009
      "id" "secret").2.exchanges = [] :=
  ⟨rfl, by decide, by decide, rfl, rfl⟩

/-- C4, amended. Token expiry: whenever the cache entry for `clientID` expires
less than 60 seconds after the current time (`ExpiresAt - 60 s < now`), or has
expired already, `GetAccessToken` sends a fresh request to the token endpoint
and returns what that exchange gives; when it succeeds, the cache entry for
`clientID` is the newly fetched token and the entry of every other client
identifier is unchanged. -/
theorem C4_token_expiry (ep : TokenEndpoint) (st : AuthState) (now fetchedAt : Int)
    (clientID clientSecret : String) (cached : Token)
    (hcached : st.tokenCache clientID = some cached)
    (hwithin : cached.ExpiresAt - tokenBufferSec * Second < now) :
    (GetAccessToken ep st now fetchedAt clientID clientSecret).2.exchanges
      = st.exchanges ++ [(clientID, clientSecret)] ∧
    (GetAccessToken ep st now fetchedAt clientID clientSecret).1
      = fetchToken ep st.exchanges.length fetchedAt clientID clientSecret ∧
    (∀ tok, (GetAccessToken ep st now fetchedAt clientID clientSecret).1 = .ok tok →
      (GetAccessToken ep st now fetchedAt clientID clientSecret).2.tokenCache clientID
        = some tok ∧
      ∀ other, other ≠ clientID →
        (GetAccessToken ep st now fetchedAt clientID clientSecret).2.tokenCache other
          = st.tokenCache other) := by
  have hexp : cached.IsExpired now = true := by
    unfold Token.IsExpired tokenBufferSec Second
    unfold tokenBufferSec Second at hwithin
    simp only [decide_eq_true_eq]
    omega
  unfold GetAccessToken
  simp only [hcached, hexp, Bool.not_true, Bool.false_eq_true, if_false]
  cases hf : fetchToken ep st.exchanges.length fetchedAt clientID clientSecret with
  | error e => simp
  | ok token =>
    simp only [Except.ok.injEq, true_and]
    intro tok htok
    subst htok
    refine ⟨by simp, ?_⟩
    intro other hother
    simp [hother]

theorem C4_token_expiry_witness :
    (GetAccessToken sampleEndpoint cachedAuthState 3540000000001 3540000000009
      "id" "secret").2.exchanges = [("id", "secret")] ∧
    (GetAccessToken sampleEndpoint cachedAuthState 3540000000001 3540000000009
      "id" "secret").2.tokenCache "id"
      = some { sampleToken with ExpiresAt := 7140000000009 } ∧
    (GetAccessToken sampleEndpoint cachedAuthState 3540000000001 3540000000009
      "id" "secret").2.tokenCache "another" = none :=
  ⟨(C4_token_expiry sampleEndpoint cachedAuthState 3540000000001 3540000000009
      "id" "secret" sampleToken rfl (by decide)).1,
   ((C4_token_expiry sampleEndpoint cachedAuthState 3540000000001 3540000000009
      "id" "secret" sampleToken rfl (by decide)).2.2
      { sampleToken with ExpiresAt := 7140000000009 } rfl).1,
   ((C4_token_expiry sampleEndpoint cachedAuthState 3540000000001 3540000000009
      "id" "secret" sampleToken rfl (by decide)).2.2
      { sampleToken with ExpiresAt := 7140000000009 } rfl).2 "another" (by decide)⟩

/-- C5, as stated, fails at the boundary: the token fetched at time 0 with
`ExpiresIn = 3600` is still treated as usable at `now = ExpiresAt - 60 s`,
where `now < ExpiresAt - 60 s` does not hold. -/
theorem C5_boundary_counterexample :
    fetchToken sampleEndpoint 0 0 "id" "secret" = .ok sampleToken ∧
    sampleToken.ExpiresAt = 0 + 3600 * Second ∧
    sampleToken.IsExpired 3540000000000 = false ∧
    ¬ (3540000000000 < sampleToken.ExpiresAt - tokenBufferSec * Second) :=
  ⟨rfl, by decide, by decide, by decide⟩

/-- C5, amended. Token usability boundary: for every token and every current
time `now`, `IsExpired` returns false if and only if
`now ≤ ExpiresAt - 60 s` (the bound is included); and a token that
`fetchToken` returns at time `fetchedAt` has
`ExpiresAt = fetchedAt + ExpiresIn` seconds whenever that many seconds fit
the 64-bit nanosecond count of a `time.Duration`. -/
theorem C5_token_usability (ep : TokenEndpoint) (n : Nat) (fetchedAt : Int)
    (clientID clientSecret : String) (tok : Token)
    (hfetch : fetchToken ep n fetchedAt clientID clientSecret = .ok tok)
    (hlo : -(2 ^ 63) ≤ tok.ExpiresIn * Second) (hhi : tok.ExpiresIn * Second < 2 ^ 63) :
    (∀ (t : Token) (now : Int),
      t.IsExpired now = false ↔ now ≤ t.ExpiresAt - tokenBufferSec * Second) ∧
    tok.ExpiresAt = fetchedAt + tok.ExpiresIn * Second ∧
    (∀ now : Int, tok.IsExpired now = false ↔
      now ≤ fetchedAt + tok.ExpiresIn * Second - tokenBufferSec * Second) := by
  have hat := fetchToken_expiresAt ep n fetchedAt clientID clientSecret tok hfetch
  have hin : wrapInt64 tok.ExpiresIn = tok.ExpiresIn := by
    apply wrapInt64_of_range <;> (unfold Second at hlo hhi; omega)
  rw [hin, wrapInt64_of_range _ hlo hhi] at hat
  refine ⟨isExpired_eq_false_iff, hat, ?_⟩
  intro now
  rw [isExpired_eq_false_iff, hat]

theorem C5_token_usability_witness :
    (∀ (t : Token) (now : Int),
      t.IsExpired now = false ↔ now ≤ t.ExpiresAt - tokenBufferSec * Second) ∧
    sampleToken.ExpiresAt = 0 + sampleToken.ExpiresIn * Second ∧
    (∀ now : Int, sampleToken.IsExpired now = false ↔
      now ≤ 0 + sampleToken.ExpiresIn * Second - tokenBufferSec * Second) :=
  C5_token_usability sampleEndpoint 0 0 "id" "secret" sampleToken rfl (by decide) (by decide)

/-- The duration of `fetchToken` wraps: an `ExpiresIn` of 9223372037 seconds
puts `ExpiresAt` before the fetch time. -/
theorem fetchToken_duration_wraps :
    wrapInt64 (wrapInt64 9223372037 * Second) = -9223372036709551616 := by decide

/-! ### Go strings -/

theorem DecodeRune_utf8Bytes (c : Char) (rest : Bytes) :
    DecodeRune (utf8Bytes c ++ rest) = (c, (utf8Bytes c).length) := by
  have hv := c.valid
  have hn : c.toNat = c.val.toNat := rfl
  have hvalid : c.toNat < 0xD800 ∨ (0xDFFF < c.toNat ∧ c.toNat < 0x110000) := hv
  generalize hc : c.toNat = n at hvalid
  have hback : Char.ofNat n = c := by rw [← hc, Char.ofNat_toNat]
  unfold utf8Bytes
  simp only [hc]
  by_cases h1 : n < 0x80
  · simp only [h1, if_true, List.singleton_append, DecodeRune, List.length_singleton, hback]
  · by_cases h2 : n < 0x800
    · simp only [h1, h2, if_true, if_false, List.cons_append, List.nil_append, DecodeRune,
        List.length_cons, List.length_nil]
      have e : (0xC0 + n / 64) % 32 * 64 + (0x80 + n % 64) % 64 = n := by omega
      rw [if_neg (by omega), if_neg (by omega), if_pos (by omega : 0xC0 + n / 64 < 0xE0)]
      simp only [if_neg (by omega : ¬ 0xC0 + n / 64 = 0xE0), if_neg (by omega : ¬ 0xC0 + n / 64 = 0xF0),
        if_neg (by omega : ¬ 0xC0 + n / 64 = 0xED), if_neg (by omega : ¬ 0xC0 + n / 64 = 0xF4)]
      rw [if_neg (by omega), if_neg (by omega), if_pos (by omega), e, hback]
    · by_cases h3 : n < 0x10000
      · simp only [h1, h2, h3, if_true, if_false, List.cons_append, List.nil_append, DecodeRune,
          List.length_cons, List.length_nil]
        have e : (0xE0 + n / 4096) % 16 * 4096 + (0x80 + n / 64 % 64) % 64 * 64 +
            (0x80 + n % 64) % 64 = n := by omega
        rw [if_neg (by omega), if_neg (by omega), if_neg (by omega : ¬ 0xE0 + n / 4096 < 0xE0),
          if_pos (by omega : 0xE0 + n / 4096 < 0xF0)]
        simp only [if_neg (by omega : ¬ 0xE0 + n / 4096 = 0xF0),
          if_neg (by omega : ¬ 0xE0 + n / 4096 = 0xF4)]
        rw [if_neg (by omega)]
        by_cases g0 : 0xE0 + n / 4096 = 0xE0
        · rw [if_pos g0, if_neg (by omega : ¬ 0xE0 + n / 4096 = 0xED)]
          rw [if_neg (by omega), if_neg (by omega), if_neg (by omega), if_pos (by omega), e,
            hback]
        · rw [if_neg g0]
          by_cases g1 : 0xE0 + n / 4096 = 0xED
          · rw [if_pos g1]
            rw [if_neg (by omega), if_neg (by omega), if_neg (by omega), if_pos (by omega), e,
              hback]
          · rw [if_neg g1]
            rw [if_neg (by omega), if_neg (by omega), if_neg (by omega), if_pos (by omega), e,
              hback]
      · simp only [h1, h2, h3, if_true, if_false, List.cons_append, List.nil_append, DecodeRune,
          List.length_cons, List.length_nil]
        have e : (0xF0 + n / 262144) % 8 * 262144 + (0x80 + n / 4096 % 64) % 64 * 4096 +
            (0x80 + n / 64 % 64) % 64 * 64 + (0x80 + n % 64) % 64 = n := by omega
        rw [if_neg (by omega), if_neg (by omega), if_neg (by omega : ¬ 0xF0 + n / 262144 < 0xE0),
          if_neg (by omega : ¬ 0xF0 + n / 262144 < 0xF0)]
        simp only [if_neg (by omega : ¬ 0xF0 + n / 262144 = 0xE0),
          if_neg (by omega : ¬ 0xF0 + n / 262144 = 0xED)]
        rw [if_neg (by omega)]
        by_cases g0 : 0xF0 + n / 262144 = 0xF0
        · rw [if_pos g0]
          by_cases g1 : 0xF0 + n / 262144 = 0xF4
          · omega
          · rw [if_neg g1]
            rw [if_neg (by omega), if_neg (by omega), if_neg (by omega), if_neg (by omega),
              if_neg (by omega), e, hback]
        · rw [if_neg g0]
          by_cases g1 : 0xF0 + n / 262144 = 0xF4
          · rw [if_pos g1]
            rw [if_neg (by omega), if_neg (by omega), if_neg (by omega), if_neg (by omega),
              if_neg (by omega), e, hback]
          · rw [if_neg g1]
            rw [if_neg (by omega), if_neg (by omega), if_neg (by omega), if_neg (by omega),
              if_neg (by omega), e, hback]

theorem utf8Bytes_length_pos (c : Char) : 1 ≤ (utf8Bytes c).length := by
  unfold utf8Bytes
  simp only
  split_ifs <;> simp

theorem decodeRunes_skip (a b : Bytes) : decodeRunes (a ++ b) a.length = decodeRunes b 0 := by
  induction a with
  | nil => rfl
  | cons x xs ih => simpa [decodeRunes] using ih

theorem decodeRunes_utf8Bytes (c : Char) (rest : Bytes) :
    decodeRunes (utf8Bytes c ++ rest) 0 = (c, (utf8Bytes c).length) :: decodeRunes rest 0 := by
  have h := DecodeRune_utf8Bytes c rest
  have hl := utf8Bytes_length_pos c
  cases hb : utf8Bytes c with
  | nil => rw [hb] at hl; simp at hl
  | cons b bs =>
    rw [hb] at h
    simp only [List.cons_append] at h ⊢
    rw [decodeRunes, h]
    simp only [List.length_cons, Nat.add_sub_cancel]
    rw [decodeRunes_skip]

theorem decodeRunes_utf8 (s : List Char) (rest : Bytes) :
    decodeRunes (s.flatMap utf8Bytes ++ rest) 0 =
      s.map (fun c => (c, (utf8Bytes c).length)) ++ decodeRunes rest 0 := by
  induction s with
  | nil => rfl
  | cons c cs ih =>
    simp only [List.flatMap_cons, List.append_assoc, List.map_cons, List.cons_append]
    rw [decodeRunes_utf8Bytes, ih]

/-- Reading the Go string of a text gives the text. -/
theorem runes_utf8 (s : String) : runes (utf8 s) = s := by
  have h := decodeRunes_utf8 s.data []
  simp only [List.append_nil] at h
  unfold runes utf8
  rw [h]
  simp [decodeRunes, List.map_map, Function.comp_def]

/-! ### JSON codec -/

theorem hexVal_hexDigit : ∀ k, k < 16 → hexVal (hexDigit k) = some k := by decide

theorem scanString_raw (c : Char) (rest : List Char) (hq : c ≠ '"') (hb : c ≠ '\\')
    (h20 : ¬ c.toNat < 0x20) :
    scanString (c :: rest) = (scanString rest).map fun p => (StrUnit.ch c :: p.1, p.2) := by
  rw [scanString.eq_def]
  simp only [hq, hb, h20, if_false]

theorem scanString_esc (e ch : Char) (rest : List Char) (hu : e ≠ 'u')
    (he : simpleEscape e = some ch) :
    scanString ('\\' :: e :: rest) =
      (scanString rest).map fun p => (StrUnit.ch ch :: p.1, p.2) := by
  rw [scanString.eq_def]
  simp [hu, he]

theorem scanString_u (a b c d : Char) (x y z w : Nat) (rest : List Char)
    (ha : hexVal a = some x) (hb : hexVal b = some y) (hc : hexVal c = some z)
    (hd : hexVal d = some w) :
    scanString ('\\' :: 'u' :: a :: b :: c :: d :: rest) =
      (scanString rest).map fun p =>
        (StrUnit.u16 (((x * 16 + y) * 16 + z) * 16 + w) :: p.1, p.2) := by
  rw [scanString.eq_def]
  simp [ha, hb, hc, hd]

theorem char_eq_of_toNat (c : Char) (n : Nat) (h : c.toNat = n) : c = Char.ofNat n := by
  rw [← h, Char.ofNat_toNat]

theorem quoteChar_cases (c : Char) :
    (quoteChar c = [c] ∧ c ≠ '"' ∧ c ≠ '\\' ∧ ¬ c.toNat < 0x20) ∨
    (∃ e, quoteChar c = ['\\', e] ∧ e ≠ 'u' ∧ simpleEscape e = some c) ∨
    (∃ a b x y, quoteChar c = ['\\', 'u', a, b, hexDigit x, hexDigit y] ∧
      x < 16 ∧ y < 16 ∧ ∃ p q, hexVal a = some p ∧ hexVal b = some q ∧
        ((p * 16 + q) * 16 + x) * 16 + y = c.toNat) := by
  unfold quoteChar
  by_cases h80 : c.toNat < 0x80
  · by_cases hs : htmlSafe c = true
    · left
      have hs' := hs
      simp only [htmlSafe, Bool.and_eq_true, decide_eq_true_eq, bne_iff_ne, ne_eq] at hs'
      obtain ⟨⟨⟨⟨⟨⟨h20, _⟩, hq⟩, _⟩, _⟩, _⟩, hb⟩ := hs'
      refine ⟨by simp [h80, hs], hq, hb, by omega⟩
    · simp only [h80, hs, if_true, if_false, Bool.false_eq_true]
      by_cases h1 : c = '\\' ∨ c = '"'
      · right; left
        rcases h1 with rfl | rfl
        · exact ⟨'\\', by simp, by decide, by decide⟩
        · exact ⟨'"', by simp, by decide, by decide⟩
      · simp only [h1, if_false]
        by_cases h8 : c.toNat = 8
        · right; left
          have := char_eq_of_toNat c 8 h8
          subst this
          exact ⟨'b', by simp, by decide, by decide⟩
        · simp only [h8, if_false]
          by_cases h12 : c.toNat = 12
          · right; left
            have := char_eq_of_toNat c 12 h12
            subst this
            exact ⟨'f', by simp, by decide, by decide⟩
          · simp only [h12, if_false]
            by_cases hn : c = '\n'
            · right; left
              subst hn
              exact ⟨'n', by simp, by decide, by decide⟩
            · simp only [hn, if_false]
              by_cases hr : c = '\r'
              · right; left
                subst hr
                exact ⟨'r', by simp, by decide, by decide⟩
              · simp only [hr, if_false]
                by_cases ht : c = '\t'
                · right; left
                  subst ht
                  exact ⟨'t', by simp, by decide, by decide⟩
                · simp only [ht, if_false]
                  right; right
                  refine ⟨'0', '0', c.toNat / 16, c.toNat % 16, rfl, by omega, by omega,
                    0, 0, by decide, by decide, by omega⟩
  · simp only [h80, if_false]
    by_cases hl : c.toNat = 0x2028 ∨ c.toNat = 0x2029
    · right; right
      simp only [hl, if_true]
      refine ⟨'2', '0', 2, c.toNat % 16, ?_, by omega, by omega, 2, 0, by decide, by decide, ?_⟩
      · rfl
      · rcases hl with h | h <;> rw [h]
    · left
      simp only [hl, if_false]
      refine ⟨trivial, ?_, ?_, by omega⟩
      · rintro rfl; exact h80 (by decide)
      · rintro rfl; exact h80 (by decide)

theorem unitOf_ch (c : Char) (h : (quoteChar c).length ≠ 6) : unitOf c = StrUnit.ch c := by
  simp [unitOf, h]

theorem scanString_quoteChar (c : Char) (rest : List Char) :
    scanString (quoteChar c ++ rest) =
      (scanString rest).map fun p => (unitOf c :: p.1, p.2) := by
  rcases quoteChar_cases c with ⟨h, hq, hb, h20⟩ | ⟨e, h, hu, he⟩ | ⟨a, b, x, y, h, hx, hy, p, q, ha, hb, hv⟩
  · rw [unitOf_ch c (by simp [h]), h]
    exact scanString_raw c rest hq hb h20
  · rw [unitOf_ch c (by simp [h]), h]
    exact scanString_esc e c rest hu he
  · have hu : unitOf c = StrUnit.u16 c.toNat := by simp [unitOf, h]
    rw [hu, h, ← hv]
    exact scanString_u a b (hexDigit x) (hexDigit y) p q x y rest ha hb
      (hexVal_hexDigit x hx) (hexVal_hexDigit y hy)

theorem scanString_quoted (s rest : List Char) :
    scanString (s.flatMap quoteChar ++ '"' :: rest) = some (s.map unitOf, rest) := by
  induction s with
  | nil => rw [scanString.eq_def]; simp
  | cons c s ih =>
    simp only [List.flatMap_cons, List.append_assoc, List.map_cons]
    rw [scanString_quoteChar, ih]
    rfl

theorem isSurrogate_toNat (c : Char) : isSurrogate c.toNat = false := by
  have h := c.valid
  simp only [isSurrogate, Bool.and_eq_false_imp, decide_eq_true_eq, decide_eq_false_iff_not]
  intro h1
  rcases h with h | ⟨h, _⟩
  · have : c.toNat < 0xD800 := h
    omega
  · have : 0xDFFF < c.toNat := h
    omega

theorem unquoteUnits_of_no_surrogate (us : List StrUnit)
    (h : ∀ n, StrUnit.u16 n ∈ us → isSurrogate n = false) :
    unquoteUnits us = us.map unitChar := by
  induction us with
  | nil => rfl
  | cons u rest ih =>
    have ih' := ih (fun n hn => h n (List.mem_cons_of_mem _ hn))
    cases u with
    | ch c => simp [unquoteUnits, ih', unitChar]
    | u16 rr =>
      have hrr : isSurrogate rr = false := h rr (List.mem_cons_self _ _)
      cases rest with
      | nil => simp [unquoteUnits, hrr, unitChar]
      | cons v rest2 =>
        cases v with
        | ch c =>
          simp only [unquoteUnits, List.map_cons, unitChar] at ih' ⊢
          simp only [List.cons.injEq, true_and] at ih'
          simp [hrr, ih']
        | u16 rr1 =>
          simp only [unquoteUnits, hrr, List.map_cons, unitChar] at ih' ⊢
          simp [ih', unitChar]

theorem unitChar_unitOf (c : Char) : unitChar (unitOf c) = c := by
  unfold unitOf
  split <;> simp [unitChar, Char.ofNat_toNat]

theorem unquoteUnits_map_unitOf (s : List Char) : unquoteUnits (s.map unitOf) = s := by
  rw [unquoteUnits_of_no_surrogate]
  · simp [List.map_map, Function.comp_def, unitChar_unitOf]
  · intro n hn
    simp only [List.mem_map] at hn
    obtain ⟨c, _, hc⟩ := hn
    unfold unitOf at hc
    split at hc
    · simp only [StrUnit.u16.injEq] at hc
      rw [← hc]
      exact isSurrogate_toNat c
    · simp at hc

/-- Reading back a quoted string gives the string. -/
theorem unquote_appendString (s rest : List Char) :
    unquote (s.flatMap quoteChar ++ '"' :: rest) = some (s, rest) := by
  simp [unquote, scanString_quoted, unquoteUnits_map_unitOf]

theorem skipSpace_cons (c : Char) (cs : List Char) (h : isJSONSpace c = false) :
    skipSpace (c :: cs) = c :: cs := by
  rw [skipSpace.eq_def]
  simp [h]

theorem parseValue_string (fuel depth : Nat) (s rest : List Char) :
    parseValue (fuel + 1) depth ('"' :: (s.flatMap quoteChar ++ '"' :: rest)) =
      some (JSON.string (String.mk s), rest) := by
  rw [parseValue, skipSpace_cons _ _ (by decide)]
  simp [unquote_appendString]

theorem scanString_quoteRune (u : Char × Nat) (rest : List Char) :
    scanString (quoteRune u ++ rest) =
      (scanString rest).map fun p => (unitOfRune u :: p.1, p.2) := by
  unfold quoteRune unitOfRune
  by_cases h : u.1 = RuneError ∧ u.2 = 1
  · rw [if_pos h, if_pos h]
    exact scanString_u 'f' 'f' 'f' 'd' 15 15 15 13 rest (by decide) (by decide) (by decide)
      (by decide)
  · rw [if_neg h, if_neg h]
    exact scanString_quoteChar u.1 rest

theorem scanString_quotedRunes (us : List (Char × Nat)) (rest : List Char) :
    scanString (us.flatMap quoteRune ++ '"' :: rest) = some (us.map unitOfRune, rest) := by
  induction us with
  | nil => rw [scanString.eq_def]; simp
  | cons u us ih =>
    simp only [List.flatMap_cons, List.append_assoc, List.map_cons]
    rw [scanString_quoteRune, ih]
    rfl

theorem unitChar_unitOfRune (u : Char × Nat) : unitChar (unitOfRune u) = u.1 := by
  unfold unitOfRune
  split
  · rename_i h
    rw [h.1]
    rfl
  · exact unitChar_unitOf _

theorem unquoteUnits_map_unitOfRune (us : List (Char × Nat)) :
    unquoteUnits (us.map unitOfRune) = us.map Prod.fst := by
  rw [unquoteUnits_of_no_surrogate]
  · simp [List.map_map, Function.comp_def, unitChar_unitOfRune]
  · intro n hn
    simp only [List.mem_map] at hn
    obtain ⟨u, _, hu⟩ := hn
    unfold unitOfRune at hu
    split at hu
    · simp only [StrUnit.u16.injEq] at hu
      rw [← hu]
      decide
    · unfold unitOf at hu
      split at hu
      · simp only [StrUnit.u16.injEq] at hu
        rw [← hu]
        exact isSurrogate_toNat u.1
      · simp at hu

/-- Reading back a quoted Go string gives its runes. -/
theorem unquote_appendGoString (us : List (Char × Nat)) (rest : List Char) :
    unquote (us.flatMap quoteRune ++ '"' :: rest) = some (us.map Prod.fst, rest) := by
  simp [unquote, scanString_quotedRunes, unquoteUnits_map_unitOfRune]

theorem parseValue_goString (fuel depth : Nat) (us : List (Char × Nat)) (rest : List Char) :
    parseValue (fuel + 1) depth ('"' :: (us.flatMap quoteRune ++ '"' :: rest)) =
      some (JSON.string (String.mk (us.map Prod.fst)), rest) := by
  rw [parseValue, skipSpace_cons _ _ (by decide)]
  simp [unquote_appendGoString]

theorem parseValue_marshal (id sec : List (Char × Nat)) (k : Nat) :
    parseValue (k + 4) 0
      ('{' :: '"' :: ("client_id".data.flatMap quoteChar ++ '"' :: ':' :: '"' ::
        (id.flatMap quoteRune ++ '"' :: ',' :: '"' ::
          ("client_secret".data.flatMap quoteChar ++ '"' :: ':' :: '"' ::
            (sec.flatMap quoteRune ++ '"' :: '}' :: []))))) =
      some (JSON.object [("client_id", JSON.string (String.mk (id.map Prod.fst))),
        ("client_secret", JSON.string (String.mk (sec.map Prod.fst)))], []) := by
  rw [parseValue, skipSpace_cons _ _ (by decide)]
  simp only [show ('{' : Char) ≠ '"' by decide, if_false, if_true,
    show ¬ maxNestingDepth ≤ 0 by decide]
  rw [skipSpace_cons _ _ (by decide)]
  simp only [show ('"' : Char) ≠ '}' by decide, if_false]
  rw [parseMembers, skipSpace_cons _ _ (by decide)]
  simp only [if_true, unquote_appendString]
  rw [skipSpace_cons _ _ (by decide)]
  simp only [if_true, parseValue_goString]
  rw [skipSpace_cons _ _ (by decide)]
  simp only [if_true]
  rw [parseMembers, skipSpace_cons _ _ (by decide)]
  simp only [if_true, unquote_appendString]
  rw [skipSpace_cons _ _ (by decide)]
  simp only [if_true, parseValue_goString]
  rw [skipSpace_cons _ _ (by decide)]
  simp only [show ('}' : Char) ≠ ',' by decide, if_false, if_true]
  rfl

theorem marshalCredentials_data (c : credentials) :
    (runes (marshalCredentials c)).data =
      '{' :: '"' :: ("client_id".data.flatMap quoteChar ++ '"' :: ':' :: '"' ::
        ((decodeRunes c.ClientID 0).flatMap quoteRune ++ '"' :: ',' :: '"' ::
          ("client_secret".data.flatMap quoteChar ++ '"' :: ':' :: '"' ::
            ((decodeRunes c.ClientSecret 0).flatMap quoteRune ++ '"' :: '}' :: [])))) := by
  have h1 : "client_id".data.flatMap quoteChar = "client_id".data := by decide
  have h2 : "client_secret".data.flatMap quoteChar = "client_secret".data := by decide
  rw [h1, h2, marshalCredentials, runes_utf8]
  simp [appendGoString]

theorem jsonUnmarshal_marshalCredentials (c : credentials) :
    jsonUnmarshal (runes (marshalCredentials c)) =
      some (JSON.object [("client_id", JSON.string (runes c.ClientID)),
        ("client_secret", JSON.string (runes c.ClientSecret))]) := by
  unfold jsonUnmarshal
  have hlen : ∃ k, 2 * (runes (marshalCredentials c)).data.length + 1 = k + 4 := by
    refine ⟨2 * (runes (marshalCredentials c)).data.length - 3, ?_⟩
    have : 2 ≤ (runes (marshalCredentials c)).data.length := by
      rw [marshalCredentials_data]; simp
    omega
  obtain ⟨k, hk⟩ := hlen
  rw [hk, marshalCredentials_data, parseValue_marshal]
  simp [skipSpace, runes]

/-- Decoding a marshalled credentials record gives the record in which every
byte that begins no valid UTF-8 encoding has become U+FFFD. -/
theorem unmarshalCredentials_marshalCredentials (c : credentials) :
    unmarshalCredentials (marshalCredentials c) =
      some { ClientID := utf8 (runes c.ClientID), ClientSecret := utf8 (runes c.ClientSecret) } := by
  unfold unmarshalCredentials
  rw [jsonUnmarshal_marshalCredentials]
  have h1 : fieldMatches "client_id" "client_id" = true := by decide
  have h2 : fieldMatches "client_id" "client_secret" = false := by decide
  have h3 : fieldMatches "client_secret" "client_secret" = true := by decide
  simp [bindCredentials, bindGoString, h1, h2, h3]

/-- A Go string that holds a text is read back as it was written. -/
theorem utf8_runes_utf8 (t : String) : utf8 (runes (utf8 t)) = utf8 t := by
  rw [runes_utf8]

/-! ### Credential store -/

theorem dropWhile_of_prefix_dropWhile (p : Char → Bool) (l t : List Char)
    (h : t <+: l.dropWhile p) : t.dropWhile p = t := by
  cases t with
  | nil => rfl
  | cons a as =>
    obtain ⟨u, hu⟩ := h
    have hhead := List.head?_dropWhile_not p l
    rw [← hu] at hhead
    simp only [List.cons_append, List.head?_cons] at hhead
    simp [List.dropWhile_cons, hhead]

theorem dropWhile_rdropWhile_trim (p : Char → Bool) (l : List Char) :
    ((l.dropWhile p).rdropWhile p).dropWhile p = (l.dropWhile p).rdropWhile p :=
  dropWhile_of_prefix_dropWhile p l _ (List.rdropWhile_prefix p _)

theorem TrimSpace_idem (s : String) : TrimSpace (TrimSpace s) = TrimSpace s := by
  unfold TrimSpace
  simp only
  rw [dropWhile_rdropWhile_trim, List.rdropWhile_idempotent]

theorem string_append_left_cancel (a b c : String) (h : a ++ b = a ++ c) : b = c := by
  have h1 := congrArg String.data h
  simp only [String.data_append] at h1
  exact String.ext (List.append_cancel_left h1)

theorem credentialsKey_ne_legacyClientIDKey (p : String) :
    credentialsKey p ≠ legacyClientIDKey p := by
  intro h
  exact absurd (string_append_left_cancel _ _ _ h) (by decide)

theorem credentialsKey_ne_legacyClientSecretKey (p : String) :
    credentialsKey p ≠ legacyClientSecretKey p := by
  intro h
  exact absurd (string_append_left_cancel _ _ _ h) (by decide)

theorem legacyClientIDKey_ne_legacyClientSecretKey (p : String) :
    legacyClientIDKey p ≠ legacyClientSecretKey p := by
  intro h
  exact absurd (string_append_left_cancel _ _ _ h) (by decide)

/-- What `SetCredentials` followed by `GetCredentials` gives for any two Go
strings: the write succeeds and the read returns the pair in which every byte
that begins no valid UTF-8 encoding has become U+FFFD. -/
theorem GetCredentials_SetCredentials (s : Keyring) (P : String) (id secret : Bytes)
    (hP : TrimSpace P ≠ "") (hrel : s.reliable) :
    (SetCredentials s P id secret).1 = none ∧
    (GetCredentials (SetCredentials s P id secret).2 P).1 =
      .ok (utf8 (runes id), utf8 (runes secret)) := by
  have h0 := hrel s.calls
  have h1 := hrel (s.calls + 1)
  simp [SetCredentials, GetCredentials, Keyring.Set, Keyring.Get, hP, h0, h1,
    unmarshalCredentials_marshalCredentials]

/-- C1, as written, fails: a client id may be any Go string, and for the id of
the four bytes ff 69 64 c3, which is no valid UTF-8, `SetCredentials` succeeds
and `GetCredentials` then returns another id, of eight bytes, in which ff and
c3 have become U+FFFD. -/
theorem C1_invalid_utf8_counterexample :
    TrimSpace "default" ≠ "" ∧ emptyKeyring.reliable ∧
    (SetCredentials emptyKeyring "default" [0xFF, 0x69, 0x64, 0xC3] (utf8 "secret")).1 = none ∧
    (GetCredentials
      (SetCredentials emptyKeyring "default" [0xFF, 0x69, 0x64, 0xC3] (utf8 "secret")).2
      "default").1 =
        .ok ([0xEF, 0xBF, 0xBD, 0x69, 0x64, 0xEF, 0xBF, 0xBD], utf8 "secret") ∧
    ([0xEF, 0xBF, 0xBD, 0x69, 0x64, 0xEF, 0xBF, 0xBD] : Bytes) ≠ [0xFF, 0x69, 0x64, 0xC3] :=
  ⟨by decide, fun _ => rfl,
    (GetCredentials_SetCredentials emptyKeyring "default" [0xFF, 0x69, 0x64, 0xC3]
      (utf8 "secret") (by decide) (fun _ => rfl)).1,
    (GetCredentials_SetCredentials emptyKeyring "default" [0xFF, 0x69, 0x64, 0xC3]
      (utf8 "secret") (by decide) (fun _ => rfl)).2.trans rfl,
    by decide⟩

/-- C1, amended. Credential round trip: for every profile that is non-empty
after trimming, every client id and client secret that are valid UTF-8 (the
Go strings of two texts) and every prior content of a working store,
`SetCredentials` succeeds and a following `GetCredentials` of the same profile
succeeds and returns exactly the pair that was stored. -/
theorem C1_credential_round_trip (s : Keyring) (P id secret : String)
    (hP : TrimSpace P ≠ "") (hrel : s.reliable) :
    (SetCredentials s P (utf8 id) (utf8 secret)).1 = none ∧
    (GetCredentials (SetCredentials s P (utf8 id) (utf8 secret)).2 P).1 =
      .ok (utf8 id, utf8 secret) := by
  have h := GetCredentials_SetCredentials s P (utf8 id) (utf8 secret) hP hrel
  rw [utf8_runes_utf8, utf8_runes_utf8] at h
  exact h

theorem C1_credential_round_trip_witness :
    TrimSpace " default " ≠ "" ∧ emptyKeyring.reliable ∧
    (SetCredentials emptyKeyring " default " (utf8 "id<1>") (utf8 "s\"e\\cret")).1 = none ∧
    (GetCredentials
      (SetCredentials emptyKeyring " default " (utf8 "id<1>") (utf8 "s\"e\\cret")).2
      " default ").1 = .ok (utf8 "id<1>", utf8 "s\"e\\cret") :=
  ⟨by decide, fun _ => rfl,
   C1_credential_round_trip emptyKeyring " default " "id<1>" "s\"e\\cret" (by decide)
     (fun _ => rfl)⟩

/-- The legacy migration for any two legacy records: `GetCredentials` returns
their data as they are, the two legacy keys are absent afterwards, and the
unified record holds the marshalled pair. -/
theorem GetCredentials_legacy (s : Keyring) (P : String) (clientID clientSecret : Bytes)
    (hP : TrimSpace P ≠ "") (hrel : s.reliable)
    (hunified : s.items (credentialsKey (TrimSpace P)) = none)
    (hid : s.items (legacyClientIDKey (TrimSpace P)) = some clientID)
    (hsecret : s.items (legacyClientSecretKey (TrimSpace P)) = some clientSecret) :
    (GetCredentials s P).1 = .ok (clientID, clientSecret) ∧
    ((GetCredentials s P).2.Get (legacyClientIDKey (TrimSpace P))).1 =
      .error KeyringError.ErrKeyNotFound ∧
    ((GetCredentials s P).2.Get (legacyClientSecretKey (TrimSpace P))).1 =
      .error KeyringError.ErrKeyNotFound ∧
    ((GetCredentials s P).2.Get (credentialsKey (TrimSpace P))).1 =
      .ok (marshalCredentials { ClientID := clientID, ClientSecret := clientSecret }) := by
  have f0 := hrel s.calls
  have f1 := hrel (s.calls + 1)
  have f2 := hrel (s.calls + 1 + 1)
  have f3 := hrel (s.calls + 1 + 1 + 1)
  have f4 := hrel (s.calls + 1 + 1 + 1 + 1)
  have f5 := hrel (s.calls + 1 + 1 + 1 + 1 + 1)
  have f6 := hrel (s.calls + 1 + 1 + 1 + 1 + 1 + 1)
  have k1 := credentialsKey_ne_legacyClientIDKey (TrimSpace P)
  have k2 := credentialsKey_ne_legacyClientSecretKey (TrimSpace P)
  have k3 := legacyClientIDKey_ne_legacyClientSecretKey (TrimSpace P)
  have hget : GetCredentials s P =
      (.ok (clientID, clientSecret),
       { s with
         calls := s.calls + 1 + 1 + 1 + 1 + 1 + 1,
         items := fun k =>
           if k = legacyClientSecretKey (TrimSpace P) then none
           else if k = legacyClientIDKey (TrimSpace P) then none
           else if k = credentialsKey (TrimSpace P) then
             some (marshalCredentials { ClientID := clientID, ClientSecret := clientSecret })
           else s.items k }) := by
    simp [GetCredentials, SetCredentials, Keyring.Get, Keyring.Set, Keyring.Remove, hP,
      f0, f1, f2, f3, f4, f5, hunified, hid, hsecret, TrimSpace_idem, k1, k1.symm, k2,
      k2.symm, k3, k3.symm]
  rw [hget]
  refine ⟨rfl, ?_, ?_, ?_⟩
  · simp [Keyring.Get, f6, k3]
  · simp [Keyring.Get, f6]
  · simp [Keyring.Get, f6, k1, k2]

/-- C2, as written, fails: the legacy records are byte slices, and for a legacy
client id of the three bytes ff 69 64, which is no valid UTF-8,
`GetCredentials` returns that id while the unified record it writes decodes to
another one, of five bytes, in which ff has become U+FFFD. -/
theorem C2_invalid_utf8_counterexample :
    (GetCredentials invalidLegacyKeyring "default").1 =
      .ok ([0xFF, 0x69, 0x64], utf8 "my-secret") ∧
    (∃ data, ((GetCredentials invalidLegacyKeyring "default").2.Get
        (credentialsKey (TrimSpace "default"))).1 = .ok data ∧
      unmarshalCredentials data =
        some { ClientID := [0xEF, 0xBF, 0xBD, 0x69, 0x64], ClientSecret := utf8 "my-secret" }) ∧
    ([0xEF, 0xBF, 0xBD, 0x69, 0x64] : Bytes) ≠ [0xFF, 0x69, 0x64] :=
  ⟨(GetCredentials_legacy invalidLegacyKeyring "default" [0xFF, 0x69, 0x64] (utf8 "my-secret")
      (by decide) (fun _ => rfl) (by decide) (by decide) (by decide)).1,
    ⟨_, (GetCredentials_legacy invalidLegacyKeyring "default" [0xFF, 0x69, 0x64]
        (utf8 "my-secret") (by decide) (fun _ => rfl) (by decide) (by decide)
        (by decide)).2.2.2,
      (unmarshalCredentials_marshalCredentials _).trans rfl⟩,
    by decide⟩

/-- C2, amended. Legacy migration: when a working store holds the two legacy
records of a non-empty profile and no unified record, and the data of both
records are valid UTF-8 (the Go strings of two texts), `GetCredentials` returns
the pair held in the legacy records; afterwards a raw read of either legacy key
finds it absent, and the unified record is present and decodes to the same
pair. -/
theorem C2_legacy_migration (s : Keyring) (P clientID clientSecret : String)
    (hP : TrimSpace P ≠ "") (hrel : s.reliable)
    (hunified : s.items (credentialsKey (TrimSpace P)) = none)
    (hid : s.items (legacyClientIDKey (TrimSpace P)) = some (utf8 clientID))
    (hsecret : s.items (legacyClientSecretKey (TrimSpace P)) = some (utf8 clientSecret)) :
    (GetCredentials s P).1 = .ok (utf8 clientID, utf8 clientSecret) ∧
    ((GetCredentials s P).2.Get (legacyClientIDKey (TrimSpace P))).1 =
      .error KeyringError.ErrKeyNotFound ∧
    ((GetCredentials s P).2.Get (legacyClientSecretKey (TrimSpace P))).1 =
      .error KeyringError.ErrKeyNotFound ∧
    (∃ data, ((GetCredentials s P).2.Get (credentialsKey (TrimSpace P))).1 = .ok data ∧
      unmarshalCredentials data =
        some { ClientID := utf8 clientID, ClientSecret := utf8 clientSecret }) := by
  obtain ⟨h1, h2, h3, h4⟩ :=
    GetCredentials_legacy s P (utf8 clientID) (utf8 clientSecret) hP hrel hunified hid hsecret
  refine ⟨h1, h2, h3, _, h4, ?_⟩
  rw [unmarshalCredentials_marshalCredentials, utf8_runes_utf8, utf8_runes_utf8]

theorem C2_legacy_migration_witness :
    (GetCredentials legacyKeyring "default").1 = .ok (utf8 "my-id", utf8 "my-secret") ∧
    ((GetCredentials legacyKeyring "default").2.Get
      (legacyClientIDKey (TrimSpace "default"))).1 = .error KeyringError.ErrKeyNotFound ∧
    ((GetCredentials legacyKeyring "default").2.Get
      (legacyClientSecretKey (TrimSpace "default"))).1 = .error KeyringError.ErrKeyNotFound ∧
    (∃ data, ((GetCredentials legacyKeyring "default").2.Get
        (credentialsKey (TrimSpace "default"))).1 = .ok data ∧
      unmarshalCredentials data =
        some { ClientID := utf8 "my-id", ClientSecret := utf8 "my-secret" }) :=
  C2_legacy_migration legacyKeyring "default" "my-id" "my-secret" (by decide) (fun _ => rfl)
    (by decide) (by decide) (by decide)

/-- C10. Delete then get: for every non-empty profile and every content of a
working store (unified record, legacy records, both or neither present),
once `DeleteCredentials` has succeeded, `GetCredentials` of the same profile
fails with `CredentialsNotFound`. -/
theorem C10_delete_then_get (s : Keyring) (P : String)
    (hP : TrimSpace P ≠ "") (hrel : s.reliable)
    (hdel : (DeleteCredentials s P).1 = none) :
    (GetCredentials (DeleteCredentials s P).2 P).1 = .error CredentialsNotFound := by
  have f0 := hrel s.calls
  have f1 := hrel (s.calls + 1)
  have f2 := hrel (s.calls + 1 + 1)
  have f3 := hrel (s.calls + 1 + 1 + 1)
  have f4 := hrel (s.calls + 1 + 1 + 1 + 1)
  have k1 := credentialsKey_ne_legacyClientIDKey (TrimSpace P)
  have k2 := credentialsKey_ne_legacyClientSecretKey (TrimSpace P)
  have k3 := legacyClientIDKey_ne_legacyClientSecretKey (TrimSpace P)
  have k4 := k1.symm
  have k5 := k2.symm
  have k6 := k3.symm
  have hitems : ∃ s', (DeleteCredentials s P).2 = s' ∧ s'.calls = s.calls + 1 + 1 + 1 ∧
      s'.fault = s.fault ∧ s'.items (credentialsKey (TrimSpace P)) = none ∧
      s'.items (legacyClientIDKey (TrimSpace P)) = none := by
    refine ⟨_, rfl, ?_⟩
    unfold DeleteCredentials at hdel ⊢
    simp only [hP, if_false] at hdel ⊢
    cases hu : s.items (credentialsKey (TrimSpace P)) <;>
    cases hi : s.items (legacyClientIDKey (TrimSpace P)) <;>
    cases hs : s.items (legacyClientSecretKey (TrimSpace P)) <;>
    cases hra : s.removeAbsent <;>
    simp_all [Keyring.Remove] <;>
    (split <;> simp_all [Keyring.Remove])
  obtain ⟨s', hs', hcalls, hfault, hu, hi⟩ := hitems
  rw [hs']
  have g0 : s'.fault s'.calls = none := by rw [hfault, hcalls]; exact f3
  have g1 : s'.fault (s'.calls + 1) = none := by rw [hfault, hcalls]; exact f4
  simp [GetCredentials, Keyring.Get, hP, g0, g1, hu, hi, CredentialsNotFound]

theorem C10_delete_then_get_witness :
    (DeleteCredentials legacyKeyring "default").1 = none ∧
    (GetCredentials (DeleteCredentials legacyKeyring "default").2 "default").1 =
      .error CredentialsNotFound :=
  ⟨by decide,
   C10_delete_then_get legacyKeyring "default" (by decide) (fun _ => rfl) (by decide)⟩

/-! ### Error decoding -/

theorem parseAPIError_example :
    parseAPIError ⟨404, "\x7b\"errors\":[\x7b\"code\":\"X\",\"detail\":\"Y\"\x7d]\x7d"⟩ =
      ⟨404, "X", "Y"⟩ := by decide

theorem parseAPIError_examples :
    parseAPIError ⟨500, "<html>Bad Gateway</html>"⟩ = ⟨500, "", "<html>Bad Gateway</html>"⟩ ∧
    parseAPIError ⟨401, "\x7b\"errors\":[]\x7d"⟩ = ⟨401, "", "\x7b\"errors\":[]\x7d"⟩ ∧
    parseAPIError ⟨401, "\x7b\"Errors\": [\x7b\"detail\":\"no\"\x7d, \x7b\"code\":\"b\"\x7d]\x7d "⟩ =
      ⟨401, "", "no"⟩ ∧
    parseAPIError ⟨400, "\x7b\"errors\":[\x7b\"code\":5\x7d]\x7d"⟩ =
      ⟨400, "", "\x7b\"errors\":[\x7b\"code\":5\x7d]\x7d"⟩ := by decide

theorem parseValue_errorBody (X Y : List Char) (k : Nat) :
    parseValue (k + 8) 0
      ('{' :: '"' :: ("errors".data.flatMap quoteChar ++ '"' :: ':' :: '[' :: '{' :: '"' ::
        ("code".data.flatMap quoteChar ++ '"' :: ':' :: '"' ::
          (X.flatMap quoteChar ++ '"' :: ',' :: '"' ::
            ("detail".data.flatMap quoteChar ++ '"' :: ':' :: '"' ::
              (Y.flatMap quoteChar ++ '"' :: '}' :: ']' :: '}' :: [])))))) =
      some (JSON.object [("errors", JSON.array [JSON.object
        [("code", JSON.string (String.mk X)), ("detail", JSON.string (String.mk Y))]])], []) := by
  have hd : ¬ maxNestingDepth ≤ 0 := by decide
  have hd1 : ¬ maxNestingDepth ≤ 0 + 1 := by decide
  have hd2 : ¬ maxNestingDepth ≤ 0 + 1 + 1 := by decide
  rw [parseValue, skipSpace_cons _ _ (by decide)]
  simp only [show ('{' : Char) ≠ '"' by decide, if_false, if_true, hd]
  rw [skipSpace_cons _ _ (by decide)]
  simp only [show ('"' : Char) ≠ '}' by decide, if_false]
  rw [parseMembers, skipSpace_cons _ _ (by decide)]
  simp only [if_true, unquote_appendString]
  rw [skipSpace_cons _ _ (by decide)]
  simp only [if_true]
  rw [parseValue, skipSpace_cons _ _ (by decide)]
  simp only [show ('[' : Char) ≠ '"' by decide, show ('[' : Char) ≠ '{' by decide, if_false,
    if_true, hd1]
  rw [skipSpace_cons _ _ (by decide)]
  simp only [show ('{' : Char) ≠ ']' by decide, if_false]
  rw [parseElems, parseValue, skipSpace_cons _ _ (by decide)]
  simp only [show ('{' : Char) ≠ '"' by decide, if_false, if_true, hd2]
  rw [skipSpace_cons _ _ (by decide)]
  simp only [show ('"' : Char) ≠ '}' by decide, if_false]
  rw [parseMembers, skipSpace_cons _ _ (by decide)]
  simp only [if_true, unquote_appendString]
  rw [skipSpace_cons _ _ (by decide)]
  simp only [if_true, parseValue_string]
  rw [skipSpace_cons _ _ (by decide)]
  simp only [if_true]
  rw [parseMembers, skipSpace_cons _ _ (by decide)]
  simp only [if_true, unquote_appendString]
  rw [skipSpace_cons _ _ (by decide)]
  simp only [if_true, parseValue_string]
  rw [skipSpace_cons _ _ (by decide)]
  simp only [show ('}' : Char) ≠ ',' by decide, if_false, if_true, Option.map_some']
  rw [skipSpace_cons _ _ (by decide)]
  simp only [show (']' : Char) ≠ ',' by decide, if_false, if_true, Option.map_some']
  rw [skipSpace_cons _ _ (by decide)]
  simp only [show ('}' : Char) ≠ ',' by decide, if_false, if_true, Option.map_some']

theorem errorBody_data (X Y : String) :
    (errorBody X Y).data =
      '{' :: '"' :: ("errors".data.flatMap quoteChar ++ '"' :: ':' :: '[' :: '{' :: '"' ::
        ("code".data.flatMap quoteChar ++ '"' :: ':' :: '"' ::
          (X.data.flatMap quoteChar ++ '"' :: ',' :: '"' ::
            ("detail".data.flatMap quoteChar ++ '"' :: ':' :: '"' ::
              (Y.data.flatMap quoteChar ++ '"' :: '}' :: ']' :: '}' :: []))))) := by
  have h1 : "errors".data.flatMap quoteChar = "errors".data := by decide
  have h2 : "code".data.flatMap quoteChar = "code".data := by decide
  have h3 : "detail".data.flatMap quoteChar = "detail".data := by decide
  rw [h1, h2, h3]
  simp [errorBody, appendString]

theorem unmarshalErrResp_errorBody (X Y : String) :
    unmarshalErrResp (errorBody X Y) = some [{ Code := X, Detail := Y }] := by
  unfold unmarshalErrResp jsonUnmarshal
  have hlen : ∃ k, 2 * (errorBody X Y).data.length + 1 = k + 8 := by
    refine ⟨2 * (errorBody X Y).data.length - 7, ?_⟩
    have : 4 ≤ (errorBody X Y).data.length := by
      rw [errorBody_data]
      simp only [List.length_cons, List.length_append]
      omega
    omega
  obtain ⟨k, hk⟩ := hlen
  rw [hk, errorBody_data, parseValue_errorBody]
  have h1 : fieldMatches "errors" "errors" = true := by decide
  have h2 : fieldMatches "code" "code" = true := by decide
  have h3 : fieldMatches "code" "detail" = false := by decide
  have h4 : fieldMatches "detail" "detail" = true := by decide
  simp [skipSpace, bindErrResp, bindErrorArray, bindErrorElem, bindErrorEntry, bindString,
    h1, h2, h3, h4]

/-! ### Pagination -/

theorem pageAt_eq_some (env : Env) (n : Nat) (path : String) (p : Page)
    (h : pageAt env n path = some p) :
    ∃ resp, env.get n path = .ok resp ∧
      decodeTransactionPage env.codec resp = .ok (p.transactions, p.next) := by
  unfold pageAt at h
  split at h
  · simp at h
  · rename_i resp hresp
    split at h
    · simp at h
    · rename_i transactions nextPath hdec
      simp only [Option.some.injEq] at h
      subst h
      exact ⟨resp, hresp, hdec⟩

theorem servesChain_cons (env : Env) (n : Nat) (path : String) (p : Page) (rest : List Page)
    (h : servesChain env n path (p :: rest) = true) :
    ∃ resp, env.get n path = .ok resp ∧
      decodeTransactionPage env.codec resp = .ok (p.transactions, p.next) ∧
      (rest = [] → p.next = "") ∧
      (rest ≠ [] → p.next ≠ "" ∧ ∃ nextURL, env.urlParse p.next = some nextURL ∧
        servesChain env (n + 1) (nextRequestPath nextURL) rest = true) := by
  cases rest with
  | nil =>
    simp only [servesChain, Bool.and_eq_true, decide_eq_true_eq] at h
    obtain ⟨resp, h1, h2⟩ := pageAt_eq_some env n path p h.1
    exact ⟨resp, h1, h2, fun _ => h.2, fun hr => absurd rfl hr⟩
  | cons q rest =>
    simp only [servesChain, Bool.and_eq_true, decide_eq_true_eq] at h
    obtain ⟨⟨hp, hne⟩, hs⟩ := h
    obtain ⟨resp, h1, h2⟩ := pageAt_eq_some env n path p hp
    refine ⟨resp, h1, h2, fun hr => by simp at hr, fun _ => ⟨hne, ?_⟩⟩
    cases hu : env.urlParse p.next with
    | none => rw [hu] at hs; simp [Option.any] at hs
    | some nextURL =>
      rw [hu] at hs
      exact ⟨nextURL, rfl, by simpa [Option.any] using hs⟩

theorem listTransactionsLoop_no_limit (env : Env) (limit : Int) (hlimit : limit ≤ 0)
    (pages : List Page) :
    ∀ (fuel n : Nat) (path : String) (acc : List Transaction),
      servesChain env n path pages = true → pages.length ≤ fuel →
      listTransactionsLoop env limit fuel n path acc =
        { result := some (.ok (acc ++ allTransactionsOf pages)),
          requests := chainPaths env path pages } := by
  induction pages with
  | nil => intro fuel n path acc h; simp [servesChain] at h
  | cons p rest ih =>
    intro fuel n path acc h hfuel
    obtain ⟨resp, hget, hdec, hlast, hmore⟩ := servesChain_cons env n path p rest h
    cases fuel with
    | zero => simp at hfuel
    | succ fuel =>
      have hl : ¬ (limit > 0) := by omega
      rw [listTransactionsLoop]
      simp only [hget, hdec, hl, false_and, if_false]
      by_cases hr : rest = []
      · subst hr
        simp only [hlast rfl, if_true, allTransactionsOf, chainPaths, List.flatMap_cons,
          List.flatMap_nil, List.append_nil, Run.mk.injEq, List.cons.injEq, true_and]
        split <;> rfl
      · obtain ⟨hne, nextURL, hu, hserve⟩ := hmore hr
        simp only [hne, if_false, hu]
        rw [ih fuel (n + 1) (nextRequestPath nextURL) (acc ++ p.transactions) hserve
          (by simpa using hfuel)]
        simp [allTransactionsOf, chainPaths, hu]

theorem length_chainPaths (env : Env) (pages : List Page) :
    ∀ (n : Nat) (path : String), servesChain env n path pages = true →
      (chainPaths env path pages).length = pages.length := by
  induction pages with
  | nil => intro n path h; simp [servesChain] at h
  | cons p rest ih =>
    intro n path h
    obtain ⟨resp, hget, hdec, hlast, hmore⟩ := servesChain_cons env n path p rest h
    by_cases hr : rest = []
    · subst hr
      simp only [chainPaths, List.length_cons, List.length_nil, Nat.add_right_cancel_iff]
      split <;> rfl
    · obtain ⟨hne, nextURL, hu, hserve⟩ := hmore hr
      simp [chainPaths, hu, ih (n + 1) _ hserve]

theorem listTransactionsLoop_limit (env : Env) (L : Nat) (hL : 0 < L) (pages : List Page) :
    ∀ (fuel n : Nat) (path : String) (acc : List Transaction),
      servesChain env n path pages = true → pages.length ≤ fuel →
      acc.length < L → L ≤ acc.length + (allTransactionsOf pages).length →
      listTransactionsLoop env (L : Int) fuel n path acc =
        { result := some (.ok ((acc ++ allTransactionsOf pages).take L)),
          requests := (chainPaths env path pages).take (pagesNeeded (L - acc.length) pages) } := by
  induction pages with
  | nil => intro fuel n path acc h; simp [servesChain] at h
  | cons p rest ih =>
    intro fuel n path acc h hfuel hacc htotal
    obtain ⟨resp, hget, hdec, hlast, hmore⟩ := servesChain_cons env n path p rest h
    cases fuel with
    | zero => simp at hfuel
    | succ fuel =>
      have hpos : (L : Int) > 0 := by omega
      rw [listTransactionsLoop]
      simp only [hget, hdec, hpos, true_and, Int.toNat_ofNat]
      by_cases hreach : L ≤ (acc ++ p.transactions).length
      · have hreach' : ((acc ++ p.transactions).length : Int) ≥ (L : Int) := by omega
        have hneed : L - acc.length ≤ p.transactions.length := by
          simp only [List.length_append] at hreach; omega
        simp only [hreach', if_true, pagesNeeded, hneed, chainPaths, List.take_succ_cons,
          List.take_zero, allTransactionsOf, List.flatMap_cons, Run.mk.injEq, and_true,
          Option.some.injEq, CallResult.ok.injEq]
        rw [← List.append_assoc, List.take_append_of_le_length hreach]
      · have hreach' : ¬ ((acc ++ p.transactions).length : Int) ≥ (L : Int) := by omega
        have hneed : ¬ L - acc.length ≤ p.transactions.length := by
          simp only [List.length_append] at hreach; omega
        have hr : rest ≠ [] := by
          intro hr
          subst hr
          simp only [allTransactionsOf, List.flatMap_cons, List.flatMap_nil, List.append_nil,
            List.length_append] at htotal hreach
          omega
        obtain ⟨hne, nextURL, hu, hserve⟩ := hmore hr
        simp only [hreach', if_false, hne, hu]
        have htotal' : L ≤ (acc ++ p.transactions).length + (allTransactionsOf rest).length := by
          simp only [allTransactionsOf, List.flatMap_cons, List.length_append] at htotal ⊢
          omega
        rw [ih fuel (n + 1) (nextRequestPath nextURL) (acc ++ p.transactions) hserve
          (by simpa using hfuel) (by omega) htotal']
        have hsub : L - (acc ++ p.transactions).length = L - acc.length - p.transactions.length := by
          simp only [List.length_append]; omega
        simp only [pagesNeeded, hneed, if_false, chainPaths, hu, allTransactionsOf,
          List.flatMap_cons, List.append_assoc, hsub, Nat.add_comm 1, List.take_succ_cons]

theorem pagesNeeded_spec (pages : List Page) :
    ∀ need, 0 < need → need ≤ (allTransactionsOf pages).length →
      1 ≤ pagesNeeded need pages ∧ pagesNeeded need pages ≤ pages.length ∧
      need ≤ (allTransactionsOf (pages.take (pagesNeeded need pages))).length ∧
      (allTransactionsOf (pages.take (pagesNeeded need pages - 1))).length < need := by
  induction pages with
  | nil => intro need h0 h; simp [allTransactionsOf] at h; omega
  | cons p rest ih =>
    intro need h0 h
    by_cases hn : need ≤ p.transactions.length
    · simp [pagesNeeded, hn, allTransactionsOf, h0]
    · simp only [allTransactionsOf, List.flatMap_cons, List.length_append] at h
      obtain ⟨i1, i2, i3, i4⟩ := ih (need - p.transactions.length) (by omega)
        (by simp only [allTransactionsOf]; omega)
      simp only [pagesNeeded, hn, if_false, Nat.add_comm 1, List.take_succ_cons,
        List.length_cons, Nat.add_sub_cancel]
      refine ⟨by omega, by omega, ?_, ?_⟩
      · simp only [allTransactionsOf, List.flatMap_cons, List.length_append] at i3 ⊢
        omega
      · obtain ⟨k, hk⟩ : ∃ k, pagesNeeded (need - p.transactions.length) rest = k + 1 :=
          ⟨pagesNeeded (need - p.transactions.length) rest - 1, by omega⟩
        rw [hk] at i4 ⊢
        simp only [Nat.add_sub_cancel, List.take_succ_cons, allTransactionsOf,
          List.flatMap_cons, List.length_append] at i4 ⊢
        omega

/-! ### The claims on the resource client and the retry transport -/

/-- C8. Error decode: for every status code and response body, `parseAPIError`
yields an `APIError` carrying that status code. If the body parses as a JSON
object whose errors array decodes to a non-empty list, `Code` and `Message`
are the code and the detail of its first entry; in particular the body
`{"errors":[{"code":X,"detail":Y}]}` gives `APIError{status, X, Y}` for all
strings `X` and `Y`. In every other case `Code` is empty and `Message` is the
raw body verbatim. -/
theorem C8_error_decode (status : Int) (body : String) :
    (parseAPIError ⟨status, body⟩).StatusCode = status ∧
    (∀ ms e es, jsonUnmarshal body = some (JSON.object ms) →
      bindErrResp [] ms = some (e :: es) →
      parseAPIError ⟨status, body⟩ = ⟨status, e.Code, e.Detail⟩) ∧
    ((¬ ∃ ms e es, jsonUnmarshal body = some (JSON.object ms) ∧
        bindErrResp [] ms = some (e :: es)) →
      parseAPIError ⟨status, body⟩ = ⟨status, "", body⟩) ∧
    (∀ X Y : String, parseAPIError ⟨status, errorBody X Y⟩ = ⟨status, X, Y⟩) := by
  refine ⟨?_, ?_, ?_, ?_⟩
  · simp only [parseAPIError]
    split <;> rfl
  · intro ms e es hparse hbind
    simp [parseAPIError, unmarshalErrResp, hparse, hbind]
  · intro hnot
    have hu : unmarshalErrResp body = none ∨ unmarshalErrResp body = some [] := by
      unfold unmarshalErrResp
      cases hj : jsonUnmarshal body with
      | none => simp
      | some v =>
        cases v with
        | object ms =>
          cases hb : bindErrResp [] ms with
          | none => exact Or.inl hb
          | some l =>
            cases l with
            | nil => exact Or.inr hb
            | cons e es => exact absurd ⟨ms, e, es, hj, hb⟩ hnot
        | null => simp
        | bool b => simp
        | number lit => simp
        | string str => simp
        | array elems => simp
    rcases hu with hu | hu <;> simp [parseAPIError, hu]
  · intro X Y
    simp [parseAPIError, unmarshalErrResp_errorBody]

theorem C8_error_decode_witness :
    parseAPIError ⟨404, "\x7b\"errors\":[\x7b\"code\":\"X\",\"detail\":\"Y\"\x7d]\x7d"⟩ =
      ⟨404, "X", "Y"⟩ ∧
    parseAPIError ⟨502, "upstream <down>"⟩ = ⟨502, "", "upstream <down>"⟩ :=
  ⟨(C8_error_decode 404 "\x7b\"errors\":[\x7b\"code\":\"X\",\"detail\":\"Y\"\x7d]\x7d").2.1
      [("errors", JSON.array [JSON.object [("code", JSON.string "X"),
        ("detail", JSON.string "Y")]])] ⟨"X", "Y"⟩ [] rfl rfl,
   (C8_error_decode 502 "upstream <down>").2.2.1 (by
      rintro ⟨ms, e, es, h, _⟩
      have hnone : jsonUnmarshal "upstream <down>" = none := rfl
      rw [hnone] at h
      exact absurd h (by simp))⟩

set_option maxRecDepth 100000 in
/-- The sample environment serves its three pages from the first path on. -/
theorem sampleEnv_serves :
    servesChain sampleEnv 0 "/accounts/acc/transactions?limit=100" samplePages = true := by
  decide!

/-- C6. Pagination without a limit: when `Limit` is 0 and the environment
serves a finite chain of successful pages linked by next links from the
first request on, `ListTransactions` (with fuel for at least as many
iterations as there are pages) returns exactly the transactions of all pages
in page order and in-page order, and requests exactly the paths of the chain,
each page once. -/
theorem C6_pagination_no_limit (env : Env) (fuel : Nat) (accountID : String)
    (opts : TransactionListOptions) (path : String) (pages : List Page)
    (hlimit : opts.Limit = 0)
    (hpath : transactionsPath env.time accountID opts = .ok path)
    (hserve : servesChain env 0 path pages = true)
    (hfuel : pages.length ≤ fuel) :
    (ListTransactions env fuel accountID opts).result = some (.ok (allTransactionsOf pages)) ∧
    (ListTransactions env fuel accountID opts).requests = chainPaths env path pages ∧
    (ListTransactions env fuel accountID opts).requests.length = pages.length := by
  have h := listTransactionsLoop_no_limit env opts.Limit (by omega) pages fuel 0 path []
    hserve hfuel
  have hlen := length_chainPaths env pages 0 path hserve
  simp only [ListTransactions, hpath, h, List.nil_append, hlen, and_self]

set_option maxRecDepth 100000 in
theorem C6_pagination_no_limit_witness :
    (ListTransactions sampleEnv 3 "acc" ⟨"", "", 0⟩).result =
      some (.ok (allTransactionsOf samplePages)) ∧
    (allTransactionsOf samplePages).length = 242 ∧
    (ListTransactions sampleEnv 3 "acc" ⟨"", "", 0⟩).requests.length = 3 :=
  ⟨(C6_pagination_no_limit sampleEnv 3 "acc" ⟨"", "", 0⟩
      "/accounts/acc/transactions?limit=100" samplePages rfl rfl sampleEnv_serves
      (by decide)).1,
   by decide!,
   (C6_pagination_no_limit sampleEnv 3 "acc" ⟨"", "", 0⟩
      "/accounts/acc/transactions?limit=100" samplePages rfl rfl sampleEnv_serves
      (by decide)).2.2⟩

/-- C7. Pagination with a limit: when `Limit` is `L > 0` and the environment
serves a finite chain of successful pages holding at least `L` transactions
in total, `ListTransactions` returns exactly the first `L` transactions of
the concatenated pages in their original order, and requests exactly the
first `k` pages of the chain, where page `k` is the first page at which the
accumulated count reaches `L`: no page after it is requested. -/
theorem C7_pagination_limit (env : Env) (fuel : Nat) (accountID : String)
    (opts : TransactionListOptions) (path : String) (pages : List Page) (L : Nat)
    (hL : 0 < L) (hlimit : opts.Limit = (L : Int))
    (hpath : transactionsPath env.time accountID opts = .ok path)
    (hserve : servesChain env 0 path pages = true)
    (htotal : L ≤ (allTransactionsOf pages).length)
    (hfuel : pages.length ≤ fuel) :
    (ListTransactions env fuel accountID opts).result =
      some (.ok ((allTransactionsOf pages).take L)) ∧
    ((allTransactionsOf pages).take L).length = L ∧
    (ListTransactions env fuel accountID opts).requests =
      (chainPaths env path pages).take (pagesNeeded L pages) ∧
    (ListTransactions env fuel accountID opts).requests.length = pagesNeeded L pages ∧
    1 ≤ pagesNeeded L pages ∧ pagesNeeded L pages ≤ pages.length ∧
    L ≤ (allTransactionsOf (pages.take (pagesNeeded L pages))).length ∧
    (allTransactionsOf (pages.take (pagesNeeded L pages - 1))).length < L := by
  have h := listTransactionsLoop_limit env L hL pages fuel 0 path [] hserve hfuel
    (by simpa using hL) (by simpa using htotal)
  have hlen := length_chainPaths env pages 0 path hserve
  obtain ⟨i1, i2, i3, i4⟩ := pagesNeeded_spec pages L hL htotal
  simp only [List.nil_append, List.length_nil, Nat.sub_zero] at h
  simp only [ListTransactions, hpath, hlimit, h, true_and]
  refine ⟨by simp [htotal], ?_, i1, i2, i3, i4⟩
  rw [List.length_take, hlen]
  omega

set_option maxRecDepth 100000 in
theorem C7_pagination_limit_witness :
    (ListTransactions sampleEnv 3 "acc" ⟨"", "", 150⟩).result =
      some (.ok ((allTransactionsOf samplePages).take 150)) ∧
    ((allTransactionsOf samplePages).take 150).length = 150 ∧
    (ListTransactions sampleEnv 3 "acc" ⟨"", "", 150⟩).requests =
      ["/accounts/acc/transactions?limit=100", "/accounts/acc/transactions?page=2"] :=
  ⟨(C7_pagination_limit sampleEnv 3 "acc" ⟨"", "", 150⟩
      "/accounts/acc/transactions?limit=100" samplePages 150 (by decide) rfl rfl
      sampleEnv_serves (by decide!) (by decide)).1,
   (C7_pagination_limit sampleEnv 3 "acc" ⟨"", "", 150⟩
      "/accounts/acc/transactions?limit=100" samplePages 150 (by decide) rfl rfl
      sampleEnv_serves (by decide!) (by decide)).2.1,
   (C7_pagination_limit sampleEnv 3 "acc" ⟨"", "", 150⟩
      "/accounts/acc/transactions?limit=100" samplePages 150 (by decide) rfl rfl
      sampleEnv_serves (by decide!) (by decide)).2.2.1.trans (by decide!)⟩

theorem retryLoop_spec (outcomes : Nat → Attempt) :
    ∀ (remaining made : Nat) (last : Option Attempt),
      made ≤ (retryLoop outcomes remaining made last).2 ∧
      (retryLoop outcomes remaining made last).2 ≤ made + remaining ∧
      (∀ j, made ≤ j → j + 1 < (retryLoop outcomes remaining made last).2 →
        retryable (outcomes j) = true) ∧
      (∀ o, (retryLoop outcomes remaining made last).1 = RetryResult.returned o →
        made + 1 ≤ (retryLoop outcomes remaining made last).2 ∧
        o = outcomes ((retryLoop outcomes remaining made last).2 - 1) ∧
        retryable o = false) ∧
      (∀ l, (retryLoop outcomes remaining made last).1 = RetryResult.TransportExhausted l →
        (retryLoop outcomes remaining made last).2 = made + remaining ∧
        (∀ j, made ≤ j → j < made + remaining → retryable (outcomes j) = true) ∧
        (0 < remaining → l = some (outcomes (made + remaining - 1)))) := by
  intro remaining
  induction remaining with
  | zero =>
    intro made last
    simp only [retryLoop, le_refl, Nat.add_zero, true_and]
    refine ⟨fun j h1 h2 => by omega, fun o h => by simp at h, fun l _ => ?_⟩
    exact ⟨fun j h1 h2 => by omega, fun h => by omega⟩
  | succ remaining ih =>
    intro made last
    by_cases hr : retryable (outcomes made) = true
    · obtain ⟨i1, i2, i3, i4, i5⟩ := ih (made + 1) (some (outcomes made))
      simp only [retryLoop, hr, if_true]
      refine ⟨by omega, by omega, ?_, ?_, ?_⟩
      · intro j h1 h2
        by_cases hj : j = made
        · subst hj; exact hr
        · exact i3 j (by omega) h2
      · intro o ho
        obtain ⟨a, b, c⟩ := i4 o ho
        exact ⟨by omega, b, c⟩
      · intro l hl
        obtain ⟨a, b, c⟩ := i5 l hl
        refine ⟨by omega, ?_, ?_⟩
        · intro j h1 h2
          by_cases hj : j = made
          · subst hj; exact hr
          · exact b j (by omega) (by omega)
        · intro _
          by_cases h0 : 0 < remaining
          · rw [c h0]
            congr 2
            omega
          · have hz : remaining = 0 := by omega
            subst hz
            simp only [retryLoop, RetryResult.TransportExhausted.injEq] at hl
            rw [← hl]
            simp
    · simp only [retryLoop, hr, if_false, Bool.false_eq_true]
      refine ⟨by omega, by omega, fun j h1 h2 => by omega, ?_, fun l h => by simp at h⟩
      intro o ho
      simp only [RetryResult.returned.injEq] at ho
      subst ho
      exact ⟨le_refl _, by simp, by simpa using hr⟩

theorem retryLoop_threeFailuresThenOK (k : Nat) :
    RoundTrip (k + 4) threeFailuresThenOK = (RetryResult.returned (Attempt.response 200), 4) := by
  simp [RoundTrip, retryLoop, threeFailuresThenOK, retryable]

/-- C9. Retry policy: for every sequence of outcomes of the underlying
transport and every attempt budget `B`, the retry transport makes at most `B`
attempts; every attempt before the last one made ended in a network error, a
5xx or a 429; when it returns an outcome, that is the outcome of the last
attempt made, unchanged, and it is not transient (so no attempt follows the
first 2xx or 4xx other than 429); when it reports `TransportExhausted`, all
`B` attempts were made and were transient. Three 503 responses followed by a
200 succeed with the 200 when `B ≥ 4` and give `TransportExhausted` when
`B = 3`; a 400 response to the first attempt is returned after that single
attempt; and the no-retry flag gives a budget of exactly one attempt. -/
theorem C9_retry_policy (B : Nat) (outcomes : Nat → Attempt) :
    (RoundTrip B outcomes).2 ≤ B ∧
    (∀ j, j + 1 < (RoundTrip B outcomes).2 → retryable (outcomes j) = true) ∧
    (∀ o, (RoundTrip B outcomes).1 = RetryResult.returned o →
      1 ≤ (RoundTrip B outcomes).2 ∧ o = outcomes ((RoundTrip B outcomes).2 - 1) ∧
      retryable o = false) ∧
    (∀ l, (RoundTrip B outcomes).1 = RetryResult.TransportExhausted l →
      (RoundTrip B outcomes).2 = B ∧ ∀ j, j < B → retryable (outcomes j) = true) ∧
    (4 ≤ B → RoundTrip B threeFailuresThenOK =
      (RetryResult.returned (Attempt.response 200), 4)) ∧
    RoundTrip 3 threeFailuresThenOK =
      (RetryResult.TransportExhausted (some (Attempt.response 503)), 3) ∧
    (1 ≤ B → outcomes 0 = Attempt.response 400 →
      RoundTrip B outcomes = (RetryResult.returned (Attempt.response 400), 1)) ∧
    (∀ maxAttempts, (RoundTrip (NewRetryTransport true maxAttempts) outcomes).2 = 1) := by
  obtain ⟨_, i2, i3, i4, i5⟩ := retryLoop_spec outcomes B 0 none
  refine ⟨by simpa [RoundTrip] using i2, ?_, ?_, ?_, ?_, by decide, ?_, ?_⟩
  · intro j hj
    exact i3 j (Nat.zero_le _) hj
  · intro o ho
    obtain ⟨a, b, c⟩ := i4 o ho
    exact ⟨by simpa using a, b, c⟩
  · intro l hl
    obtain ⟨a, b, _⟩ := i5 l hl
    exact ⟨by simpa using a, fun j hj => b j (Nat.zero_le _) (by simpa using hj)⟩
  · intro hB
    obtain ⟨k, rfl⟩ : ∃ k, B = k + 4 := ⟨B - 4, by omega⟩
    exact retryLoop_threeFailuresThenOK k
  · intro hB h0
    obtain ⟨k, rfl⟩ : ∃ k, B = k + 1 := ⟨B - 1, by omega⟩
    simp [RoundTrip, retryLoop, h0, retryable]
  · intro maxAttempts
    simp only [NewRetryTransport, if_true, RoundTrip, retryLoop]
    split <;> rfl

theorem C9_retry_policy_witness :
    RoundTrip 5 threeFailuresThenOK = (RetryResult.returned (Attempt.response 200), 4) ∧
    RoundTrip 7 (fun _ => Attempt.response 400) =
      (RetryResult.returned (Attempt.response 400), 1) :=
  ⟨(C9_retry_policy 5 threeFailuresThenOK).2.2.2.2.1 (by decide),
   (C9_retry_policy 7 (fun _ => Attempt.response 400)).2.2.2.2.2.2.1 (by decide) rfl⟩

/-! ### Credential store: error policy -/

/-- C11. Missing profile: for every profile that is empty after trimming
white space, `GetCredentials`, `SetCredentials` and `DeleteCredentials` each
fail with `errMissingProfile` and hand back the backend as it was: no item is
read or written and no backend call is made. -/
theorem C11_missing_profile (s : Keyring) (P : String) (clientID clientSecret : Bytes)
    (hP : TrimSpace P = "") :
    GetCredentials s P = (.error StoreError.errMissingProfile, s) ∧
    SetCredentials s P clientID clientSecret = (some StoreError.errMissingProfile, s) ∧
    DeleteCredentials s P = (some StoreError.errMissingProfile, s) ∧
    (GetCredentials s P).2.calls = s.calls ∧
    (SetCredentials s P clientID clientSecret).2.calls = s.calls ∧
    (DeleteCredentials s P).2.calls = s.calls := by
  simp [GetCredentials, SetCredentials, DeleteCredentials, hP]

theorem C11_missing_profile_witness :
    TrimSpace " \t\n " = "" ∧
    GetCredentials legacyKeyring " \t\n " = (.error StoreError.errMissingProfile, legacyKeyring) ∧
    SetCredentials legacyKeyring " \t\n " (utf8 "id") (utf8 "secret") =
      (some StoreError.errMissingProfile, legacyKeyring) ∧
    DeleteCredentials legacyKeyring " \t\n " =
      (some StoreError.errMissingProfile, legacyKeyring) :=
  ⟨by decide,
   (C11_missing_profile legacyKeyring " \t\n " (utf8 "id") (utf8 "secret") (by decide)).1,
   (C11_missing_profile legacyKeyring " \t\n " (utf8 "id") (utf8 "secret") (by decide)).2.1,
   (C11_missing_profile legacyKeyring " \t\n " (utf8 "id") (utf8 "secret") (by decide)).2.2.1⟩

/-- The error policy of `DeleteCredentials` in terms of what the backend
returns: for every non-empty profile and every backend, whatever calls of it
fail, `DeleteCredentials` returns an error if and only if removing the unified
record fails with an error other than `keyring.ErrKeyNotFound`, and the error
it returns wraps that one. When the removal of the unified record succeeds or
reports the key as not found, the call succeeds, whatever the removals of the
two legacy records return. -/
theorem DeleteCredentials_error_iff (s : Keyring) (P : String) (hP : TrimSpace P ≠ "") :
    ((DeleteCredentials s P).1 ≠ none ↔
      ∃ msg, (s.Remove (credentialsKey (TrimSpace P))).1 = some (KeyringError.other msg)) ∧
    (∀ msg, (s.Remove (credentialsKey (TrimSpace P))).1 = some (KeyringError.other msg) →
      (DeleteCredentials s P).1 =
        some (StoreError.deleteCredentials (KeyringError.other msg))) ∧
    (((s.Remove (credentialsKey (TrimSpace P))).1 = none ∨
        (s.Remove (credentialsKey (TrimSpace P))).1 = some KeyringError.ErrKeyNotFound) →
      (DeleteCredentials s P).1 = none) := by
  unfold DeleteCredentials
  simp only [hP, if_false]
  cases h : (s.Remove (credentialsKey (TrimSpace P))).1 with
  | none => simp
  | some err =>
    cases err with
    | ErrKeyNotFound => simp
    | other msg => simp

/-- The removals of the legacy records may fail without failing the call. -/
theorem DeleteCredentials_error_iff_example :
    (failingLegacyKeyring.Remove (credentialsKey (TrimSpace "default"))).1 = none ∧
    ((DeleteCredentials failingLegacyKeyring "default").2.Get "ponto:default:client_id").1 =
      .error (KeyringError.other "backend unavailable") ∧
    (DeleteCredentials failingLegacyKeyring "default").2.items "ponto:default:client_id" =
      some (utf8 "my-id") ∧
    (DeleteCredentials failingLegacyKeyring "default").1 = none :=
  ⟨by decide, rfl, by decide,
   (DeleteCredentials_error_iff failingLegacyKeyring "default" (by decide)).2.2
     (Or.inl (by decide))⟩

/-- C12 at its failing inputs. On a backend whose `Remove` reports a key that
is not stored by an error other than `keyring.ErrKeyNotFound`, as the file
backend does, `DeleteCredentials` of a non-empty profile whose unified record
is absent fails with that error, wrapped: the absence of the unified record
makes the call fail. The call stops there, so the records of the store,
legacy records included, are left as they were. -/
theorem C12_absent_record_fails (s : Keyring) (P msg : String) (hP : TrimSpace P ≠ "")
    (hcall : s.fault s.calls = none)
    (habsent : s.items (credentialsKey (TrimSpace P)) = none)
    (hbackend : s.removeAbsent = some (KeyringError.other msg)) :
    (s.Remove (credentialsKey (TrimSpace P))).1 = some (KeyringError.other msg) ∧
    (DeleteCredentials s P).1 = some (StoreError.deleteCredentials (KeyringError.other msg)) ∧
    (DeleteCredentials s P).2.items = s.items := by
  simp [DeleteCredentials, Keyring.Remove, hP, hcall, habsent, hbackend]

/-- C12 on a file backend that holds only the two legacy records of profile
`default`: the call fails and the legacy client id is still stored. -/
theorem C12_absent_record_fails_witness :
    fileKeyring.items (credentialsKey (TrimSpace "default")) = none ∧
    (DeleteCredentials fileKeyring "default").1 =
      some (StoreError.deleteCredentials (KeyringError.other
        "remove ponto:default:credentials: no such file or directory")) ∧
    (DeleteCredentials fileKeyring "default").2.items "ponto:default:client_id" =
      some (utf8 "my-id") :=
  ⟨by decide,
    (C12_absent_record_fails fileKeyring "default"
      "remove ponto:default:credentials: no such file or directory" (by decide) rfl
      (by decide) rfl).2.1,
    by
      rw [(C12_absent_record_fails fileKeyring "default"
        "remove ponto:default:credentials: no such file or directory" (by decide) rfl
        (by decide) rfl).2.2]
      decide⟩

/-! ### The first request and the requests that follow a next link -/

theorem QueryEscape_formatInt_small :
    ∀ k : Nat, k < 101 → QueryEscape (formatInt (k : Int)) = formatInt (k : Int) := by
  decide

theorem pageSize_eq (opts : TransactionListOptions) :
    pageSize opts = (if 0 < opts.Limit ∧ opts.Limit < 100 then opts.Limit else 100) := by
  unfold pageSize maxPageSize
  rfl

theorem pageSize_range (opts : TransactionListOptions) :
    1 ≤ pageSize opts ∧ pageSize opts ≤ 100 := by
  rw [pageSize_eq]
  split <;> omega

theorem requests_listTransactionsLoop_succ (env : Env) (limit : Int) (fuel n : Nat)
    (path : String) (acc : List Transaction) :
    ∃ rest, (listTransactionsLoop env limit (fuel + 1) n path acc).requests = path :: rest := by
  rw [listTransactionsLoop]
  cases env.get n path with
  | error e => exact ⟨[], rfl⟩
  | ok resp =>
    simp only
    cases decodeTransactionPage env.codec resp with
    | error e => exact ⟨[], rfl⟩
    | ok p =>
      obtain ⟨transactions, nextPath⟩ := p
      simp only
      split_ifs
      · exact ⟨[], rfl⟩
      · exact ⟨[], rfl⟩
      · cases env.urlParse nextPath with
        | none => exact ⟨[], rfl⟩
        | some u => exact ⟨_, rfl⟩

theorem transactionsPath_form (tl : TimeLib) (accountID : String)
    (opts : TransactionListOptions) (path : String)
    (h : transactionsPath tl accountID opts = .ok path) :
    ∃ since until_ : String,
      (since = "" ∨ ∃ d, since = "filter%5BvalueDate%5D%5Bgte%5D=" ++ QueryEscape d ++ "&") ∧
      (until_ = "" ∨ ∃ d, until_ = "filter%5BvalueDate%5D%5Blte%5D=" ++ QueryEscape d ++ "&") ∧
      path = "/accounts/" ++ accountID ++ "/transactions" ++ "?" ++ since ++ until_ ++
        ("limit=" ++ QueryEscape (formatInt (pageSize opts))) := by
  unfold transactionsPath at h
  simp only at h
  split at h
  · simp at h
  · rename_i since hsince
    split at h
    · simp at h
    · rename_i until_ huntil
      simp only [Except.ok.injEq] at h
      refine ⟨since, until_, ?_, ?_, h.symm⟩
      · split at hsince
        · split at hsince
          · simp at hsince
          · rename_i d _
            simp only [Except.ok.injEq] at hsince
            exact Or.inr ⟨d, hsince.symm⟩
        · simp only [Except.ok.injEq] at hsince
          exact Or.inl hsince.symm
      · split at huntil
        · split at huntil
          · simp at huntil
          · rename_i d _
            simp only [Except.ok.injEq] at huntil
            exact Or.inr ⟨d, huntil.symm⟩
        · simp only [Except.ok.injEq] at huntil
          exact Or.inl huntil.symm

/-- C16. Page size cap: for every `TransactionListOptions` value the page
size is `Limit` when `0 < Limit < 100` and 100 otherwise, so it always lies
between 1 and 100; whenever the first request is built, its query ends in the
parameter `limit` with that number in decimal, after the optional date
filters, and that path is the first path `ListTransactions` requests. -/
theorem C16_page_size_cap (env : Env) (fuel : Nat) (accountID : String)
    (opts : TransactionListOptions) :
    pageSize opts = (if 0 < opts.Limit ∧ opts.Limit < 100 then opts.Limit else 100) ∧
    1 ≤ pageSize opts ∧ pageSize opts ≤ 100 ∧
    (∀ path, transactionsPath env.time accountID opts = .ok path →
      (∃ since until_ : String,
        (since = "" ∨
          ∃ d, since = "filter%5BvalueDate%5D%5Bgte%5D=" ++ QueryEscape d ++ "&") ∧
        (until_ = "" ∨
          ∃ d, until_ = "filter%5BvalueDate%5D%5Blte%5D=" ++ QueryEscape d ++ "&") ∧
        path = "/accounts/" ++ accountID ++ "/transactions" ++ "?" ++ since ++ until_ ++
          ("limit=" ++ formatInt (pageSize opts))) ∧
      (ListTransactions env (fuel + 1) accountID opts).requests.head? = some path) := by
  obtain ⟨hlo, hhi⟩ := pageSize_range opts
  refine ⟨pageSize_eq opts, hlo, hhi, ?_⟩
  intro path hpath
  have hesc : QueryEscape (formatInt (pageSize opts)) = formatInt (pageSize opts) := by
    obtain ⟨k, hk⟩ : ∃ k : Nat, pageSize opts = (k : Int) := ⟨(pageSize opts).toNat, by omega⟩
    rw [hk]
    exact QueryEscape_formatInt_small k (by omega)
  constructor
  · obtain ⟨since, until_, h1, h2, h3⟩ := transactionsPath_form env.time accountID opts path hpath
    rw [hesc] at h3
    exact ⟨since, until_, h1, h2, h3⟩
  · obtain ⟨rest, hrest⟩ := requests_listTransactionsLoop_succ env opts.Limit fuel 0 path []
    simp [ListTransactions, hpath, hrest]

theorem C16_page_size_cap_witness :
    pageSize ⟨"", "", 25⟩ = 25 ∧ pageSize ⟨"", "", 0⟩ = 100 ∧ pageSize ⟨"", "", -3⟩ = 100 ∧
    pageSize ⟨"", "", 100⟩ = 100 ∧ pageSize ⟨"", "", 5000⟩ = 100 ∧
    (ListTransactions sampleEnv 1 "acc" ⟨"", "", 25⟩).requests.head? =
      some "/accounts/acc/transactions?limit=25" :=
  ⟨by decide, by decide, by decide, by decide, by decide,
   ((C16_page_size_cap sampleEnv 0 "acc" ⟨"", "", 25⟩).2.2.2
      "/accounts/acc/transactions?limit=25" rfl).2⟩

theorem urlAuthority_requestURL (p : String)
    (hp : p = "" ∨ p.data.head? = some '/' ∨ p.data.head? = some '?') :
    urlAuthority (requestURL p) = "api.myponto.com" := by
  have hd : (requestURL p).data = "https://api.myponto.com".data ++ p.data := by
    simp [requestURL, baseURL]
  unfold urlAuthority
  rw [hd]
  cases hpd : p.data with
  | nil => rfl
  | cons c cs =>
    have hc : c = '/' ∨ c = '?' := by
      rcases hp with h | h | h
      · rw [h] at hpd; simp at hpd
      · rw [hpd] at h; simp at h; exact Or.inl h
      · rw [hpd] at h; simp at h; exact Or.inr h
    rcases hc with rfl | rfl <;> rfl

/-- The host of a request that follows a next link is fixed: when a page that
does not end the listing carries a next link that parses as an absolute URL
(so that its parsed path is empty or begins with a slash), the request that
follows it in `ListTransactions` asks for the parsed path of the link, followed
by `?` and its raw query when that is not empty; the URL built for it is the
fixed base URL followed by that text and its authority is `api.myponto.com`;
and the scheme, the user information and the host that the link names do not
enter the request. -/
theorem next_link_host_fixed (env : Env) (limit : Int) (fuel n : Nat) (path : String)
    (acc : List Transaction) (resp : Response) (transactions : List Transaction)
    (link : String) (nextURL : URL)
    (hget : env.get n path = .ok resp)
    (hdec : decodeTransactionPage env.codec resp = .ok (transactions, link))
    (hmore : ¬ (limit > 0 ∧ ((acc ++ transactions).length : Int) ≥ limit))
    (hlink : link ≠ "")
    (hparse : env.urlParse link = some nextURL)
    (hpath : nextURL.Path = "" ∨ nextURL.Path.data.head? = some '/') :
    (listTransactionsLoop env limit (fuel + 2) n path acc).requests.take 2 =
      [path, nextRequestPath nextURL] ∧
    requestURL (nextRequestPath nextURL) =
      "https://api.myponto.com" ++ nextURL.Path ++
        (if nextURL.RawQuery ≠ "" then "?" ++ nextURL.RawQuery else "") ∧
    urlAuthority (requestURL (nextRequestPath nextURL)) = "api.myponto.com" ∧
    (∀ scheme user host : String,
      nextRequestPath { nextURL with Scheme := scheme, User := user, Host := host } =
        nextRequestPath nextURL) := by
  refine ⟨?_, ?_, ?_, ?_⟩
  · obtain ⟨rest, hrest⟩ := requests_listTransactionsLoop_succ env limit fuel (n + 1)
      (nextRequestPath nextURL) (acc ++ transactions)
    rw [listTransactionsLoop]
    simp only [hget, hdec, hmore, if_false, hlink, hparse, hrest]
    rfl
  · unfold requestURL nextRequestPath baseURL
    by_cases hq : nextURL.RawQuery ≠ ""
    · rw [if_pos hq, if_pos hq]
      simp only [String.append_assoc]
    · rw [if_neg hq, if_neg hq]
      simp only [String.append_empty]
  · apply urlAuthority_requestURL
    unfold nextRequestPath
    by_cases hq : nextURL.RawQuery ≠ ""
    · rw [if_pos hq]
      rcases hpath with h | h
      · right; right
        simp [h]
      · right; left
        cases hd : nextURL.Path.data with
        | nil => rw [hd] at h; simp at h
        | cons c cs =>
          rw [hd] at h
          simp only [List.head?_cons, Option.some.injEq] at h
          simp [String.data_append, hd, h]
    · rw [if_neg hq]
      rcases hpath with h | h
      · exact Or.inl h
      · exact Or.inr (Or.inl h)
  · intro scheme user host
    rfl

/-- A next link that names another scheme, user and host than the API is
followed on the API host. -/
theorem next_link_host_fixed_example :
    (listTransactionsLoop foreignLinkEnv 0 5 0 "/accounts/acc/transactions?limit=100"
      []).requests.take 2
      = ["/accounts/acc/transactions?limit=100", "/accounts/acc/transactions?page=2"] ∧
    urlAuthority (requestURL "/accounts/acc/transactions?page=2") = "api.myponto.com" :=
  ⟨(next_link_host_fixed foreignLinkEnv 0 3 0 "/accounts/acc/transactions?limit=100" []
      ⟨200, samplePageBody [1, 2]
        "http://user:pw@evil.example/accounts/acc/transactions?page=2"⟩
      (samplePage [1, 2] "").transactions
      "http://user:pw@evil.example/accounts/acc/transactions?page=2"
      ⟨"http", "user:pw", "evil.example", "/accounts/acc/transactions", "page=2"⟩
      rfl rfl (by decide) (by decide) rfl (Or.inr rfl)).1,
   (next_link_host_fixed foreignLinkEnv 0 3 0 "/accounts/acc/transactions?limit=100" []
      ⟨200, samplePageBody [1, 2]
        "http://user:pw@evil.example/accounts/acc/transactions?page=2"⟩
      (samplePage [1, 2] "").transactions
      "http://user:pw@evil.example/accounts/acc/transactions?page=2"
      ⟨"http", "user:pw", "evil.example", "/accounts/acc/transactions", "page=2"⟩
      rfl rfl (by decide) (by decide) rfl (Or.inr rfl)).2.2.1⟩

set_option maxRecDepth 100000 in
/-- C15 at its failing input. The next link of the first page is
`https://api.myponto.com/accounts/acc/transactions%3Fa=b?page=2`, whose path
as written is `/accounts/acc/transactions%3Fa=b` and whose query is `page=2`.
`url.Parse` gives it the decoded path `/accounts/acc/transactions?a=b`, and
the request that follows asks for `/accounts/acc/transactions?a=b?page=2`: a
URL on the fixed host whose path is `/accounts/acc/transactions` and whose
query is `a=b?page=2`, neither the path nor the query of the link. -/
theorem C15_escaped_path_not_kept :
    escapedLinkEnv.urlParse "https://api.myponto.com/accounts/acc/transactions%3Fa=b?page=2" =
      some ⟨"https", "", "api.myponto.com", "/accounts/acc/transactions?a=b", "page=2"⟩ ∧
    (listTransactionsLoop escapedLinkEnv 0 5 0 "/accounts/acc/transactions?limit=100"
      []).requests =
      ["/accounts/acc/transactions?limit=100", "/accounts/acc/transactions?a=b?page=2"] ∧
    urlPath "https://api.myponto.com/accounts/acc/transactions%3Fa=b?page=2" =
      "/accounts/acc/transactions%3Fa=b" ∧
    urlQuery "https://api.myponto.com/accounts/acc/transactions%3Fa=b?page=2" = "page=2" ∧
    urlAuthority (requestURL "/accounts/acc/transactions?a=b?page=2") = "api.myponto.com" ∧
    urlPath (requestURL "/accounts/acc/transactions?a=b?page=2") =
      "/accounts/acc/transactions" ∧
    urlQuery (requestURL "/accounts/acc/transactions?a=b?page=2") = "a=b?page=2" :=
  ⟨by decide, by decide, by decide, by decide, by decide, by decide, by decide⟩

/-! ### Decoding of single resources and of lists -/

theorem idOf_setID (k : Kind) (r : k.type) (id : String) : k.idOf (k.setID r id) = id := by
  cases k <;> rfl

/-- For each of the five kinds that the type switch of `decodeResponse` names,
a decoded result carries the `id` of the envelope, whatever the attributes
hold. -/
theorem decodeResponse_id (k : Kind) (hk : k ≠ Kind.PendingTransaction)
    (codec : AttrCodec k.type) (resp : Response) (data : Resource) (r : k.type)
    (hdata : decodeDataWrapper codec.decodable resp.Body = some data)
    (h : decodeResponse k codec resp = .ok r) : k.idOf r = data.ID := by
  unfold decodeResponse at h
  split at h
  · simp at h
  · rw [hdata] at h
    simp only at h
    split at h
    · simp at h
    · simp only [Except.ok.injEq] at h
      subst h
      cases k with
      | PendingTransaction => exact absurd rfl hk
      | Account => exact idOf_setID _ _ _
      | Transaction => exact idOf_setID _ _ _
      | Synchronization => exact idOf_setID _ _ _
      | FinancialInstitution => exact idOf_setID _ _ _
      | Organization => exact idOf_setID _ _ _

/-- For a `PendingTransaction` the result of `decodeResponse` is what the
attributes decode to: the `id` of the envelope is not put into it. -/
theorem decodeResponse_pendingTransaction (codec : AttrCodec PendingTransaction)
    (resp : Response) (data : Resource) (r : PendingTransaction)
    (hdata : decodeDataWrapper codec.decodable resp.Body = some data)
    (h : decodeResponse Kind.PendingTransaction codec resp = .ok r) :
    codec.unmarshal data.Attributes = .ok r := by
  unfold decodeResponse at h
  split at h
  · simp at h
  · rw [hdata] at h
    simp only at h
    split at h
    · simp at h
    · rename_i result hres
      simp only [Except.ok.injEq, injectID] at h
      rw [hres, h]

theorem decodeResponse_organization_example :
    decodeResponse Kind.Organization sampleOrganizationCodec organizationResponse =
      .ok ({ ID := "org-7", Name := "ACME" } : Organization) := rfl

/-- C13, amended. Single-resource identity injection: for every successful
(status below 400) single-resource response and each of the five resource
kinds that the type switch of `decodeResponse` names, which are the kinds at
which the client calls it (Account, Transaction, Synchronization,
FinancialInstitution, Organization), `decodeResponse` returns a value exactly
when the envelope decodes and its attributes decode into the kind, and the
value it returns is the one decoded from the attributes with its `ID` set to
the `id` of the envelope, whatever the attribute map contains. -/
theorem C13_identity_injection (k : Kind) (hk : k ≠ Kind.PendingTransaction)
    (codec : AttrCodec k.type) (resp : Response) (hstatus : resp.StatusCode < 400) :
    (∀ data decoded, decodeDataWrapper codec.decodable resp.Body = some data →
      codec.unmarshal data.Attributes = .ok decoded →
      decodeResponse k codec resp = .ok (k.setID decoded data.ID) ∧
        k.idOf (k.setID decoded data.ID) = data.ID) ∧
    (∀ r, decodeResponse k codec resp = .ok r →
      ∃ data decoded, decodeDataWrapper codec.decodable resp.Body = some data ∧
        codec.unmarshal data.Attributes = .ok decoded ∧ r = k.setID decoded data.ID ∧
        k.idOf r = data.ID) := by
  have hinj : ∀ (r : k.type) (id : String), injectID k r id = k.setID r id := by
    intro r id
    cases k with
    | PendingTransaction => exact absurd rfl hk
    | Account => rfl
    | Transaction => rfl
    | Synchronization => rfl
    | FinancialInstitution => rfl
    | Organization => rfl
  have hst : ¬ resp.StatusCode ≥ 400 := by omega
  constructor
  · intro data decoded hdata hattrs
    refine ⟨?_, idOf_setID _ _ _⟩
    unfold decodeResponse
    rw [if_neg hst, hdata]
    simp only [hattrs, hinj]
  · intro r h
    unfold decodeResponse at h
    rw [if_neg hst] at h
    cases hdata : decodeDataWrapper codec.decodable resp.Body with
    | none => rw [hdata] at h; simp at h
    | some data =>
      rw [hdata] at h
      simp only at h
      cases hattrs : codec.unmarshal data.Attributes with
      | error msg => rw [hattrs] at h; simp at h
      | ok decoded =>
        rw [hattrs] at h
        simp only [Except.ok.injEq, hinj] at h
        exact ⟨data, decoded, rfl, hattrs, h.symm, by rw [← h]; exact idOf_setID _ _ _⟩

set_option maxRecDepth 100000 in
/-- C13 on the response for the organization `org-7`, whose attribute map holds
an `id` of its own: the result carries the `id` of the envelope. -/
theorem C13_identity_injection_witness :
    Kind.Organization ≠ Kind.PendingTransaction ∧ organizationResponse.StatusCode < 400 ∧
    decodeDataWrapper sampleOrganizationCodec.decodable organizationResponse.Body =
      some { ID := "org-7", Type' := "organization",
             Attributes := some [("id", JSON.string "inner"), ("name", JSON.string "ACME")] } ∧
    decodeResponse Kind.Organization sampleOrganizationCodec organizationResponse =
      .ok ({ ID := "org-7", Name := "ACME" } : Organization) :=
  ⟨by decide, by decide, rfl,
    ((C13_identity_injection Kind.Organization (by decide) sampleOrganizationCodec
      organizationResponse (by decide)).1
      { ID := "org-7", Type' := "organization",
        Attributes := some [("id", JSON.string "inner"), ("name", JSON.string "ACME")] }
      { ID := "inner", Name := "ACME" } rfl rfl).1⟩

set_option maxRecDepth 100000 in
/-- C13, as written, fails: `PendingTransaction` is among the kinds it names,
and the type switch of `decodeResponse` has no case for it. For the successful
single-resource response whose envelope has the id `pt-1`,
`decodeResponse[PendingTransaction]` returns a value whose `ID` is empty and
not `pt-1`, whereas `decodeListResponse` with the identity setter of
`ListPendingTransactions`, the one way in which the client reads pending
transactions, gives the entry of the same envelope the `ID` `pt-1`. -/
theorem C13_pending_transaction_counterexample :
    decodeDataWrapper samplePendingCodec.decodable pendingTransactionResponse.Body =
      some { ID := "pt-1", Type' := "pendingTransaction",
             Attributes := some [("description", JSON.string "rent"),
               ("currency", JSON.string "EUR")] } ∧
    decodeResponse Kind.PendingTransaction samplePendingCodec pendingTransactionResponse =
      .ok ({ ID := "", Amount := { bits := 0 }, Currency := "EUR", Description := "rent",
             CounterpartName := "", CounterpartRef := "", RemittanceInfo := "",
             ValueDate := "" } : PendingTransaction) ∧
    (decodeListResponse samplePendingCodec (some (Kind.setID Kind.PendingTransaction))
        pendingTransactionsResponse).toOption.map (fun items => items.map (·.ID)) =
      some ["pt-1", "pt-2"] :=
  ⟨rfl, rfl, by decide!⟩

theorem decodeItems_map {T : Type} (codec : AttrCodec T) (setID : T → String → T)
    (dec : Resource → T) (data : List Resource)
    (h : ∀ res ∈ data, codec.unmarshal res.Attributes = .ok (dec res)) :
    decodeItems codec (some setID) data = .ok (data.map fun res => setID (dec res) res.ID) := by
  induction data with
  | nil => rfl
  | cons res rest ih =>
    have h1 := h res (List.mem_cons_self _ _)
    have h2 := ih (fun r hr => h r (List.mem_cons_of_mem _ hr))
    simp [decodeItems, h1, h2]

theorem decodeItems_length {T : Type} (codec : AttrCodec T) (setID : Option (T → String → T))
    (data : List Resource) :
    ∀ items, decodeItems codec setID data = .ok items → items.length = data.length := by
  induction data with
  | nil =>
    intro items h
    simp only [decodeItems, Except.ok.injEq] at h
    subst h
    rfl
  | cons res rest ih =>
    intro items h
    rw [decodeItems] at h
    split at h
    · simp at h
    · simp only at h
      split at h
      · simp at h
      · rename_i items' hrest
        simp only [Except.ok.injEq] at h
        rw [← h, List.length_cons, List.length_cons, ih items' hrest]

theorem decodeTransactions_map (codec : AttrCodec Transaction) (dec : Resource → Transaction)
    (data : List Resource)
    (h : ∀ res ∈ data, codec.unmarshal res.Attributes = .ok (dec res)) :
    decodeTransactions codec data = .ok (data.map fun res => { dec res with ID := res.ID }) := by
  induction data with
  | nil => rfl
  | cons res rest ih =>
    have h1 := h res (List.mem_cons_self _ _)
    have h2 := ih (fun r hr => h r (List.mem_cons_of_mem _ hr))
    simp [decodeTransactions, h1, h2]

theorem decodeTransactions_length (codec : AttrCodec Transaction) (data : List Resource) :
    ∀ items, decodeTransactions codec data = .ok items → items.length = data.length := by
  induction data with
  | nil =>
    intro items h
    simp only [decodeTransactions, Except.ok.injEq] at h
    subst h
    rfl
  | cons res rest ih =>
    intro items h
    rw [decodeTransactions] at h
    split at h
    · simp at h
    · split at h
      · simp at h
      · rename_i items' hrest
        simp only [Except.ok.injEq] at h
        rw [← h, List.length_cons, List.length_cons, ih items' hrest]

/-- C14. List decode: for every list response with a status below 400 whose
envelope decodes to the entries `wrapper.Data` and whose entries' attributes
all decode, `decodeListResponse` with an identity setter and
`decodeTransactionPage` return exactly as many items as there are entries,
in envelope order, the i-th item being what the attributes of the i-th entry
decode to, given the `id` of the i-th entry; whatever they return without an
error has as many items as the envelope has entries; and for every response
with a status of 400 or more both return the `APIError` of `parseAPIError`
and no items. -/
theorem C14_list_decode {T : Type} (codec : AttrCodec T) (txCodec : AttrCodec Transaction)
    (setID : T → String → T) (resp : Response) :
    (resp.StatusCode ≥ 400 →
      decodeListResponse codec (some setID) resp = .error (Error.api (parseAPIError resp)) ∧
      decodeTransactionPage txCodec resp = .error (Error.api (parseAPIError resp))) ∧
    (∀ (wrapper : ListWrapper) (dec : Resource → T), resp.StatusCode < 400 →
      decodeListWrapper codec.decodable resp.Body = some wrapper →
      (∀ res ∈ wrapper.Data, codec.unmarshal res.Attributes = .ok (dec res)) →
      decodeListResponse codec (some setID) resp =
        .ok (wrapper.Data.map fun res => setID (dec res) res.ID) ∧
      (wrapper.Data.map fun res => setID (dec res) res.ID).length = wrapper.Data.length) ∧
    (∀ (wrapper : ListWrapper) (dec : Resource → Transaction), resp.StatusCode < 400 →
      decodeListWrapper txCodec.decodable resp.Body = some wrapper →
      (∀ res ∈ wrapper.Data, txCodec.unmarshal res.Attributes = .ok (dec res)) →
      ∃ next, decodeTransactionPage txCodec resp =
        .ok (wrapper.Data.map (fun res => { dec res with ID := res.ID }), next)) ∧
    (∀ items, decodeListResponse codec (some setID) resp = .ok items →
      ∃ wrapper, decodeListWrapper codec.decodable resp.Body = some wrapper ∧
        items.length = wrapper.Data.length) ∧
    (∀ items next, decodeTransactionPage txCodec resp = .ok (items, next) →
      ∃ wrapper, decodeListWrapper txCodec.decodable resp.Body = some wrapper ∧
        items.length = wrapper.Data.length) := by
  refine ⟨?_, ?_, ?_, ?_, ?_⟩
  · intro h
    simp [decodeListResponse, decodeTransactionPage, h]
  · intro wrapper dec hs hw hd
    have hs' : ¬ resp.StatusCode ≥ 400 := by omega
    simp [decodeListResponse, hs', hw, decodeItems_map codec setID dec wrapper.Data hd]
  · intro wrapper dec hs hw hd
    have hs' : ¬ resp.StatusCode ≥ 400 := by omega
    simp [decodeTransactionPage, hs', hw, decodeTransactions_map txCodec dec wrapper.Data hd]
  · intro items h
    unfold decodeListResponse at h
    split at h
    · simp at h
    · split at h
      · simp at h
      · rename_i wrapper hw
        exact ⟨wrapper, hw, decodeItems_length codec (some setID) wrapper.Data items h⟩
  · intro items next h
    unfold decodeTransactionPage at h
    split at h
    · simp at h
    · split at h
      · simp at h
      · rename_i wrapper hw
        split at h
        · simp at h
        · rename_i transactions htx
          simp only [Except.ok.injEq, Prod.mk.injEq] at h
          refine ⟨wrapper, hw, ?_⟩
          rw [← h.1]
          exact decodeTransactions_length txCodec wrapper.Data transactions htx

set_option maxRecDepth 100000 in
theorem C14_list_decode_witness :
    decodeListResponse samplePendingCodec (some (Kind.setID Kind.PendingTransaction))
      pendingTransactionsResponse =
      .ok [({ ID := "pt-1", Amount := { bits := 0 }, Currency := "EUR", Description := "rent",
              CounterpartName := "", CounterpartRef := "", RemittanceInfo := "",
              ValueDate := "" } : PendingTransaction),
           ({ ID := "pt-2", Amount := { bits := 0 }, Currency := "", Description := "gas",
              CounterpartName := "", CounterpartRef := "", RemittanceInfo := "",
              ValueDate := "" } : PendingTransaction)] ∧
    decodeListResponse samplePendingCodec (some (Kind.setID Kind.PendingTransaction))
      ⟨404, errorBody "resourceNotFound" "no such account"⟩ =
      .error (Error.api ⟨404, "resourceNotFound", "no such account"⟩) :=
  ⟨((C14_list_decode samplePendingCodec sampleEnv.codec (Kind.setID Kind.PendingTransaction)
      pendingTransactionsResponse).2.1
      { Data := [{ ID := "pt-1", Type' := "pendingTransaction",
                   Attributes := some [("description", JSON.string "rent"),
                     ("currency", JSON.string "EUR")] },
                 { ID := "pt-2", Type' := "",
                   Attributes := some [("id", JSON.string "inner"),
                     ("description", JSON.string "gas")] }],
        Links := some { First := "", Last := "", Prev := "", Next := "" }, Meta := none }
      (fun res =>
        { ID := attrString res.Attributes "id", Amount := { bits := 0 },
          Currency := attrString res.Attributes "currency",
          Description := attrString res.Attributes "description",
          CounterpartName := attrString res.Attributes "counterpartName",
          CounterpartRef := attrString res.Attributes "counterpartReference",
          RemittanceInfo := attrString res.Attributes "remittanceInformation",
          ValueDate := attrString res.Attributes "valueDate" })
      (by decide) rfl (fun _ _ => rfl)).1,
   ((C14_list_decode samplePendingCodec sampleEnv.codec (Kind.setID Kind.PendingTransaction)
      ⟨404, errorBody "resourceNotFound" "no such account"⟩).1 (by decide)).1.trans
      (by simp [parseAPIError, unmarshalErrResp_errorBody])⟩

/-! ### The calendar -/

theorem yearDay_aux (n400 r n100 r1 n4 r2 n1 : Int) (hr : 0 ≤ r ∧ r < 146097)
    (hn100 : n100 = if r / 36524 = 4 then 3 else r / 36524) (hr1 : r1 = r - 36524 * n100)
    (hn4 : n4 = r1 / 1461) (hr2 : r2 = r1 % 1461)
    (hn1 : n1 = if r2 / 365 = 4 then 3 else r2 / 365) :
    0 ≤ r2 - 365 * n1 ∧
      r2 - 365 * n1 <
        (if isLeap (400 * n400 + 100 * n100 + 4 * n4 + n1 + 1) then 366 else 365) := by
  have h100 : (n100 = 0 ∨ n100 = 1 ∨ n100 = 2 ∨ n100 = 3) ∧ 0 ≤ r - 36524 * n100 ∧
      r - 36524 * n100 ≤ (if n100 = 3 then 36524 else 36523) := by
    split at hn100 <;> omega
  have h1 : (n1 = 0 ∨ n1 = 1 ∨ n1 = 2 ∨ n1 = 3) ∧ 0 ≤ r2 - 365 * n1 ∧
      r2 - 365 * n1 ≤ (if n1 = 3 then 365 else 364) := by
    split at hn1 <;> omega
  clear hn1 hn100
  obtain ⟨h100a, h100b, h100c⟩ := h100
  obtain ⟨h1a, h1b, h1c⟩ := h1
  refine ⟨h1b, ?_⟩
  simp only [isLeap]
  split
  · split at h1c <;> omega
  · rename_i hleap
    simp only [decide_eq_true_eq] at hleap
    split at h1c
    · split at h100c
      · have : r2 - 365 * n1 ≠ 365 := by
          intro h
          apply hleap
          omega
        omega
      · have : r2 - 365 * n1 ≠ 365 := by
          intro h
          apply hleap
          omega
        omega
    · omega

theorem yearDay_range (z : Int) :
    0 ≤ (yearDay z).2 ∧ (yearDay z).2 < (if isLeap (yearDay z).1 then 366 else 365) :=
  yearDay_aux _ ((z + 719162) % 146097) _ _ _ _ _ (by omega) rfl rfl rfl rfl rfl

theorem daysBeforeIn_succ (month year : Int) (h1 : 1 ≤ month) (h2 : month ≤ 11) :
    daysBeforeIn (month + 1) year = daysBeforeIn month year + daysIn month year := by
  have hm : month = 1 ∨ month = 2 ∨ month = 3 ∨ month = 4 ∨ month = 5 ∨ month = 6 ∨
      month = 7 ∨ month = 8 ∨ month = 9 ∨ month = 10 ∨ month = 11 := by omega
  cases hl : isLeap year <;>
    rcases hm with h | h | h | h | h | h | h | h | h | h | h <;> subst h <;>
    simp [daysBeforeIn, daysBefore, daysIn, hl]

theorem monthDay_spec (year : Int) (fuel : Nat) :
    ∀ (month yday : Int), 1 ≤ month → month + fuel = 12 → 0 ≤ yday →
      daysBeforeIn month year + yday < (if isLeap year then 366 else 365) →
      month ≤ (monthDay year fuel month yday).1 ∧ (monthDay year fuel month yday).1 ≤ 12 ∧
        1 ≤ (monthDay year fuel month yday).2 ∧
        (monthDay year fuel month yday).2 ≤ daysIn (monthDay year fuel month yday).1 year ∧
        daysBeforeIn (monthDay year fuel month yday).1 year +
            (monthDay year fuel month yday).2 - 1 =
          daysBeforeIn month year + yday := by
  induction fuel with
  | zero =>
    intro month yday h1 h2 h3 h4
    have hm : month = 12 := by omega
    subst hm
    cases hl : isLeap year <;>
      simp [monthDay, daysBeforeIn, daysBefore, daysIn, hl] at h4 ⊢ <;> omega
  | succ fuel ih =>
    intro month yday h1 h2 h3 h4
    rw [monthDay]
    split
    · rename_i hlt
      simp only
      omega
    · rename_i hge
      have hs := daysBeforeIn_succ month year h1 (by omega)
      have := ih (month + 1) (yday - daysIn month year) (by omega) (by omega) (by omega)
        (by omega)
      omega

theorem daysBeforeIn_one (year : Int) : daysBeforeIn 1 year = 0 := by
  simp [daysBeforeIn, daysBefore]

theorem civilFromDays_valid (z : Int) : (civilFromDays z).valid = true := by
  have h := yearDay_range z
  have := monthDay_spec (yearDay z).1 11 1 (yearDay z).2 (by omega) (by omega) h.1
    (by rw [daysBeforeIn_one]; simpa using h.2)
  simp only [CivilDate.valid, civilFromDays, decide_eq_true_eq]
  omega

theorem daysIn_pos (month year : Int) : 28 ≤ daysIn month year := by
  unfold daysIn
  split_ifs <;> omega

theorem daysBeforeIn_lt (year a : Int) (k : Nat) (h1 : 1 ≤ a) (h2 : a + 1 + k ≤ 12) :
    daysBeforeIn a year + daysIn a year ≤ daysBeforeIn (a + 1 + k) year := by
  induction k with
  | zero => simp [daysBeforeIn_succ a year h1 (by omega)]
  | succ k ih =>
    have h := daysBeforeIn_succ (a + 1 + k) year (by omega) (by push_cast at h2; omega)
    have hp := daysIn_pos (a + 1 + k) year
    have := ih (by push_cast at h2; omega)
    have e : a + 1 + ((k + 1 : Nat) : Int) = a + 1 + k + 1 := by push_cast; ring
    rw [e]
    omega

theorem daysBeforeIn_inj (year m d m2 d2 : Int) (hm : 1 ≤ m ∧ m ≤ 12)
    (hd : 1 ≤ d ∧ d ≤ daysIn m year) (hm2 : 1 ≤ m2 ∧ m2 ≤ 12)
    (hd2 : 1 ≤ d2 ∧ d2 ≤ daysIn m2 year)
    (h : daysBeforeIn m year + d = daysBeforeIn m2 year + d2) : m = m2 ∧ d = d2 := by
  rcases lt_trichotomy m m2 with hlt | heq | hgt
  · have := daysBeforeIn_lt year m (m2 - m - 1).toNat hm.1 (by omega)
    have e : m + 1 + ((m2 - m - 1).toNat : Int) = m2 := by omega
    rw [e] at this
    omega
  · subst heq
    exact ⟨rfl, by omega⟩
  · have := daysBeforeIn_lt year m2 (m - m2 - 1).toNat hm2.1 (by omega)
    have e : m2 + 1 + ((m - m2 - 1).toNat : Int) = m := by omega
    rw [e] at this
    omega

theorem yday_range (c : CivilDate) (h : c.valid = true) :
    0 ≤ daysBeforeIn c.month c.year + c.day - 1 ∧
      daysBeforeIn c.month c.year + c.day - 1 < (if isLeap c.year then 366 else 365) := by
  simp only [CivilDate.valid, decide_eq_true_eq] at h
  have h12 : daysBeforeIn 12 c.year + 31 = (if isLeap c.year then 366 else 365) := by
    cases hl : isLeap c.year <;> simp [daysBeforeIn, daysBefore, hl]
  have hd12 : daysIn 12 c.year = 31 := by simp [daysIn]
  have hlen : daysBeforeIn c.month c.year + c.day - 1 <
      (if isLeap c.year then 366 else 365) := by
    rw [← h12]
    rcases eq_or_lt_of_le h.2.1 with he | hl
    · rw [he] at h ⊢
      omega
    · have := daysBeforeIn_lt c.year c.month (12 - c.month - 1).toNat h.1 (by omega)
      have e : c.month + 1 + ((12 - c.month - 1).toNat : Int) = 12 := by omega
      rw [e] at this
      omega
  have hb : 0 ≤ daysBeforeIn c.month c.year := by
    rcases eq_or_lt_of_le h.1 with he | hl
    · rw [← he, daysBeforeIn_one]
    · have := daysBeforeIn_lt c.year 1 (c.month - 2).toNat (le_refl 1) (by omega)
      have e : (1 : Int) + 1 + ((c.month - 2).toNat : Int) = c.month := by omega
      have hp := daysIn_pos 1 c.year
      rw [e, daysBeforeIn_one] at this
      omega
  exact ⟨by omega, hlen⟩

theorem monthDay_daysBeforeIn (c : CivilDate) (h : c.valid = true) :
    monthDay c.year 11 1 (daysBeforeIn c.month c.year + c.day - 1) = (c.month, c.day) := by
  have hr := yday_range c h
  simp only [CivilDate.valid, decide_eq_true_eq] at h
  have hs := monthDay_spec c.year 11 1 (daysBeforeIn c.month c.year + c.day - 1) (by omega)
    (by omega) hr.1 (by rw [daysBeforeIn_one]; omega)
  rw [daysBeforeIn_one] at hs
  have := daysBeforeIn_inj c.year _ _ c.month c.day ⟨hs.1, hs.2.1⟩ ⟨hs.2.2.1, hs.2.2.2.1⟩
    ⟨h.1, h.2.1⟩ ⟨h.2.2.1, h.2.2.2⟩ (by omega)
  exact Prod.ext this.1 this.2

theorem yearDay_inv_aux (Y yd D n400 r n100 r1 n4 r2 n1 : Int) (hyd0 : 0 ≤ yd)
    (hyd : yd < (if isLeap (Y + 1) then 366 else 365))
    (hD : D = 365 * Y + Y / 4 - Y / 100 + Y / 400 + yd)
    (hn400 : n400 = D / 146097) (hr : r = D % 146097)
    (hn100 : n100 = if r / 36524 = 4 then 3 else r / 36524) (hr1 : r1 = r - 36524 * n100)
    (hn4 : n4 = r1 / 1461) (hr2 : r2 = r1 % 1461)
    (hn1 : n1 = if r2 / 365 = 4 then 3 else r2 / 365) :
    400 * n400 + 100 * n100 + 4 * n4 + n1 + 1 = Y + 1 ∧ r2 - 365 * n1 = yd := by
  have hyd1 : yd ≤ 365 := by split at hyd <;> omega
  have hleap : yd = 365 → ((Y + 1) % 4 = 0 ∧ ((Y + 1) % 100 ≠ 0 ∨ (Y + 1) % 400 = 0)) := by
    intro h
    split at hyd
    · rename_i hl
      simpa [isLeap] using hl
    · omega
  clear hyd
  obtain ⟨a, b, c, e, hY, hb, hc, he⟩ : ∃ a b c e : Int, Y = 400 * a + 100 * b + 4 * c + e ∧
      (0 ≤ b ∧ b ≤ 3) ∧ (0 ≤ c ∧ c ≤ 24) ∧ (0 ≤ e ∧ e ≤ 3) :=
    ⟨Y / 400, Y / 100 - 4 * (Y / 400), Y / 4 - 25 * (Y / 100), Y - 4 * (Y / 4), by omega,
      by omega, by omega, by omega⟩
  have hD2 : D = 146097 * a + 36524 * b + 1461 * c + 365 * e + yd := by omega
  have hl : yd ≤ 364 ∨ (e = 3 ∧ (c ≤ 23 ∨ b = 3)) := by
    by_cases h365 : yd = 365
    · have := hleap h365
      right
      omega
    · left
      omega
  clear hD hleap
  subst hY
  have hn400a : n400 = a := by omega
  have hra : r = 36524 * b + 1461 * c + 365 * e + yd := by omega
  clear hr hn400 hD2
  have hb4 : b = 0 ∨ b = 1 ∨ b = 2 ∨ b = 3 := by omega
  have hn100a : n100 = b := by
    split at hn100 <;> omega
  subst hn100a
  have hr1a : r1 = 1461 * c + 365 * e + yd := by omega
  clear hr1 hn100 hra
  have hn4a : n4 = c := by omega
  have hr2a : r2 = 365 * e + yd := by omega
  clear hr2 hn4 hr1a
  have hn1a : n1 = e := by
    split at hn1 <;> omega
  omega

theorem yearDay_daysFromCivil (c : CivilDate) (h : c.valid = true) :
    yearDay (daysFromCivil c) = (c.year, daysBeforeIn c.month c.year + c.day - 1) := by
  have hr := yday_range c h
  have e : c.year - 1 + 1 = c.year := by omega
  have : (yearDay (daysFromCivil c)).1 = c.year - 1 + 1 ∧
      (yearDay (daysFromCivil c)).2 = daysBeforeIn c.month c.year + c.day - 1 :=
    yearDay_inv_aux (c.year - 1) (daysBeforeIn c.month c.year + c.day - 1)
      (daysFromCivil c + 719162) _ _ _ _ _ _ _ hr.1 (by rw [e]; exact hr.2)
      (by simp only [daysFromCivil, daysBeforeIn]; omega) rfl rfl rfl rfl rfl rfl rfl
  rw [e] at this
  exact Prod.ext this.1 this.2

theorem civilFromDays_daysFromCivil (c : CivilDate) (h : c.valid = true) :
    civilFromDays (daysFromCivil c) = c := by
  simp only [civilFromDays, yearDay_daysFromCivil c h, monthDay_daysBeforeIn c h]

theorem yearDay_sum_aux (D n400 r n100 r1 n4 r2 n1 : Int)
    (hn400 : n400 = D / 146097) (hr : r = D % 146097)
    (hn100 : n100 = if r / 36524 = 4 then 3 else r / 36524) (hr1 : r1 = r - 36524 * n100)
    (hn4 : n4 = r1 / 1461) (hr2 : r2 = r1 % 1461)
    (hn1 : n1 = if r2 / 365 = 4 then 3 else r2 / 365) :
    365 * (400 * n400 + 100 * n100 + 4 * n4 + n1 + 1 - 1) +
        (400 * n400 + 100 * n100 + 4 * n4 + n1 + 1 - 1) / 4 -
        (400 * n400 + 100 * n100 + 4 * n4 + n1 + 1 - 1) / 100 +
        (400 * n400 + 100 * n100 + 4 * n4 + n1 + 1 - 1) / 400 + (r2 - 365 * n1) = D := by
  have h100 : (n100 = 0 ∨ n100 = 1 ∨ n100 = 2 ∨ n100 = 3) ∧ 0 ≤ r - 36524 * n100 ∧
      r - 36524 * n100 ≤ 36524 := by
    split at hn100 <;> omega
  have h1 : (n1 = 0 ∨ n1 = 1 ∨ n1 = 2 ∨ n1 = 3) := by
    split at hn1 <;> omega
  clear hn1 hn100
  have h4 : 0 ≤ n4 ∧ n4 ≤ 24 := by omega
  omega

theorem daysFromCivil_civilFromDays (z : Int) : daysFromCivil (civilFromDays z) = z := by
  have hr := yearDay_range z
  have hs := monthDay_spec (yearDay z).1 11 1 (yearDay z).2 (by omega) (by omega) hr.1
    (by rw [daysBeforeIn_one]; simpa using hr.2)
  rw [daysBeforeIn_one] at hs
  have hsum : 365 * ((yearDay z).1 - 1) + ((yearDay z).1 - 1) / 4 - ((yearDay z).1 - 1) / 100 +
      ((yearDay z).1 - 1) / 400 + (yearDay z).2 = z + 719162 :=
    yearDay_sum_aux (z + 719162) _ _ _ _ _ _ _ rfl rfl rfl rfl rfl rfl rfl
  have h5 := hs.2.2.2.2
  simp only [daysFromCivil, civilFromDays]
  simp only [daysBeforeIn] at h5
  omega

theorem daysFromCivil_year (c : CivilDate) (h : c.valid = true) :
    (0 ≤ c.year ↔ -719528 ≤ daysFromCivil c) ∧ (c.year ≤ 9999 ↔ daysFromCivil c ≤ 2932896) := by
  have hr := yday_range c h
  have hd : daysFromCivil c = 365 * (c.year - 1) + (c.year - 1) / 4 - (c.year - 1) / 100 +
      (c.year - 1) / 400 + (daysBeforeIn c.month c.year + c.day - 1) - 719162 := by
    simp only [daysFromCivil, daysBeforeIn]
    omega
  rw [hd]
  generalize daysBeforeIn c.month c.year + c.day - 1 = yd at hr
  obtain ⟨h0, h1⟩ := hr
  cases hl : isLeap c.year
  · simp only [hl, Bool.false_eq_true, if_false] at h1
    constructor <;> constructor <;> intro hh <;> omega
  · simp only [hl, if_true] at h1
    simp only [isLeap, decide_eq_true_eq] at hl
    constructor <;> constructor <;> intro hh <;> omega

theorem civilFromDays_year (z : Int) :
    (0 ≤ (civilFromDays z).year ↔ -719528 ≤ z) ∧ ((civilFromDays z).year ≤ 9999 ↔ z ≤ 2932896) := by
  have := daysFromCivil_year (civilFromDays z) (civilFromDays_valid z)
  rwa [daysFromCivil_civilFromDays] at this


/-! ### Digits, formatting and parsing -/

theorem isDigit_iff (c : Char) : isDigit c = true ↔ 48 ≤ c.toNat ∧ c.toNat ≤ 57 := by
  simp only [isDigit, decide_eq_true_eq, Char.le_def]
  rfl

theorem not_digit_iff (c : Char) : (c < '0' ∨ c > '9') ↔ ¬ isDigit c = true := by
  rw [isDigit_iff]
  simp only [Char.lt_def, gt_iff_lt]
  show (c.toNat < 48 ∨ 57 < c.toNat) ↔ _
  omega

theorem digitValue_range (c : Char) (h : isDigit c = true) :
    0 ≤ digitValue c ∧ digitValue c ≤ 9 := by
  rw [isDigit_iff] at h
  simp only [digitValue, Int.ofNat_eq_coe]
  omega

theorem digitChar_digitValue (c : Char) (h : isDigit c = true) :
    Nat.digitChar (digitValue c).natAbs = c := by
  rw [isDigit_iff] at h
  have e : (digitValue c).natAbs = c.toNat - 48 := by
    simp only [digitValue, Int.ofNat_eq_coe]
    omega
  rw [e]
  obtain ⟨k, hk, hk2⟩ : ∃ k, k < 10 ∧ c.toNat = 48 + k := ⟨c.toNat - 48, by omega, by omega⟩
  have hc : c = Char.ofNat (48 + k) := by rw [← hk2, Char.ofNat_toNat]
  subst hc
  interval_cases k <;> rfl

theorem digitValue_digitChar (k : Nat) (h : k < 10) :
    isDigit (Nat.digitChar k) = true ∧ digitValue (Nat.digitChar k) = k := by
  interval_cases k <;> exact ⟨by decide, by decide⟩

theorem appendInt_two (c0 c1 : Char) (h0 : isDigit c0 = true) (h1 : isDigit c1 = true) :
    appendInt (digitValue c0 * 10 + digitValue c1) 2 = [c0, c1] := by
  have r0 := digitValue_range c0 h0
  have r1 := digitValue_range c1 h1
  have e0 := digitChar_digitValue c0 h0
  have e1 := digitChar_digitValue c1 h1
  have hu : (digitValue c0 * 10 + digitValue c1).natAbs =
      (digitValue c0).natAbs * 10 + (digitValue c1).natAbs := by omega
  have hlt : ¬ (digitValue c0 * 10 + digitValue c1 < 0) := by omega
  simp only [appendInt, hlt, if_false, hu, List.nil_append]
  rw [if_pos ⟨trivial, by omega⟩]
  have d0 : ((digitValue c0).natAbs * 10 + (digitValue c1).natAbs) / 10 =
      (digitValue c0).natAbs := by omega
  have d1 : ((digitValue c0).natAbs * 10 + (digitValue c1).natAbs) % 10 =
      (digitValue c1).natAbs := by omega
  rw [d0, d1, e0, e1]

theorem appendInt_four (c0 c1 c2 c3 : Char) (h0 : isDigit c0 = true) (h1 : isDigit c1 = true)
    (h2 : isDigit c2 = true) (h3 : isDigit c3 = true) :
    appendInt (((digitValue c0 * 10 + digitValue c1) * 10 + digitValue c2) * 10 + digitValue c3)
      4 = [c0, c1, c2, c3] := by
  have r0 := digitValue_range c0 h0
  have r1 := digitValue_range c1 h1
  have r2 := digitValue_range c2 h2
  have r3 := digitValue_range c3 h3
  have e0 := digitChar_digitValue c0 h0
  have e1 := digitChar_digitValue c1 h1
  have e2 := digitChar_digitValue c2 h2
  have e3 := digitChar_digitValue c3 h3
  generalize hy :
    ((digitValue c0 * 10 + digitValue c1) * 10 + digitValue c2) * 10 + digitValue c3 = y
  have hlt : ¬ (y < 0) := by omega
  simp only [appendInt, hlt, if_false, List.nil_append]
  rw [if_neg (fun h => absurd h.1 (by decide)), if_pos ⟨trivial, by omega⟩]
  have d0 : y.natAbs / 1000 = (digitValue c0).natAbs := by omega
  have d1 : y.natAbs / 100 % 10 = (digitValue c1).natAbs := by omega
  have d2 : y.natAbs / 10 % 10 = (digitValue c2).natAbs := by omega
  have d3 : y.natAbs % 10 = (digitValue c3).natAbs := by omega
  rw [d0, d1, d2, d3, e0, e1, e2, e3]

theorem getnum_fixed (s rest : List Char) (n : Int) :
    getnum s true = some (n, rest) ↔
      ∃ c0 c1, s = c0 :: c1 :: rest ∧ isDigit c0 = true ∧ isDigit c1 = true ∧
        n = digitValue c0 * 10 + digitValue c1 := by
  constructor
  · intro h
    match s, h with
    | [c0], h => simp [getnum] at h
    | c0 :: c1 :: r, h =>
      by_cases a : isDigit c0 = true
      · by_cases b : isDigit c1 = true
        · simp only [getnum, a, b, not_true_eq_false, if_false, Option.some.injEq,
            Prod.mk.injEq] at h
          exact ⟨c0, c1, by rw [h.2], a, b, h.1.symm⟩
        · simp [getnum, a, b] at h
      · simp [getnum, a] at h
  · rintro ⟨c0, c1, rfl, h0, h1, rfl⟩
    simp [getnum, h0, h1]

theorem skip_some (value rest : List Char) (c : Char) :
    skip value c = some rest ↔ value = c :: rest := by
  cases value with
  | nil => simp [skip]
  | cons c0 r =>
    simp only [skip]
    split_ifs with h
    · subst h
      simp
    · simp only [List.cons.injEq, false_iff, not_and, reduceCtorEq]
      intro e
      exact absurd e h

theorem check_some (b : Bool) (u : Unit) : check b = some u ↔ b = true := by
  cases b <;> simp [check]

theorem check_bind {α : Type} (b : Bool) (f : Unit → Option α) (x : α) :
    (check b >>= f) = some x ↔ b = true ∧ f () = some x := by
  cases b <;> simp [check]

/-- The fields and the rest that `parseYMD` returns, in terms of the characters read. -/
theorem parseYMD_some (value rest : List Char) (c : CivilDate) :
    parseYMD value = some (c, rest) ↔
      ∃ y0 y1 y2 y3 m0 m1 d0 d1,
        value = y0 :: y1 :: y2 :: y3 :: '-' :: m0 :: m1 :: '-' :: d0 :: d1 :: rest ∧
        isDigit y0 = true ∧ isDigit y1 = true ∧ isDigit y2 = true ∧ isDigit y3 = true ∧
        isDigit m0 = true ∧ isDigit m1 = true ∧ isDigit d0 = true ∧ isDigit d1 = true ∧
        1 ≤ digitValue m0 * 10 + digitValue m1 ∧ digitValue m0 * 10 + digitValue m1 ≤ 12 ∧
        c = ⟨((digitValue y0 * 10 + digitValue y1) * 10 + digitValue y2) * 10 + digitValue y3,
          digitValue m0 * 10 + digitValue m1, digitValue d0 * 10 + digitValue d1⟩ := by
  constructor
  · intro h
    match value, h with
    | y0 :: y1 :: y2 :: y3 :: v, h =>
      simp only [parseYMD, Option.bind_eq_bind, Option.bind_eq_some, check_some, skip_some,
        Option.pure_def, Option.some.injEq, Prod.mk.injEq, Prod.exists, getnum_fixed,
        Bool.and_eq_true, decide_eq_true_eq, exists_const] at h
      obtain ⟨hy, _, rfl, month, b, ⟨m0, m1, rfl, hm0, hm1, rfl⟩, hm, _, rfl, day, b2,
        ⟨d0, d1, rfl, hd0, hd1, rfl⟩, rfl, rfl⟩ := h
      exact ⟨y0, y1, y2, y3, m0, m1, d0, d1, rfl, hy.1.1.1, hy.1.1.2, hy.1.2, hy.2, hm0, hm1,
        hd0, hd1, by omega, by omega, rfl⟩
    | [], h => simp [parseYMD] at h
    | [_], h => simp [parseYMD] at h
    | [_, _], h => simp [parseYMD] at h
    | [_, _, _], h => simp [parseYMD] at h
  · rintro ⟨y0, y1, y2, y3, m0, m1, d0, d1, rfl, hy0, hy1, hy2, hy3, hm0, hm1, hd0, hd1, h1,
      h12, rfl⟩
    have hg1 : getnum (m0 :: m1 :: '-' :: d0 :: d1 :: rest) true =
        some (digitValue m0 * 10 + digitValue m1, '-' :: d0 :: d1 :: rest) :=
      (getnum_fixed _ _ _).2 ⟨m0, m1, rfl, hm0, hm1, rfl⟩
    have hg2 : getnum (d0 :: d1 :: rest) true =
        some (digitValue d0 * 10 + digitValue d1, rest) :=
      (getnum_fixed _ _ _).2 ⟨d0, d1, rfl, hd0, hd1, rfl⟩
    have hc : ¬ (digitValue m0 * 10 + digitValue m1 ≤ 0 ∨ 12 < digitValue m0 * 10 + digitValue m1) := by
      omega
    have hc2 : 0 < digitValue m0 * 10 + digitValue m1 ∧ digitValue m0 * 10 + digitValue m1 ≤ 12 :=
      ⟨by omega, h12⟩
    simp [parseYMD, check, skip, hy0, hy1, hy2, hy3, hg1, hg2, hc, hc2]


theorem isCalendarDate_mk (y0 y1 y2 y3 a m0 m1 b d0 d1 : Char) :
    isCalendarDate ⟨[y0, y1, y2, y3, a, m0, m1, b, d0, d1]⟩ = true ↔
      isDigit y0 = true ∧ isDigit y1 = true ∧ isDigit y2 = true ∧ isDigit y3 = true ∧
        a = '-' ∧ isDigit m0 = true ∧ isDigit m1 = true ∧ b = '-' ∧ isDigit d0 = true ∧
        isDigit d1 = true ∧
        CivilDate.valid
          ⟨((digitValue y0 * 10 + digitValue y1) * 10 + digitValue y2) * 10 + digitValue y3,
            digitValue m0 * 10 + digitValue m1, digitValue d0 * 10 + digitValue d1⟩ = true := by
  simp only [isCalendarDate, Bool.and_eq_true, decide_eq_true_eq]
  tauto

theorem isCalendarDate_length (s : String) (h : isCalendarDate s = true) :
    s.data.length = 10 := by
  unfold isCalendarDate at h
  split at h
  · rename_i e
    rw [e]
    rfl
  · exact absurd h (by decide)

/-- The layout `2006-01-02` accepts the calendar dates in the form YYYY-MM-DD and
nothing else, and the parsed date prints as the string itself. -/
theorem timeParseDateOnly_some (s : String) (c : CivilDate) :
    timeParseDateOnly s = some c → isCalendarDate s = true ∧ formatDate c = s ∧
      c.valid = true := by
  intro h
  simp only [timeParseDateOnly, Option.bind_eq_bind, Option.bind_eq_some, check_some,
    Option.pure_def, Option.some.injEq, Prod.exists, decide_eq_true_eq, exists_const] at h
  obtain ⟨c2, rest, hp, hrest, hday, rfl⟩ := h
  subst hrest
  obtain ⟨y0, y1, y2, y3, m0, m1, d0, d1, hv, hy0, hy1, hy2, hy3, hm0, hm1, hd0, hd1, h1, h12,
    rfl⟩ := (parseYMD_some _ _ _).1 hp
  have hs : s = ⟨[y0, y1, y2, y3, '-', m0, m1, '-', d0, d1]⟩ := by
    cases s
    simp only at hv
    rw [hv]
  have hval : CivilDate.valid
      ⟨((digitValue y0 * 10 + digitValue y1) * 10 + digitValue y2) * 10 + digitValue y3,
        digitValue m0 * 10 + digitValue m1, digitValue d0 * 10 + digitValue d1⟩ = true := by
    simp only [CivilDate.valid, decide_eq_true_eq]
    dsimp only at hday
    omega
  refine ⟨?_, ?_, hval⟩
  · rw [hs]
    exact (isCalendarDate_mk _ _ _ _ _ _ _ _ _ _).2
      ⟨hy0, hy1, hy2, hy3, rfl, hm0, hm1, rfl, hd0, hd1, hval⟩
  · rw [hs]
    simp only [formatDate, appendInt_four y0 y1 y2 y3 hy0 hy1 hy2 hy3,
      appendInt_two m0 m1 hm0 hm1, appendInt_two d0 d1 hd0 hd1]
    rfl

theorem timeParseDateOnly_of_isCalendarDate (s : String) (h : isCalendarDate s = true) :
    ∃ c, timeParseDateOnly s = some c := by
  have hl := isCalendarDate_length s h
  obtain ⟨l⟩ := s
  match l, hl with
  | [y0, y1, y2, y3, a, m0, m1, b, d0, d1], _ =>
    obtain ⟨hy0, hy1, hy2, hy3, rfl, hm0, hm1, rfl, hd0, hd1, hv⟩ :=
      (isCalendarDate_mk _ _ _ _ _ _ _ _ _ _).1 h
    simp only [CivilDate.valid, decide_eq_true_eq] at hv
    have hp := (parseYMD_some [y0, y1, y2, y3, '-', m0, m1, '-', d0, d1] [] _).2
      ⟨y0, y1, y2, y3, m0, m1, d0, d1, rfl, hy0, hy1, hy2, hy3, hm0, hm1, hd0, hd1, hv.1,
        hv.2.1, rfl⟩
    refine ⟨⟨((digitValue y0 * 10 + digitValue y1) * 10 + digitValue y2) * 10 + digitValue y3,
      digitValue m0 * 10 + digitValue m1, digitValue d0 * 10 + digitValue d1⟩, ?_⟩
    simp only [timeParseDateOnly, hp, Option.bind_eq_bind, Option.some_bind]
    have hc : ¬ (digitValue d0 * 10 + digitValue d1 < 1 ∨ digitValue d0 * 10 + digitValue d1 >
        daysIn (digitValue m0 * 10 + digitValue m1)
          (((digitValue y0 * 10 + digitValue y1) * 10 + digitValue y2) * 10 + digitValue y3)) := by
      omega
    simp only [check, decide_True, if_true, Option.some_bind, hc, not_false_eq_true]
    rfl

theorem timeParseDateOnly_isSome (s : String) :
    (timeParseDateOnly s).isSome = isCalendarDate s := by
  cases h : isCalendarDate s
  · cases h2 : timeParseDateOnly s with
    | none => rfl
    | some c => rw [(timeParseDateOnly_some s c h2).1] at h; exact absurd h (by decide)
  · obtain ⟨c, hc⟩ := timeParseDateOnly_of_isCalendarDate s h
    rw [hc]
    rfl

/-- A string that the layout RFC3339 accepts begins with a calendar date in the form
YYYY-MM-DD, and that is the date of the parsed time. -/
theorem timeParseRFC3339_some (s : String) (c : CivilDate) (h : timeParseRFC3339 s = some c) :
    isCalendarDate ⟨s.data.take 10⟩ = true ∧ formatDate c = ⟨s.data.take 10⟩ ∧
      c.valid = true ∧ 10 < s.data.length := by
  simp only [timeParseRFC3339, Option.bind_eq_bind, Option.bind_eq_some, check_some,
    Option.pure_def, Option.some.injEq, Prod.exists, decide_eq_true_eq, exists_const] at h
  obtain ⟨c2, rest, hp, v1, hclock, v2, hzone, hrest, hday, rfl⟩ := h
  obtain ⟨y0, y1, y2, y3, m0, m1, d0, d1, hv, hy0, hy1, hy2, hy3, hm0, hm1, hd0, hd1, h1, h12,
    rfl⟩ := (parseYMD_some _ _ _).1 hp
  have hval : CivilDate.valid
      ⟨((digitValue y0 * 10 + digitValue y1) * 10 + digitValue y2) * 10 + digitValue y3,
        digitValue m0 * 10 + digitValue m1, digitValue d0 * 10 + digitValue d1⟩ = true := by
    simp only [CivilDate.valid, decide_eq_true_eq]
    dsimp only at hday
    omega
  have hne : rest ≠ [] := by
    intro e
    rw [e] at hclock
    simp [parseClock, skip] at hclock
  have ht : s.data.take 10 = [y0, y1, y2, y3, '-', m0, m1, '-', d0, d1] := by
    rw [hv]
    rfl
  refine ⟨?_, ?_, hval, ?_⟩
  · rw [ht]
    exact (isCalendarDate_mk _ _ _ _ _ _ _ _ _ _).2
      ⟨hy0, hy1, hy2, hy3, rfl, hm0, hm1, rfl, hd0, hd1, hval⟩
  · rw [ht]
    simp only [formatDate, appendInt_four y0 y1 y2 y3 hy0 hy1 hy2 hy3,
      appendInt_two m0 m1 hm0 hm1, appendInt_two d0 d1 hd0 hd1]
    rfl
  · rw [hv]
    cases rest with
    | nil => exact absurd rfl hne
    | cons a r => simp

theorem parseZone_of_rfc3339Offset (v : List Char) (h : rfc3339Offset false v = true) :
    parseZone v = some [] ∧ skipFraction v = v := by
  match v, h with
  | [z], h =>
    simp only [rfc3339Offset, Bool.false_and, Bool.or_false, decide_eq_true_eq] at h
    subst h
    exact ⟨rfl, rfl⟩
  | [sign, h0, h1, colon, m0, m1], h =>
    simp only [rfc3339Offset, Bool.and_eq_true, decide_eq_true_eq] at h
    obtain ⟨⟨⟨⟨⟨⟨⟨hs, hh0⟩, hh1⟩, hc⟩, hm0⟩, hm1⟩, hh⟩, hm⟩ := h
    subst hc
    have g1 : getnum [h0, h1] true = some (digitValue h0 * 10 + digitValue h1, []) :=
      (getnum_fixed _ _ _).2 ⟨h0, h1, rfl, hh0, hh1, rfl⟩
    have g2 : getnum [m0, m1] true = some (digitValue m0 * 10 + digitValue m1, []) :=
      (getnum_fixed _ _ _).2 ⟨m0, m1, rfl, hm0, hm1, rfl⟩
    have c1 : digitValue h0 * 10 + digitValue h1 ≤ 24 := by omega
    have c2 : digitValue m0 * 10 + digitValue m1 ≤ 60 := by omega
    rcases hs with hs | hs <;> subst hs <;>
      simp [parseZone, skipFraction, g1, g2, check, c1, c2]

theorem parseZone_of_rfc3339Tail (v : List Char) (h : rfc3339Tail false v = true) :
    parseZone (skipFraction v) = some [] := by
  match v, h with
  | [], h => exact absurd h (by decide)
  | [c0], h =>
    have h2 : rfc3339Offset false [c0] = true := by
      unfold rfc3339Tail at h
      split at h
      · rename_i e
        simp at e
      · exact h
    have := parseZone_of_rfc3339Offset _ h2
    rw [this.2]
    exact this.1
  | c0 :: c1 :: rest, h =>
    by_cases hc : c0 = '.'
    · subst hc
      simp only [rfc3339Tail, Bool.and_eq_true] at h
      have := parseZone_of_rfc3339Offset _ h.2
      simp only [skipFraction, true_or, h.1, and_self, if_true]
      exact this.1
    · have h2 : rfc3339Offset false (c0 :: c1 :: rest) = true := by
        unfold rfc3339Tail at h
        split at h
        · rename_i e
          simp only [List.cons.injEq] at e
          exact absurd e.1 hc
        · exact h
      have := parseZone_of_rfc3339Offset _ h2
      rw [this.2]
      exact this.1

theorem parseClock_digits (t h0 h1 a m0 m1 b s0 s1 : Char) (rest : List Char)
    (ht : t = 'T') (hh0 : isDigit h0 = true) (hh1 : isDigit h1 = true) (ha : a = ':')
    (hm0 : isDigit m0 = true) (hm1 : isDigit m1 = true) (hb : b = ':')
    (hs0 : isDigit s0 = true) (hs1 : isDigit s1 = true)
    (hh : digitValue h0 * 10 + digitValue h1 ≤ 23)
    (hm : digitValue m0 * 10 + digitValue m1 ≤ 59)
    (hs : digitValue s0 * 10 + digitValue s1 ≤ 59) :
    parseClock (t :: h0 :: h1 :: a :: m0 :: m1 :: b :: s0 :: s1 :: rest) = some rest := by
  subst ht ha hb
  have r0 := digitValue_range h0 hh0
  have r1 := digitValue_range h1 hh1
  have r2 := digitValue_range m0 hm0
  have r3 := digitValue_range m1 hm1
  have r4 := digitValue_range s0 hs0
  have r5 := digitValue_range s1 hs1
  have c1 : ¬ (digitValue h0 * 10 + digitValue h1 < 0 ∨ 24 ≤ digitValue h0 * 10 + digitValue h1) := by
    omega
  have c2 : ¬ (digitValue m0 * 10 + digitValue m1 < 0 ∨ 60 ≤ digitValue m0 * 10 + digitValue m1) := by
    omega
  have c3 : ¬ (digitValue s0 * 10 + digitValue s1 < 0 ∨ 60 ≤ digitValue s0 * 10 + digitValue s1) := by
    omega
  simp only [parseClock, skip, if_true, Option.bind_eq_bind, Option.some_bind, getnum, hh0, hh1,
    hm0, hm1, hs0, hs1, not_true_eq_false, if_false, c1, c2, c3, check, not_false_eq_true,
    decide_True, Option.pure_def]

theorem timeParseRFC3339_of_rfc3339DateTime (s : String)
    (h : rfc3339DateTime 59 false s = true) : ∃ c, timeParseRFC3339 s = some c := by
  simp only [rfc3339DateTime, Bool.and_eq_true] at h
  obtain ⟨hd, hrest⟩ := h
  have hl := isCalendarDate_length _ hd
  generalize htk : s.data.take 10 = tk at hd hl
  match tk, hl with
  | [y0, y1, y2, y3, a, m0, m1, b, d0, d1], _ =>
    obtain ⟨hy0, hy1, hy2, hy3, rfl, hm0, hm1, rfl, hd0, hd1, hv⟩ :=
      (isCalendarDate_mk _ _ _ _ _ _ _ _ _ _).1 hd
    have hs : s.data = [y0, y1, y2, y3, '-', m0, m1, '-', d0, d1] ++ s.data.drop 10 := by
      rw [← htk, List.take_append_drop]
    generalize s.data.drop 10 = dr at hs hrest
    match dr, hrest with
    | t :: h0 :: h1 :: a :: n0 :: n1 :: b :: s0 :: s1 :: rest, hrest =>
      simp only [Bool.and_eq_true, decide_eq_true_eq, Bool.false_and, Bool.or_false] at hrest
      obtain ⟨⟨⟨⟨⟨⟨⟨⟨⟨⟨⟨⟨ht, hh0⟩, hh1⟩, ha⟩, hn0⟩, hn1⟩, hb⟩, hs0⟩, hs1⟩, hh⟩, hm⟩, hsec⟩, htail⟩ :=
        hrest
      have hclock := parseClock_digits t h0 h1 a n0 n1 b s0 s1 rest ht hh0 hh1 ha hn0 hn1 hb
        hs0 hs1 hh hm hsec
      have hzone := parseZone_of_rfc3339Tail rest htail
      simp only [CivilDate.valid, decide_eq_true_eq] at hv
      have hp := (parseYMD_some s.data
        (t :: h0 :: h1 :: a :: n0 :: n1 :: b :: s0 :: s1 :: rest) _).2
        ⟨y0, y1, y2, y3, m0, m1, d0, d1, hs, hy0, hy1, hy2, hy3, hm0, hm1, hd0, hd1, hv.1,
          hv.2.1, rfl⟩
      refine ⟨⟨((digitValue y0 * 10 + digitValue y1) * 10 + digitValue y2) * 10 + digitValue y3,
        digitValue m0 * 10 + digitValue m1, digitValue d0 * 10 + digitValue d1⟩, ?_⟩
      have hc : ¬ (digitValue d0 * 10 + digitValue d1 < 1 ∨
          digitValue d0 * 10 + digitValue d1 >
            daysIn (digitValue m0 * 10 + digitValue m1)
              (((digitValue y0 * 10 + digitValue y1) * 10 + digitValue y2) * 10 +
                digitValue y3)) := by
        omega
      simp only [timeParseRFC3339, hp, Option.bind_eq_bind, Option.some_bind, hclock, hzone,
        check, decide_True, if_true, hc, not_false_eq_true]
      rfl

/-- A valid date of the years 0000 to 9999 prints as a calendar date in the form
YYYY-MM-DD. -/
theorem isCalendarDate_formatDate (c : CivilDate) (hv : c.valid = true) (h0 : 0 ≤ c.year)
    (h1 : c.year ≤ 9999) : isCalendarDate (formatDate c) = true := by
  obtain ⟨year, month, day⟩ := c
  simp only [CivilDate.valid, decide_eq_true_eq] at hv
  dsimp only at h0 h1 hv
  have hd := hv.2.2.2
  have hd31 : daysIn month year ≤ 31 := by
    unfold daysIn
    split_ifs <;> omega
  have ey : ¬ (year < 0) := by omega
  have em : ¬ (month < 0) := by omega
  have ed : ¬ (day < 0) := by omega
  have e : formatDate ⟨year, month, day⟩ =
      ⟨[Nat.digitChar (year.natAbs / 1000), Nat.digitChar (year.natAbs / 100 % 10),
        Nat.digitChar (year.natAbs / 10 % 10), Nat.digitChar (year.natAbs % 10), '-',
        Nat.digitChar (month.natAbs / 10), Nat.digitChar (month.natAbs % 10), '-',
        Nat.digitChar (day.natAbs / 10), Nat.digitChar (day.natAbs % 10)]⟩ := by
    simp only [formatDate, appendInt, ey, em, ed, if_false, List.nil_append]
    rw [if_neg (fun h => absurd h.1 (by decide)), if_pos ⟨trivial, by omega⟩,
      if_pos ⟨trivial, by omega⟩, if_pos ⟨trivial, by omega⟩]
    rfl
  rw [e, isCalendarDate_mk]
  have y3 := digitValue_digitChar (year.natAbs / 1000) (by omega)
  have y2 := digitValue_digitChar (year.natAbs / 100 % 10) (by omega)
  have y1 := digitValue_digitChar (year.natAbs / 10 % 10) (by omega)
  have y0 := digitValue_digitChar (year.natAbs % 10) (by omega)
  have m1 := digitValue_digitChar (month.natAbs / 10) (by omega)
  have m0 := digitValue_digitChar (month.natAbs % 10) (by omega)
  have d1 := digitValue_digitChar (day.natAbs / 10) (by omega)
  have d0 := digitValue_digitChar (day.natAbs % 10) (by omega)
  refine ⟨y3.1, y2.1, y1.1, y0.1, rfl, m1.1, m0.1, rfl, d1.1, d0.1, ?_⟩
  rw [y3.2, y2.2, y1.2, y0.2, m1.2, m0.2, d1.2, d0.2]
  have e1 : ((((year.natAbs / 1000 : Nat) : Int) * 10 + ((year.natAbs / 100 % 10 : Nat) : Int)) *
      10 + ((year.natAbs / 10 % 10 : Nat) : Int)) * 10 + ((year.natAbs % 10 : Nat) : Int) =
      year := by omega
  have e2 : ((month.natAbs / 10 : Nat) : Int) * 10 + ((month.natAbs % 10 : Nat) : Int) =
      month := by omega
  have e3 : ((day.natAbs / 10 : Nat) : Int) * 10 + ((day.natAbs % 10 : Nat) : Int) = day := by
    omega
  rw [e1, e2, e3]
  simp only [CivilDate.valid, decide_eq_true_eq]
  exact hv

/-! ### The loop over the digits of a relative date -/

theorem foldl_digits_ge (digits : List Char) :
    ∀ n : Int, (∀ c ∈ digits, isDigit c = true) → 0 ≤ n →
      n ≤ digits.foldl (fun n c => n * 10 + digitValue c) n := by
  induction digits with
  | nil => intro n _ _; exact le_refl n
  | cons c cs ih =>
    intro n hd hn
    have r := digitValue_range c (hd c (List.mem_cons_self c cs))
    have := ih (n * 10 + digitValue c) (fun x hx => hd x (List.mem_cons_of_mem c hx)) (by omega)
    simp only [List.foldl_cons]
    omega

theorem relativeDays_digits (digits : List Char) :
    ∀ n : Int, (∀ c ∈ digits, isDigit c = true) → 0 ≤ n →
      digits.foldl (fun n c => n * 10 + digitValue c) n < 2 ^ 63 →
      relativeDays digits n = some (digits.foldl (fun n c => n * 10 + digitValue c) n) := by
  induction digits with
  | nil => intro n _ _ _; rfl
  | cons c cs ih =>
    intro n hd hn hlt
    have hc := hd c (List.mem_cons_self c cs)
    have r := digitValue_range c hc
    have hcs : ∀ x ∈ cs, isDigit x = true := fun x hx => hd x (List.mem_cons_of_mem c hx)
    have hge := foldl_digits_ge cs (n * 10 + digitValue c) hcs (by omega)
    simp only [List.foldl_cons] at hlt ⊢
    have hw : wrapInt64 (n * 10 + (Int.ofNat c.toNat - 48)) = n * 10 + digitValue c := by
      simp only [wrapInt64, digitValue] at *
      omega
    rw [relativeDays, if_neg (by rw [not_digit_iff]; simpa using hc), hw]
    exact ih _ hcs (by omega) hlt

theorem relativeDays_some (digits : List Char) :
    ∀ n : Int, (∀ c ∈ digits, isDigit c = true) → ∃ days, relativeDays digits n = some days := by
  induction digits with
  | nil => intro n _; exact ⟨n, rfl⟩
  | cons c cs ih =>
    intro n hd
    have hc := hd c (List.mem_cons_self c cs)
    rw [relativeDays, if_neg (by rw [not_digit_iff]; simpa using hc)]
    exact ih _ (fun x hx => hd x (List.mem_cons_of_mem c hx))

theorem relativeDays_none (digits : List Char) :
    ∀ n : Int, ¬ (∀ c ∈ digits, isDigit c = true) → relativeDays digits n = none := by
  induction digits with
  | nil => intro n h; exact absurd (fun c hc => absurd hc (List.not_mem_nil c)) h
  | cons c cs ih =>
    intro n h
    rw [relativeDays]
    by_cases hc : isDigit c = true
    · rw [if_neg (by rw [not_digit_iff]; simpa using hc)]
      apply ih
      intro hcs
      apply h
      intro x hx
      rcases List.mem_cons.1 hx with e | e
      · rw [e]; exact hc
      · exact hcs x e
    · rw [if_pos ((not_digit_iff c).2 hc)]


/-! ### The claims on parseDate -/

theorem unixToAbsolute_days : unixToAbsolute = 106751991073094 * 86400 := by decide

theorem Time.abs_of_range (loc : Location) (t : Int)
    (h : -62167219200 ≤ wallSeconds loc t ∧ wallSeconds loc t < 253402300800) :
    Time.abs loc t = wallSeconds loc t + unixToAbsolute := by
  unfold Time.abs wallSeconds unixToAbsolute at *
  omega

theorem absDate_of_range (w : Int) :
    absDate (w + unixToAbsolute) = civilFromDays (w / 86400) := by
  unfold absDate secondsPerDay unixToAbsolute
  congr 1
  omega

/-- The date that `Format` prints for an instant whose wall clock lies in the
years 0000 to 9999. -/
theorem absDate_abs (loc : Location) (t : Int)
    (h : -62167219200 ≤ wallSeconds loc t ∧ wallSeconds loc t < 253402300800) :
    absDate (Time.abs loc t) = localDate loc t := by
  rw [Time.abs_of_range loc t h, absDate_of_range]
  rfl

theorem daysFromCivil_day (y m d k : Int) :
    daysFromCivil ⟨y, m, d + k⟩ = daysFromCivil ⟨y, m, d⟩ + k := by
  simp only [daysFromCivil]
  omega

/-- The instant that `AddDate` gives when the wall clock of `t` lies in the years
0000 to 9999, the day moved to does not lie before 0000-01-01 and the clocks of
the location show the wall-clock second moved to: its wall clock is that of `t`
moved by `days` whole days. -/
theorem AddDate_of_steady (loc : Location) (t days : Int)
    (h : -62167219200 ≤ wallSeconds loc t ∧ wallSeconds loc t < 253402300800)
    (hdays : days ≤ 0)
    (hrange : -62167219200 ≤ wallSeconds loc t + 86400 * days)
    (hsteady : steadyAt loc (wallSeconds loc t + 86400 * days) = true) :
    wallSeconds loc (AddDate loc t days) = wallSeconds loc t + 86400 * days := by
  have hc := civilFromDays_valid (wallSeconds loc t / 86400)
  have hd := daysFromCivil_civilFromDays (wallSeconds loc t / 86400)
  generalize hcd : civilFromDays (wallSeconds loc t / 86400) = c at hc hd
  obtain ⟨y, m, d⟩ := c
  simp only [CivilDate.valid, decide_eq_true_eq] at hc
  have hd31 : d ≤ 31 := by
    have : daysIn m y ≤ 31 := by
      unfold daysIn
      split_ifs <;> omega
    omega
  simp only [steadyAt, decide_eq_true_eq] at hsteady
  obtain ⟨hs1, hs2, hs3⟩ := hsteady
  have habs := Time.abs_of_range loc t h
  have hdate : absDate (Time.abs loc t) = ⟨y, m, d⟩ := by
    rw [habs, absDate_of_range, hcd]
  have hclock : Time.abs loc t % secondsPerDay = wallSeconds loc t % 86400 := by
    rw [habs]
    unfold secondsPerDay unixToAbsolute
    omega
  have hw : wrapInt64 (d + days) = d + days := by
    unfold wrapInt64
    omega
  have hunix : wrapInt64 (daysFromCivil ⟨y, m, d + days⟩ * secondsPerDay +
      wallSeconds loc t % 86400) = wallSeconds loc t + 86400 * days := by
    rw [daysFromCivil_day, hd]
    unfold wrapInt64 secondsPerDay
    omega
  generalize hwv : wallSeconds loc t + 86400 * days = w at *
  have hres : AddDate loc t days = w - (loc.lookup w).offset := by
    unfold AddDate
    simp only [hdate, hclock, hw, Date, hunix]
    have hwr : wrapInt64 (w - (loc.lookup w).offset) = w - (loc.lookup w).offset := by
      unfold wrapInt64
      omega
    by_cases h0 : (loc.lookup w).offset = 0
    · rw [if_neg (by simpa using h0), h0]
      omega
    · rw [if_pos h0, hwr]
      by_cases hin : w - (loc.lookup w).offset < (loc.lookup w).start ∨
          w - (loc.lookup w).offset ≥ (loc.lookup w).stop
      · rw [if_pos hin, hs1, hwr]
      · rw [if_neg hin, hwr]
  unfold wallSeconds at hres ⊢
  rw [hres, hs1]
  omega

theorem decimalValue_nonneg (digits : List Char) (h : ∀ c ∈ digits, isDigit c = true) :
    0 ≤ decimalValue digits :=
  foldl_digits_ge digits 0 h (le_refl 0)

theorem daysFromCivil_localDate (loc : Location) (t : Int) :
    daysFromCivil (localDate loc t) = wallSeconds loc t / 86400 :=
  daysFromCivil_civilFromDays _

/-- The relative branch of `parseDate` when the current wall clock lies in the
years 0000 to 9999, the count of days does not lead before 0000-01-01 and the
clocks of the local zone show the current time of day on the day it leads to:
the date that many days before the current date, a calendar date of the years
0000 to 9999. -/
theorem parseDate_relative (loc : Location) (now : Int) (s : String)
    (hnow : -62167219200 ≤ wallSeconds loc now ∧ wallSeconds loc now < 253402300800)
    (hshape : s.data.length > 1 ∧ s.data.head? = some '-' ∧ s.data.getLast? = some 'd')
    (hdigits : ∀ c ∈ (s.data.drop 1).dropLast, isDigit c = true)
    (hrange : daysFromCivil ⟨0, 1, 1⟩ ≤
      daysFromCivil (localDate loc now) - decimalValue ((s.data.drop 1).dropLast))
    (hsteady : steadyAt loc
      (wallSeconds loc now - 86400 * decimalValue ((s.data.drop 1).dropLast)) = true) :
    parseDate (goTime loc now) s =
        .ok (formatDate (civilFromDays
          (daysFromCivil (localDate loc now) - decimalValue ((s.data.drop 1).dropLast)))) ∧
      isCalendarDate (formatDate (civilFromDays
        (daysFromCivil (localDate loc now) - decimalValue ((s.data.drop 1).dropLast)))) =
          true := by
  have h0 : daysFromCivil ⟨0, 1, 1⟩ = -719528 := by decide
  rw [h0, daysFromCivil_localDate] at hrange
  rw [daysFromCivil_localDate]
  have hn := decimalValue_nonneg _ hdigits
  generalize hN : decimalValue ((s.data.drop 1).dropLast) = N at *
  have hN' : List.foldl (fun (n : Int) c => n * 10 + digitValue c) 0
      ((s.data.drop 1).dropLast) = N := hN
  have hrel := relativeDays_digits ((s.data.drop 1).dropLast) 0 hdigits (le_refl 0)
    (by
      rw [hN']
      have : N < 2 ^ 63 := by omega
      exact this)
  rw [hN'] at hrel
  have hw : wrapInt64 (-N) = -N := by
    simp only [wrapInt64]
    omega
  have hsteady' : steadyAt loc (wallSeconds loc now + 86400 * -N) = true := by
    have e : wallSeconds loc now + 86400 * -N = wallSeconds loc now - 86400 * N := by omega
    rw [e]
    exact hsteady
  have hadd := AddDate_of_steady loc now (-N) hnow (by omega) (by omega) hsteady'
  have hfmt : absDate (Time.abs loc (AddDate loc now (-N))) =
      civilFromDays (wallSeconds loc now / 86400 - N) := by
    rw [absDate_abs loc _ (by rw [hadd]; omega)]
    unfold localDate secondsPerDay
    rw [hadd]
    congr 1
    omega
  constructor
  · rw [parseDate, if_pos hshape]
    simp only [hrel]
    show Except.ok ((goTime loc now).nowAddDays (wrapInt64 (-N))) = _
    rw [hw]
    show Except.ok (formatDate (absDate (Time.abs loc (AddDate loc now (-N))))) = _
    rw [hfmt]
  · have hy := civilFromDays_year (wallSeconds loc now / 86400 - N)
    exact isCalendarDate_formatDate _ (civilFromDays_valid _) (hy.1.2 hrange)
      (hy.2.2 (by omega))

theorem isDigit_head_of_isCalendarDate (s : String) (h : isCalendarDate ⟨s.data.take 10⟩ = true) :
    ¬ (s.data.length > 1 ∧ s.data.head? = some '-' ∧ s.data.getLast? = some 'd') := by
  have hl := isCalendarDate_length _ h
  rintro ⟨_, hh, _⟩
  obtain ⟨l⟩ := s
  cases l with
  | nil => simp at hh
  | cons c cs =>
    simp only [List.head?_cons, Option.some.injEq] at hh
    subst hh
    generalize htk : List.take 10 ('-' :: cs) = tk at h hl
    match tk, hl with
    | [y0, y1, y2, y3, a, m0, m1, b, d0, d1], _ =>
      have := ((isCalendarDate_mk _ _ _ _ _ _ _ _ _ _).1 h).1
      simp only [List.take_succ_cons, List.cons.injEq] at htk
      rw [← htk.1] at this
      exact absurd this (by decide)

/-- The absolute branches of `parseDate` on a string that one of the two layouts
accepts: the first ten characters. -/
theorem parseDate_absolute (loc : Location) (now : Int) (s : String)
    (h : isCalendarDate s = true ∨ ∃ c, timeParseRFC3339 s = some c) :
    parseDate (goTime loc now) s = .ok ⟨s.data.take 10⟩ ∧
      isCalendarDate ⟨s.data.take 10⟩ = true := by
  by_cases hd : isCalendarDate s = true
  · have hl := isCalendarDate_length s hd
    have e : (⟨s.data.take 10⟩ : String) = s := by
      obtain ⟨l⟩ := s
      exact congrArg String.mk (List.take_of_length_le (le_of_eq hl))
    rw [e]
    refine ⟨?_, hd⟩
    rw [parseDate, if_neg (isDigit_head_of_isCalendarDate s (by rw [e]; exact hd))]
    have : (goTime loc now).parseDateOnly s = true := by
      show (timeParseDateOnly s).isSome = true
      rw [timeParseDateOnly_isSome, hd]
    rw [if_pos this]
  · rcases h with h | ⟨c, hc⟩
    · exact absurd h hd
    · obtain ⟨h1, h2, h3, _⟩ := timeParseRFC3339_some s c hc
      refine ⟨?_, h1⟩
      rw [parseDate, if_neg (isDigit_head_of_isCalendarDate s h1)]
      have : ¬ ((goTime loc now).parseDateOnly s = true) := by
        show ¬ ((timeParseDateOnly s).isSome = true)
        rw [timeParseDateOnly_isSome]
        exact hd
      rw [if_neg this]
      have hr : (goTime loc now).parseRFC3339 s = some ⟨s.data.take 10⟩ := by
        show (timeParseRFC3339 s).map _ = _
        rw [hc, Option.map_some', civilFromDays_daysFromCivil c h3, h2]
      simp only [hr]


theorem isAlphanum_of_isDigit (c : Char) (h : isDigit c = true) : c.isAlphanum = true := by
  rw [isDigit_iff] at h
  have : c.isDigit = true := by
    simp only [Char.isDigit, Bool.and_eq_true, decide_eq_true_eq, UInt32.le_def]
    exact ⟨h.1, h.2⟩
  simp [Char.isAlphanum, this]

theorem QueryEscape_isCalendarDate (s : String) (h : isCalendarDate s = true) :
    QueryEscape s = s := by
  have hl := isCalendarDate_length s h
  obtain ⟨l⟩ := s
  match l, hl with
  | [y0, y1, y2, y3, a, m0, m1, b, d0, d1], _ =>
    obtain ⟨hy0, hy1, hy2, hy3, rfl, hm0, hm1, rfl, hd0, hd1, _⟩ :=
      (isCalendarDate_mk _ _ _ _ _ _ _ _ _ _).1 h
    simp [QueryEscape, isAlphanum_of_isDigit, hy0, hy1, hy2, hy3, hm0, hm1, hd0, hd1]

theorem relative_data (N : String) :
    ("-" ++ N ++ "d").data.length > 1 ∧ ("-" ++ N ++ "d").data.head? = some '-' ∧
      ("-" ++ N ++ "d").data.getLast? = some 'd' ∧
      (("-" ++ N ++ "d").data.drop 1).dropLast = N.data := by
  have e : ("-" ++ N ++ "d").data = '-' :: (N.data ++ ['d']) := by
    simp only [String.data_append]
    rfl
  rw [e]
  refine ⟨by simp, rfl, ?_, ?_⟩
  · have e2 : '-' :: (N.data ++ ['d']) = ('-' :: N.data) ++ ['d'] := rfl
    rw [e2, List.getLast?_concat]
  · simp

set_option maxRecDepth 100000 in
/-- C17, as written, fails. The date comes from `time.Now().AddDate(0, 0, -N)`,
which rebuilds the wall clock in the local zone: in Santiago at 00:30 on 10
September 2026, `-4d` gives 5 September, since the clocks skip 00:30 on the 6th.
And the count of days is kept in an `int`: the digits of 2^64 leave 0 in it, so
that `parseDate` returns the current date. -/
theorem C17_relative_date_counterexample :
    (localDate santiago santiagoNow = ⟨2026, 9, 10⟩ ∧
      civilFromDays (daysFromCivil ⟨2026, 9, 10⟩ - decimalValue "4".data) = ⟨2026, 9, 6⟩ ∧
      parseDate (goTime santiago santiagoNow) ("-" ++ "4" ++ "d") = .ok "2026-09-05") ∧
    ((∀ c ∈ "18446744073709551616".data, isDigit c = true) ∧
      decimalValue "18446744073709551616".data = 2 ^ 64 ∧
      localDate utcLoc sampleNow = ⟨2026, 11, 4⟩ ∧
      parseDate (goTime utcLoc sampleNow) ("-" ++ "18446744073709551616" ++ "d") =
        .ok "2026-11-04" ∧
      civilFromDays (daysFromCivil ⟨2026, 11, 4⟩ - decimalValue "18446744073709551616".data) ≠
        ⟨2026, 11, 4⟩) :=
  ⟨⟨by decide, by decide, rfl⟩, ⟨by decide, by decide, by decide, rfl, by decide⟩⟩

/-- C17, amended: for every string `N` of decimal digits, when the wall clock of
the current time lies in the years 0000 to 9999, the day `N` days before the
current date is not before 0000-01-01, and the clocks of the local zone show
the current time of day on that day, with one offset of at most a day (no
change of the clocks skips that wall-clock time or lies within that offset of
it), `parseDate("-" + N + "d")` succeeds and returns, in the form YYYY-MM-DD,
the valid date whose day number is `N` less than that of the current date. -/
theorem C17_relative_date (loc : Location) (now : Int) (N : String)
    (hnow : -62167219200 ≤ wallSeconds loc now ∧ wallSeconds loc now < 253402300800)
    (hdigits : ∀ c ∈ N.data, isDigit c = true)
    (hrange : daysFromCivil ⟨0, 1, 1⟩ ≤ daysFromCivil (localDate loc now) - decimalValue N.data)
    (hsteady : steadyAt loc (wallSeconds loc now - 86400 * decimalValue N.data) = true) :
    parseDate (goTime loc now) ("-" ++ N ++ "d") =
        .ok (formatDate
          (civilFromDays (daysFromCivil (localDate loc now) - decimalValue N.data))) ∧
      isCalendarDate (formatDate
        (civilFromDays (daysFromCivil (localDate loc now) - decimalValue N.data))) = true ∧
      (civilFromDays (daysFromCivil (localDate loc now) - decimalValue N.data)).valid = true ∧
      daysFromCivil (civilFromDays (daysFromCivil (localDate loc now) - decimalValue N.data)) =
        daysFromCivil (localDate loc now) - decimalValue N.data := by
  obtain ⟨h1, h2, h3, h4⟩ := relative_data N
  have := parseDate_relative loc now ("-" ++ N ++ "d") hnow ⟨h1, h2, h3⟩
    (by rw [h4]; exact hdigits) (by rw [h4]; exact hrange) (by rw [h4]; exact hsteady)
  rw [h4] at this
  exact ⟨this.1, this.2, civilFromDays_valid _, daysFromCivil_civilFromDays _⟩

set_option maxRecDepth 100000 in
/-- C17 at the count 7 at noon of 4 November 2026 in UTC, and at the count 3 at
00:30 of 10 September 2026 in Santiago: the results are 28 October 2026 and 7
September 2026. -/
theorem C17_relative_date_witness :
    (localDate utcLoc sampleNow = ⟨2026, 11, 4⟩ ∧
      parseDate (goTime utcLoc sampleNow) ("-" ++ "7" ++ "d") = .ok "2026-10-28") ∧
    (localDate santiago santiagoNow = ⟨2026, 9, 10⟩ ∧
      parseDate (goTime santiago santiagoNow) ("-" ++ "3" ++ "d") = .ok "2026-09-07") :=
  ⟨⟨by decide,
      (C17_relative_date utcLoc sampleNow "7" (by decide) (by decide) (by decide)
        (by decide)).1.trans rfl⟩,
    ⟨by decide,
      (C17_relative_date santiago santiagoNow "3" (by decide) (by decide) (by decide)
        (by decide)).1.trans rfl⟩⟩

set_option maxRecDepth 100000 in
/-- Beyond the range of C17 the day count wraps inside `time.Date` too: for the
count 2^63 - 1 the result is the day after the current date. -/
theorem parseDate_day_count_wraps :
    parseDate (goTime utcLoc sampleNow) "-9223372036854775807d" = .ok "2026-11-05" := by
  rfl

set_option maxRecDepth 100000 in
/-- C18, as written, fails: the datetime that RFC 3339 gives as its example of a leap
second, and a datetime written with the lower-case `t` and `z` that RFC 3339
admits, are rejected. -/
theorem C18_leap_second_counterexample :
    (rfc3339DateTime 60 true "1990-12-31T23:59:60Z" = true ∧
        parseDate (goTime utcLoc sampleNow) "1990-12-31T23:59:60Z" =
          .error "unsupported date format: 1990-12-31T23:59:60Z (use YYYY-MM-DD or -Nd)") ∧
      (rfc3339DateTime 60 true "2024-01-15t10:30:00z" = true ∧
        parseDate (goTime utcLoc sampleNow) "2024-01-15t10:30:00z" =
          .error "unsupported date format: 2024-01-15t10:30:00z (use YYYY-MM-DD or -Nd)") :=
  ⟨⟨by decide, rfl⟩, ⟨by decide, rfl⟩⟩

/-- C18, amended: for every string `s` that is a valid calendar date in the form
YYYY-MM-DD, or a valid RFC 3339 datetime written with the upper-case `T` and `Z`
and a second of at most 59, `parseDate(s)` succeeds and returns the first ten
characters of `s`, the date as written, whatever the offset and the current
date. -/
theorem C18_absolute_date (loc : Location) (now : Int) (s : String)
    (h : isCalendarDate s = true ∨ rfc3339DateTime 59 false s = true) :
    parseDate (goTime loc now) s = .ok ⟨s.data.take 10⟩ ∧
      isCalendarDate ⟨s.data.take 10⟩ = true := by
  apply parseDate_absolute
  rcases h with h | h
  · exact Or.inl h
  · exact Or.inr (timeParseRFC3339_of_rfc3339DateTime s h)

/-- C18 on a datetime whose offset puts it on the next day in UTC, and on a date. -/
theorem C18_absolute_date_witness :
    (rfc3339DateTime 59 false "2024-01-15T23:30:00.5-05:00" = true ∧
        parseDate (goTime utcLoc sampleNow) "2024-01-15T23:30:00.5-05:00" = .ok "2024-01-15") ∧
      (isCalendarDate "2024-01-15" = true ∧
        parseDate (goTime utcLoc sampleNow) "2024-01-15" = .ok "2024-01-15") :=
  ⟨⟨by decide,
      (C18_absolute_date utcLoc sampleNow "2024-01-15T23:30:00.5-05:00"
        (Or.inr (by decide))).1⟩,
    ⟨by decide, (C18_absolute_date utcLoc sampleNow "2024-01-15" (Or.inl (by decide))).1⟩⟩

set_option maxRecDepth 100000 in
/-- C19, as written, fails: a datetime with an hour of one digit is no RFC 3339
datetime, and `parseDate` accepts it, as `time.Parse` does; and `-d`, which has
no digit, is accepted as a count of 0 days. -/
theorem C19_lenient_counterexample :
    (isCalendarDate "2024-01-15T1:30:00Z" = false ∧
        rfc3339DateTime 60 true "2024-01-15T1:30:00Z" = false ∧
        isRelativeDate "2024-01-15T1:30:00Z" = false ∧
        parseDate (goTime utcLoc sampleNow) "2024-01-15T1:30:00Z" = .ok "2024-01-15") ∧
      (isCalendarDate "-d" = false ∧ rfc3339DateTime 60 true "-d" = false ∧
        isRelativeDate "-d" = false ∧
        parseDate (goTime utcLoc sampleNow) "-d" = .ok "2026-11-04") :=
  ⟨⟨by decide, by decide, by decide, rfl⟩, ⟨by decide, by decide, by decide, rfl⟩⟩

/-- C19, amended: `parseDate` fails, with one of its two messages, for every
string other than `-d` that is no valid calendar date in the form YYYY-MM-DD,
that `time.Parse` does not accept under the layout RFC3339, and that is not of the
form `-Nd` with `N` a non-empty sequence of decimal digits. -/
theorem C19_date_rejection (loc : Location) (now : Int) (s : String)
    (hdate : isCalendarDate s = false)
    (hrfc : timeParseRFC3339 s = none) (hrel : isRelativeDate s = false) (hd : s ≠ "-d") :
    parseDate (goTime loc now) s = .error ("invalid relative date: " ++ s) ∨
      parseDate (goTime loc now) s =
        .error ("unsupported date format: " ++ s ++ " (use YYYY-MM-DD or -Nd)") := by
  by_cases hshape : s.data.length > 1 ∧ s.data.head? = some '-' ∧ s.data.getLast? = some 'd'
  · left
    have hne : (s.data.drop 1).dropLast ≠ [] := by
      intro he
      apply hd
      obtain ⟨l⟩ := s
      obtain ⟨h1, h2, h3⟩ := hshape
      match l, h1, h2, h3, he with
      | [a, b], _, h2, h3, _ =>
        simp only [List.head?_cons, Option.some.injEq] at h2
        simp only [List.getLast?_cons_cons, List.getLast?_singleton, Option.some.injEq] at h3
        rw [h2, h3]
      | a :: b :: c :: r, _, _, _, he => simp at he
    have hnd : ¬ (∀ c ∈ (s.data.drop 1).dropLast, isDigit c = true) := by
      intro hall
      have : isRelativeDate s = true := by
        simp only [isRelativeDate, Bool.and_eq_true, decide_eq_true_eq, List.all_eq_true]
        exact ⟨⟨⟨hshape.2.1, hshape.2.2, hshape.1⟩, hne⟩, hall⟩
      rw [hrel] at this
      exact absurd this (by decide)
    rw [parseDate, if_pos hshape]
    simp only [relativeDays_none _ 0 hnd]
  · right
    rw [parseDate, if_neg hshape]
    have h1 : ¬ ((goTime loc now).parseDateOnly s = true) := by
      show ¬ ((timeParseDateOnly s).isSome = true)
      rw [timeParseDateOnly_isSome, hdate]
      decide
    have h2 : (goTime loc now).parseRFC3339 s = none := by
      show (timeParseRFC3339 s).map _ = _
      rw [hrfc]
      rfl
    rw [if_neg h1]
    simp only [h2]

/-- C19 on the two examples of the claim. -/
theorem C19_date_rejection_witness :
    (parseDate (goTime utcLoc sampleNow) "invalid" = .error ("invalid relative date: " ++ "invalid") ∨
        parseDate (goTime utcLoc sampleNow) "invalid" =
          .error ("unsupported date format: " ++ "invalid" ++ " (use YYYY-MM-DD or -Nd)")) ∧
      (parseDate (goTime utcLoc sampleNow) "-abcd" = .error ("invalid relative date: " ++ "-abcd") ∨
        parseDate (goTime utcLoc sampleNow) "-abcd" =
          .error ("unsupported date format: " ++ "-abcd" ++ " (use YYYY-MM-DD or -Nd)")) :=
  ⟨C19_date_rejection utcLoc sampleNow "invalid" (by decide) (by decide) (by decide)
      (by decide),
    C19_date_rejection utcLoc sampleNow "-abcd" (by decide) (by decide) (by decide)
      (by decide)⟩

set_option maxRecDepth 100000 in
/-- C20 at its failing input. At noon of 4 November 2026 in UTC the input
`-999999d` makes `parseDate` succeed with `-0712-12-08`: the day 999999 days
back lies in the year -712, which `Format` prints with a sign. The result has
eleven characters, is no date in the form YYYY-MM-DD, and goes into the query
of `ListTransactions` as the filter on the value date. -/
theorem C20_negative_year_not_normalised :
    parseDate (goTime utcLoc sampleNow) "-999999d" = .ok "-0712-12-08" ∧
      isCalendarDate "-0712-12-08" = false ∧ "-0712-12-08".length = 11 ∧
      transactionsPath (goTime utcLoc sampleNow) "acc"
          { Limit := 0, Since := "-999999d", Until := "" } =
        .ok "/accounts/acc/transactions?filter%5BvalueDate%5D%5Bgte%5D=-0712-12-08&limit=100" :=
  ⟨rfl, by decide, by decide, rfl⟩

/-- The form of the results of `parseDate` inside the range of its relative
branch: when the wall clock of the current time lies in the years 0000 to 9999
and, for an input that begins with a hyphen, the count it writes does not lead
before 0000-01-01 and the clocks of the local zone show the current time of day
on the day it leads to, every result is a string of ten characters in the form
YYYY-MM-DD that names a valid calendar date, and it goes into the query
unchanged. -/
theorem parseDate_output_format (loc : Location) (now : Int) (s r : String)
    (hnow : -62167219200 ≤ wallSeconds loc now ∧ wallSeconds loc now < 253402300800)
    (hrange : s.data.head? = some '-' →
      daysFromCivil ⟨0, 1, 1⟩ ≤
          daysFromCivil (localDate loc now) - decimalValue ((s.data.drop 1).dropLast) ∧
        steadyAt loc
          (wallSeconds loc now - 86400 * decimalValue ((s.data.drop 1).dropLast)) = true)
    (hok : parseDate (goTime loc now) s = .ok r) :
    isCalendarDate r = true ∧ r.data.length = 10 ∧ QueryEscape r = r := by
  have key : isCalendarDate r = true := by
    by_cases hshape : s.data.length > 1 ∧ s.data.head? = some '-' ∧ s.data.getLast? = some 'd'
    · by_cases hall : ∀ c ∈ (s.data.drop 1).dropLast, isDigit c = true
      · have := parseDate_relative loc now s hnow hshape hall (hrange hshape.2.1).1
          (hrange hshape.2.1).2
        rw [this.1] at hok
        simp only [Except.ok.injEq] at hok
        rw [← hok]
        exact this.2
      · rw [parseDate, if_pos hshape] at hok
        simp only [relativeDays_none _ 0 hall] at hok
        exact absurd hok (by simp)
    · by_cases hd : isCalendarDate s = true
      · have := parseDate_absolute loc now s (Or.inl hd)
        rw [this.1] at hok
        simp only [Except.ok.injEq] at hok
        rw [← hok]
        exact this.2
      · cases hc : timeParseRFC3339 s with
        | some c =>
          have := parseDate_absolute loc now s (Or.inr ⟨c, hc⟩)
          rw [this.1] at hok
          simp only [Except.ok.injEq] at hok
          rw [← hok]
          exact this.2
        | none =>
          rw [parseDate, if_neg hshape] at hok
          have h1 : ¬ ((goTime loc now).parseDateOnly s = true) := by
            show ¬ ((timeParseDateOnly s).isSome = true)
            rw [timeParseDateOnly_isSome]
            exact hd
          have h2 : (goTime loc now).parseRFC3339 s = none := by
            show (timeParseRFC3339 s).map _ = _
            rw [hc]
            rfl
          rw [if_neg h1] at hok
          simp only [h2] at hok
          exact absurd hok (by simp)
  exact ⟨key, isCalendarDate_length r key, QueryEscape_isCalendarDate r key⟩

set_option maxRecDepth 100000 in
/-- The form of the results on a relative and on an absolute input. -/
theorem parseDate_output_format_example :
    (parseDate (goTime utcLoc sampleNow) "-30d" = .ok "2026-10-05" ∧
        isCalendarDate "2026-10-05" = true) ∧
      (parseDate (goTime utcLoc sampleNow) "2024-01-15T10:30:00Z" = .ok "2024-01-15" ∧
        isCalendarDate "2024-01-15" = true) :=
  ⟨⟨rfl, (parseDate_output_format utcLoc sampleNow "-30d" "2026-10-05" (by decide)
      (fun _ => ⟨by decide, by decide⟩) rfl).1⟩,
    ⟨rfl, (parseDate_output_format utcLoc sampleNow "2024-01-15T10:30:00Z" "2024-01-15"
      (by decide) (fun h => absurd h (by decide)) rfl).1⟩⟩

/-! ### Synchronization polling -/

theorem waitForSyncLoop_terminal (env : SyncEnv) (id : String) (s : Synchronization) :
    ∀ fuel n, (waitForSyncLoop env id fuel n).result = some (.ok s) → isTerminal s = true := by
  intro fuel
  induction fuel with
  | zero => intro n h; simp [waitForSyncLoop] at h
  | succ fuel ih =>
    intro n h
    rw [waitForSyncLoop] at h
    cases hg : GetSync env n id with
    | error e => simp [hg] at h
    | ok sync =>
      simp only [hg] at h
      by_cases ht : sync.Status = "success" ∨ sync.Status = "error"
      · rw [if_pos ht] at h
        simp only [Option.some.injEq, CallResult.ok.injEq] at h
        subst h
        simp [isTerminal, ht]
      · rw [if_neg ht] at h
        cases hd : env.done n with
        | some err => simp [hd] at h
        | none =>
          simp only [hd] at h
          exact ih (n + 1) h

theorem waitForSyncLoop_rounds (env : SyncEnv) (id : String) :
    ∀ k fuel n, k < fuel → (∀ i, i < k → stillPolling env id (n + i) = true) →
      waitForSyncLoop env id fuel n =
        { result := (waitForSyncLoop env id (fuel - k) (n + k)).result,
          requests := List.replicate k ("/synchronizations/" ++ id) ++
            (waitForSyncLoop env id (fuel - k) (n + k)).requests } := by
  intro k
  induction k with
  | zero => intro fuel n _ _; simp
  | succ k ih =>
    intro fuel n hk hpoll
    obtain ⟨f, rfl⟩ : ∃ f, fuel = f + 1 := ⟨fuel - 1, by omega⟩
    have h0 := hpoll 0 (by omega)
    rw [Nat.add_zero] at h0
    rw [waitForSyncLoop]
    unfold stillPolling at h0
    cases hg : GetSync env n id with
    | error e => simp [hg] at h0
    | ok sync =>
      simp only [hg, Bool.and_eq_true, Bool.not_eq_true', Option.isNone_iff_eq_none] at h0
      have ht : ¬ (sync.Status = "success" ∨ sync.Status = "error") := by
        have := h0.1
        simpa [isTerminal] using this
      simp only [if_neg ht, h0.2]
      have := ih f (n + 1) (by omega) (fun i hi => by
        have := hpoll (i + 1) (by omega)
        rwa [show n + (i + 1) = n + 1 + i by omega] at this)
      rw [this]
      have e1 : f + 1 - (k + 1) = f - k := by omega
      have e2 : n + 1 + k = n + (k + 1) := by omega
      rw [e1, e2]
      simp [List.replicate_succ]

/-- C21. Synchronization polling: when the first `k` rounds of a call go on
polling, then (1) if the next fetch returns a synchronization whose status is
`success` or `error`, `WaitForSync` returns that synchronization, the first
terminal one, after `k + 1` fetches and no more; (2) if the next fetch returns a
synchronization that is not terminal and the caller cancels during the wait,
`WaitForSync` returns the cancellation error after `k + 1` fetches and no more;
and (3) whatever the fetches return, a synchronization that `WaitForSync` returns
has a terminal status. -/
theorem C21_wait_for_sync (env : SyncEnv) (id : String) (fuel k : Nat) (hfuel : k < fuel)
    (hpoll : ∀ i, i < k → stillPolling env id i = true) :
    (∀ s, GetSync env k id = .ok s → isTerminal s = true →
      WaitForSync env fuel id =
        { result := some (.ok s),
          requests := List.replicate (k + 1) ("/synchronizations/" ++ id) }) ∧
    (∀ s err, GetSync env k id = .ok s → isTerminal s = false → env.done k = some err →
      WaitForSync env fuel id =
        { result := some (.error err),
          requests := List.replicate (k + 1) ("/synchronizations/" ++ id) }) ∧
    (∀ s, (WaitForSync env fuel id).result = some (.ok s) → isTerminal s = true) := by
  have hr := waitForSyncLoop_rounds env id k fuel 0 hfuel
    (fun i hi => by rw [Nat.zero_add]; exact hpoll i hi)
  rw [Nat.zero_add] at hr
  obtain ⟨f, hf⟩ : ∃ f, fuel - k = f + 1 := ⟨fuel - k - 1, by omega⟩
  rw [hf] at hr
  refine ⟨?_, ?_, ?_⟩
  · intro s hg ht
    have ht2 : s.Status = "success" ∨ s.Status = "error" := by simpa [isTerminal] using ht
    rw [WaitForSync, hr, waitForSyncLoop]
    simp only [hg, if_pos ht2]
    simp [List.replicate_succ']
  · intro s err hg ht hd
    have ht2 : ¬ (s.Status = "success" ∨ s.Status = "error") := by simpa [isTerminal] using ht
    rw [WaitForSync, hr, waitForSyncLoop]
    simp only [hg, if_neg ht2, hd]
    simp [List.replicate_succ']
  · intro s h
    exact waitForSyncLoop_terminal env id s fuel 0 h

/-- C21 on a server that reports `pending`, `running` and then `success`, and on
a caller that cancels during the second wait. -/
theorem C21_wait_for_sync_witness :
    WaitForSync pollingEnv 5 "s1" =
        { result := some (.ok { syncWithStatus "success" with ID := "s1" }),
          requests := List.replicate 3 "/synchronizations/s1" } ∧
      WaitForSync cancelledEnv 5 "s1" =
        { result := some (.error (Error.context "context canceled")),
          requests := List.replicate 2 "/synchronizations/s1" } :=
  ⟨(C21_wait_for_sync pollingEnv "s1" 5 2 (by decide) (by decide)).1
      { syncWithStatus "success" with ID := "s1" } (by rfl) (by decide),
    (C21_wait_for_sync cancelledEnv "s1" 5 1 (by decide) (by decide)).2.1
      { syncWithStatus "running" with ID := "s1" } (Error.context "context canceled") (by rfl)
      (by decide) (by rfl)⟩

/-! ### Truncate -/

/-- C23. Truncate: `maxLen <= 0` gives the empty string; a string of at most
`maxLen` runes is returned unchanged; a longer one gives a string of exactly
`maxLen` runes, the first `maxLen` runes of `s` when `maxLen <= 3` and else the
first `maxLen - 3` runes of `s` followed by `...`. Lengths are counts of runes. -/
theorem C23_truncate (s : String) (maxLen : Int) :
    (maxLen ≤ 0 → Truncate s maxLen = "") ∧
    (0 ≤ maxLen → (s.data.length : Int) ≤ maxLen → Truncate s maxLen = s) ∧
    (0 ≤ maxLen → maxLen < (s.data.length : Int) →
      ((Truncate s maxLen).data.length : Int) = maxLen ∧
      (maxLen ≤ 3 → (Truncate s maxLen).data = s.data.take maxLen.toNat) ∧
      (3 < maxLen →
        (Truncate s maxLen).data = s.data.take (maxLen - 3).toNat ++ "...".data)) := by
  refine ⟨?_, ?_, ?_⟩
  · intro h
    rw [Truncate, if_pos h]
  · intro h0 hlen
    by_cases hz : maxLen ≤ 0
    · have : s.data.length = 0 := by omega
      have hs : s = "" := by
        obtain ⟨l⟩ := s
        simp only [List.length_eq_zero] at this
        subst this
        rfl
      rw [Truncate, if_pos hz, hs]
    · rw [Truncate, if_neg hz, if_pos hlen]
  · intro h0 hlen
    by_cases hz : maxLen ≤ 0
    · have hm : maxLen = 0 := by omega
      subst hm
      rw [Truncate, if_pos (le_refl 0)]
      exact ⟨rfl, fun _ => rfl, fun h => absurd h (by decide)⟩
    · have hn : ¬ ((s.data.length : Int) ≤ maxLen) := by omega
      by_cases h3 : maxLen ≤ 3
      · rw [Truncate, if_neg hz, if_neg hn]
        simp only [if_pos h3]
        refine ⟨?_, fun _ => trivial, fun h => by omega⟩
        rw [List.length_take]
        omega
      · rw [Truncate, if_neg hz, if_neg hn]
        simp only [if_neg h3, String.data_append]
        refine ⟨?_, fun h => absurd h h3, fun _ => trivial⟩
        rw [List.length_append, List.length_take]
        have h3' : "...".data.length = 3 := rfl
        rw [h3']
        omega

/-- C23 on the example of the specification and on a short limit. -/
theorem C23_truncate_witness :
    Truncate "héllo wörld" 8 = "héllo..." ∧ Truncate "hello" 2 = "he" ∧
      Truncate "hello" 5 = "hello" ∧ Truncate "hello" (-1) = "" :=
  ⟨String.ext ((((C23_truncate "héllo wörld" 8).2.2 (by decide) (by decide)).2.2
      (by decide)).trans (by decide)),
    String.ext ((((C23_truncate "hello" 2).2.2 (by decide) (by decide)).2.1
      (by decide)).trans (by decide)),
    (C23_truncate "hello" 5).2.1 (by decide) (by decide),
    (C23_truncate "hello" (-1)).1 (by decide)⟩

/-! ### Cache hits of the token manager -/

/-- C30. Cache hits ignore the secret: when the cache holds for `clientID` a
token that is usable at `now`, `GetAccessToken` returns that token for every
client secret and leaves the state as it is, the log of exchanges included, so
two calls that differ in the secret return the same token; and a call that
ends in an error, for whatever client, leaves the whole cache as it was. -/
theorem C30_cache_hit_ignores_secret (ep : TokenEndpoint) (st : AuthState)
    (now fetchedAt : Int) (clientID : String) (cached : Token)
    (hcached : st.tokenCache clientID = some cached) (husable : cached.IsExpired now = false) :
    (∀ secret, GetAccessToken ep st now fetchedAt clientID secret = (.ok cached, st)) ∧
    (∀ secret1 secret2,
      (GetAccessToken ep st now fetchedAt clientID secret1).1 =
        (GetAccessToken ep (GetAccessToken ep st now fetchedAt clientID secret1).2 now fetchedAt
          clientID secret2).1) ∧
    (∀ other secret e,
      (GetAccessToken ep st now fetchedAt other secret).1 = .error e →
      (GetAccessToken ep st now fetchedAt other secret).2.tokenCache = st.tokenCache) := by
  have h1 : ∀ secret, GetAccessToken ep st now fetchedAt clientID secret = (.ok cached, st) := by
    intro secret
    simp [GetAccessToken, hcached, husable]
  refine ⟨h1, ?_, ?_⟩
  · intro s1 s2
    rw [h1 s1, h1 s2]
  · intro other secret e h
    unfold GetAccessToken at h ⊢
    cases hc : st.tokenCache other with
    | none =>
      simp only [hc] at h ⊢
      cases hf : fetchToken ep st.exchanges.length fetchedAt other secret with
      | error e2 => rfl
      | ok t => simp [hf] at h
    | some tok =>
      simp only [hc] at h ⊢
      by_cases hx : (!tok.IsExpired now) = true
      · simp [hx] at h
      · simp only [hx] at h ⊢
        cases hf : fetchToken ep st.exchanges.length fetchedAt other secret with
        | error e2 => rfl
        | ok t => simp [hf] at h

/-- C30 on a cache that holds the sample token: a right and a wrong secret give
the same token and no exchange is made. -/
theorem C30_cache_hit_ignores_secret_witness :
    GetAccessToken sampleEndpoint cachedAuthState 0 0 "id" "secret" =
        (.ok sampleToken, cachedAuthState) ∧
      GetAccessToken sampleEndpoint cachedAuthState 0 0 "id" "wrong" =
        (.ok sampleToken, cachedAuthState) :=
  ⟨(C30_cache_hit_ignores_secret sampleEndpoint cachedAuthState 0 0 "id" sampleToken (by rfl)
      (by decide)).1 "secret",
    (C30_cache_hit_ignores_secret sampleEndpoint cachedAuthState 0 0 "id" sampleToken (by rfl)
      (by decide)).1 "wrong"⟩

/-! ### The backend override -/

theorem ToLower_eq_empty (caseTable : Char → Char) (s : String) :
    ToLower caseTable s = "" ↔ s = "" := by
  obtain ⟨l⟩ := s
  cases l with
  | nil => exact ⟨fun _ => rfl, fun _ => rfl⟩
  | cons c cs =>
    constructor
    · intro h
      have := congrArg String.data h
      simp [ToLower] at this
    · intro h
      have := congrArg String.data h
      simp at this

theorem resolveKeyringBackend_eq (caseTable : Char → Char) (env : String)
    (cfg : Except String File) :
    resolveKeyringBackend caseTable env cfg =
      ToLower caseTable (TrimSpace (backendOverride env cfg)) := by
  have hauto : ToLower caseTable (TrimSpace "auto") = "auto" := rfl
  unfold resolveKeyringBackend backendOverride
  by_cases he : env ≠ ""
  · rw [if_pos he, if_pos he]
  · rw [if_neg he, if_neg he]
    cases cfg with
    | error e => exact hauto.symm
    | ok c =>
      by_cases hc : c.KeyringBackend ≠ ""
      · simp only [if_pos hc]
      · simp only [if_neg hc]
        exact hauto.symm

/-- C22, as written, fails: an override of blanks only is none of `auto`,
`keychain` and `file`, and the backend selection succeeds on it, with the
automatic choice, whatever the persisted configuration holds. -/
theorem C22_blank_override_counterexample :
    backendOverride "  " (.ok ⟨"", "bogus"⟩) = "  " ∧
      isBackendName noCaseTable "  " = false ∧
      selectBackends noCaseTable "  " (.ok ⟨"", "bogus"⟩) = .ok [] :=
  ⟨rfl, by decide, rfl⟩

/-- C22, amended: the override is the environment variable if it is set to a
non-empty text, else the persisted value if the configuration can be read and
holds one, else `auto`; the backend selection works on the override trimmed and
lower-cased, succeeds if and only if that is one of `auto`, `keychain` and
`file` or the override is empty after trimming, and fails with
`errInvalidBackend` on every other override. -/
theorem C22_backend_override (caseTable : Char → Char) (env : String)
    (cfg : Except String File) :
    resolveKeyringBackend caseTable env cfg =
        ToLower caseTable (TrimSpace (backendOverride env cfg)) ∧
      ((∃ backends, selectBackends caseTable env cfg = .ok backends) ↔
        (isBackendName caseTable (backendOverride env cfg) = true ∨
          TrimSpace (backendOverride env cfg) = "")) ∧
      (¬ (isBackendName caseTable (backendOverride env cfg) = true ∨
          TrimSpace (backendOverride env cfg) = "") →
        selectBackends caseTable env cfg =
          .error ⟨ToLower caseTable (TrimSpace (backendOverride env cfg))⟩) := by
  have hr := resolveKeyringBackend_eq caseTable env cfg
  refine ⟨hr, ?_, ?_⟩
  · unfold selectBackends allowedBackends isBackendName
    rw [hr, ← ToLower_eq_empty caseTable (TrimSpace (backendOverride env cfg))]
    generalize ToLower caseTable (TrimSpace (backendOverride env cfg)) = b
    simp only [keyringBackendAuto, decide_eq_true_eq, List.mem_cons, List.mem_singleton,
      List.not_mem_nil, or_false]
    by_cases h1 : b = "" ∨ b = "auto"
    · rw [if_pos h1]
      constructor
      · intro _
        rcases h1 with h | h
        · exact Or.inr h
        · exact Or.inl (Or.inl h)
      · intro _
        exact ⟨_, rfl⟩
    · rw [if_neg h1]
      by_cases h2 : b = "keychain"
      · rw [if_pos h2]
        exact ⟨fun _ => Or.inl (Or.inr (Or.inl h2)), fun _ => ⟨_, rfl⟩⟩
      · rw [if_neg h2]
        by_cases h3 : b = "file"
        · rw [if_pos h3]
          exact ⟨fun _ => Or.inl (Or.inr (Or.inr h3)), fun _ => ⟨_, rfl⟩⟩
        · rw [if_neg h3]
          constructor
          · rintro ⟨bs, h⟩
            simp at h
          · intro h
            rcases h with (h | h | h) | h
            · exact absurd (Or.inr h) h1
            · exact absurd h h2
            · exact absurd h h3
            · exact absurd (Or.inl h) h1
  · intro hn
    unfold selectBackends allowedBackends
    unfold isBackendName at hn
    rw [hr]
    rw [← ToLower_eq_empty caseTable (TrimSpace (backendOverride env cfg))] at hn
    generalize ToLower caseTable (TrimSpace (backendOverride env cfg)) = b at hn
    simp only [keyringBackendAuto, decide_eq_true_eq, List.mem_cons, List.mem_singleton,
      List.not_mem_nil, or_false, not_or] at hn
    rw [if_neg (by rintro (h | h); exact hn.2 h; exact hn.1.1 h), if_neg hn.1.2.1,
      if_neg hn.1.2.2]

/-- C22 on three settings: the environment variable wins over the
configuration, the configuration is used without it, and an unknown name is
refused. -/
theorem C22_backend_override_witness :
    selectBackends noCaseTable " KeyChain " (.ok ⟨"", "file"⟩) =
        .ok [BackendType.KeychainBackend] ∧
      selectBackends noCaseTable "" (.ok ⟨"", "FILE"⟩) = .ok [BackendType.FileBackend] ∧
      selectBackends noCaseTable "" (.error "unreadable") = .ok [] ∧
      selectBackends noCaseTable "kwallet" (.ok ⟨"", "file"⟩) = .error ⟨"kwallet"⟩ :=
  ⟨rfl, rfl, rfl,
    (C22_backend_override noCaseTable "kwallet" (.ok ⟨"", "file"⟩)).2.2 (by decide)⟩

/-! ### The allow-list of commands -/

theorem mapSet_keys (m : List (String × Bool)) (k key : String) (v : Bool) :
    key ∈ (mapSet m k v).map Prod.fst ↔ key = k ∨ key ∈ m.map Prod.fst := by
  simp only [mapSet, List.map_cons, List.mem_cons]
  constructor
  · rintro (h | h)
    · exact Or.inl h
    · obtain ⟨kv, hkv, rfl⟩ := List.mem_map.1 h
      exact Or.inr (List.mem_map.2 ⟨kv, (List.mem_filter.1 hkv).1, rfl⟩)
  · rintro (h | h)
    · exact Or.inl h
    · by_cases hk : key = k
      · exact Or.inl hk
      · obtain ⟨kv, hkv, rfl⟩ := List.mem_map.1 h
        exact Or.inr (List.mem_map.2 ⟨kv, List.mem_filter.2 ⟨hkv, by simpa using hk⟩, rfl⟩)

theorem mapSet_nodup (m : List (String × Bool)) (k : String) (v : Bool)
    (h : (m.map Prod.fst).Nodup) : ((mapSet m k v).map Prod.fst).Nodup := by
  simp only [mapSet, List.map_cons, List.nodup_cons]
  constructor
  · intro hmem
    obtain ⟨kv, hkv, hk⟩ := List.mem_map.1 hmem
    have := (List.mem_filter.1 hkv).2
    simp only [ne_eq, decide_not, Bool.not_eq_true', decide_eq_false_iff_not] at this
    exact this hk
  · exact (List.Nodup.sublist ((List.filter_sublist m).map Prod.fst) h)

theorem mapSet_true (m : List (String × Bool)) (k : String)
    (h : ∀ kv ∈ m, kv.2 = true) : ∀ kv ∈ mapSet m k true, kv.2 = true := by
  intro kv hkv
  simp only [mapSet, List.mem_cons, List.mem_filter] at hkv
  rcases hkv with h1 | h1
  · rw [h1]
  · exact h kv h1.1

/-- What the loop of `parseEnabledCommands` makes of a map whose values are all
true: the keys it had and the entries of the parts, each once, all true. -/
theorem parseEnabledCommands_loop (caseTable : Char → Char) (parts : List String) :
    ∀ m : List (String × Bool), (∀ kv ∈ m, kv.2 = true) → (m.map Prod.fst).Nodup →
      (∀ kv ∈ parts.foldl
          (fun out part =>
            if TrimSpace (ToLower caseTable part) = "" then out
            else mapSet out (TrimSpace (ToLower caseTable part)) true) m, kv.2 = true) ∧
        ((parts.foldl
          (fun out part =>
            if TrimSpace (ToLower caseTable part) = "" then out
            else mapSet out (TrimSpace (ToLower caseTable part)) true) m).map Prod.fst).Nodup ∧
        ∀ key, key ∈ (parts.foldl
          (fun out part =>
            if TrimSpace (ToLower caseTable part) = "" then out
            else mapSet out (TrimSpace (ToLower caseTable part)) true) m).map Prod.fst ↔
          key ∈ m.map Prod.fst ∨
            key ∈ (parts.map fun part => TrimSpace (ToLower caseTable part)).filter
              fun part => part ≠ "" := by
  induction parts with
  | nil =>
    intro m h1 h2
    exact ⟨h1, h2, fun key => by simp⟩
  | cons p ps ih =>
    intro m h1 h2
    simp only [List.foldl_cons]
    by_cases hp : TrimSpace (ToLower caseTable p) = ""
    · rw [if_pos hp]
      obtain ⟨a, b, c⟩ := ih m h1 h2
      refine ⟨a, b, fun key => ?_⟩
      rw [c key]
      simp [hp]
    · rw [if_neg hp]
      obtain ⟨a, b, c⟩ := ih _ (mapSet_true m _ h1) (mapSet_nodup m _ true h2)
      refine ⟨a, b, fun key => ?_⟩
      rw [c key, mapSet_keys]
      simp only [List.map_cons, List.filter_cons, hp, ne_eq, not_false_eq_true, decide_True,
        if_true, List.mem_cons]
      tauto

theorem lookup_of_mem_keys (m : List (String × Bool)) (key : String)
    (htrue : ∀ kv ∈ m, kv.2 = true) :
    (key ∈ m.map Prod.fst → m.lookup key = some true) ∧
      (key ∉ m.map Prod.fst → m.lookup key = none) := by
  induction m with
  | nil => simp
  | cons kv rest ih =>
    obtain ⟨k, v⟩ := kv
    have hv : v = true := htrue (k, v) (List.mem_cons_self _ _)
    have ih2 := ih (fun x hx => htrue x (List.mem_cons_of_mem _ hx))
    subst hv
    by_cases hk : key = k
    · subst hk
      simp [List.lookup]
    · have hb : (key == k) = false := by simpa using hk
      simp only [List.map_cons, List.mem_cons, hk, false_or, List.lookup, hb]
      exact ih2

theorem mapGet_parseEnabledCommands (caseTable : Char → Char) (value key : String) :
    mapGet (parseEnabledCommands caseTable value) key = true ↔
      key ∈ enabledEntries caseTable value := by
  obtain ⟨a, _, c⟩ := parseEnabledCommands_loop caseTable (Split value ',') [] (by simp)
    (by simp)
  have hl := lookup_of_mem_keys _ key a
  have hc := c key
  simp only [List.map_nil, List.not_mem_nil, false_or] at hc
  unfold mapGet parseEnabledCommands enabledEntries
  by_cases hk : key ∈ (List.foldl
      (fun out part =>
        if TrimSpace (ToLower caseTable part) = "" then out
        else mapSet out (TrimSpace (ToLower caseTable part)) true) [] (Split value ',')).map
      Prod.fst
  · rw [hl.1 hk]
    simp only [Option.getD_some, true_iff]
    exact hc.1 hk
  · rw [hl.2 hk]
    simp only [Option.getD_none, Bool.false_eq_true, false_iff]
    exact fun h => hk (hc.2 h)

/-- C24. Enabled-command parsing: the keys of `parseEnabledCommands(input)` are
exactly the comma-separated parts of the input, lower-cased and trimmed, without
the empty ones; each key occurs once and maps to true, and no other key is
present. The empty string gives the empty map, and the two sample inputs give
the keys `accounts`, `transactions` and `sync`. -/
theorem C24_parse_enabled_commands (caseTable : Char → Char) (input : String) :
    (∀ key, key ∈ (parseEnabledCommands caseTable input).map Prod.fst ↔
      key ∈ enabledEntries caseTable input) ∧
    ((parseEnabledCommands caseTable input).map Prod.fst).Nodup ∧
    (∀ key, key ∈ enabledEntries caseTable input →
      (parseEnabledCommands caseTable input).lookup key = some true) ∧
    (∀ key, key ∉ enabledEntries caseTable input →
      (parseEnabledCommands caseTable input).lookup key = none) ∧
    parseEnabledCommands caseTable "" = [] ∧
    (∀ key, key ∈ (parseEnabledCommands caseTable " accounts , transactions , sync ").map
        Prod.fst ↔ key ∈ ["accounts", "transactions", "sync"]) ∧
    (∀ key, key ∈ (parseEnabledCommands caseTable "Accounts,TRANSACTIONS,Sync").map
        Prod.fst ↔ key ∈ ["accounts", "transactions", "sync"]) := by
  obtain ⟨a, b, c⟩ := parseEnabledCommands_loop caseTable (Split input ',') [] (by simp)
    (by simp)
  have hkeys : ∀ key, key ∈ (parseEnabledCommands caseTable input).map Prod.fst ↔
      key ∈ enabledEntries caseTable input := by
    intro key
    have := c key
    simp only [List.map_nil, List.not_mem_nil, false_or] at this
    exact this
  refine ⟨hkeys, b, ?_, ?_, rfl, ?_, ?_⟩
  · intro key hkey
    exact (lookup_of_mem_keys _ key a).1 ((hkeys key).2 hkey)
  · intro key hkey
    exact (lookup_of_mem_keys _ key a).2 (fun h => hkey ((hkeys key).1 h))
  · intro key
    have e : parseEnabledCommands caseTable " accounts , transactions , sync " =
        [("sync", true), ("transactions", true), ("accounts", true)] := rfl
    rw [e]
    simp only [List.map_cons, List.map_nil, List.mem_cons, List.mem_singleton,
      List.not_mem_nil, or_false]
    tauto
  · intro key
    have e : parseEnabledCommands caseTable "Accounts,TRANSACTIONS,Sync" =
        [("sync", true), ("transactions", true), ("accounts", true)] := rfl
    rw [e]
    simp only [List.map_cons, List.map_nil, List.mem_cons, List.mem_singleton,
      List.not_mem_nil, or_false]
    tauto

theorem splitChars_head (sep : Char) (l : List Char) :
    ∃ rest, splitChars sep l = l.takeWhile (fun c => c ≠ sep) :: rest := by
  induction l with
  | nil => exact ⟨[], rfl⟩
  | cons c cs ih =>
    obtain ⟨rest, hr⟩ := ih
    by_cases hc : c = sep
    · exact ⟨splitChars sep cs, by simp [splitChars, hc]⟩
    · exact ⟨rest, by simp [splitChars, hc, hr]⟩

theorem Split_head (s : String) :
    ∃ rest, Split s '.' = topLevel s :: rest := by
  obtain ⟨rest, hr⟩ := splitChars_head '.' s.data
  exact ⟨rest.map String.mk, by simp [Split, topLevel, hr]⟩

/-- C28, as written, fails: the allow-list `,` is not empty after trimming and
has no entry at all, so none of `*`, `all`, the path of a command or its
top-level name is among its entries; the command is let through all the same. -/
theorem C28_empty_entries_counterexample :
    TrimSpace "," ≠ "" ∧ enabledEntries noCaseTable (TrimSpace ",") = [] ∧
      commandPath noCaseTable "accounts list" = "accounts.list" ∧
      topLevel "accounts.list" = "accounts" ∧
      enforceEnabledCommands noCaseTable "accounts list" "," = none :=
  ⟨by decide, by decide, by decide, by decide, by decide⟩

/-- C28, amended: for every allow-list that has at least one entry after
trimming and splitting and no entry `*` or `all`, `enforceEnabledCommands`
accepts a command if and only if its lower-cased dotted path or its top-level
name is among the entries, and rejects every other command with an `ExitError`
of code 2. -/
theorem C28_allow_list (caseTable : Char → Char) (command enabled : String)
    (hentry : enabledEntries caseTable (TrimSpace enabled) ≠ [])
    (hstar : "*" ∉ enabledEntries caseTable (TrimSpace enabled))
    (hall : "all" ∉ enabledEntries caseTable (TrimSpace enabled)) :
    (enforceEnabledCommands caseTable command enabled = none ↔
      (commandPath caseTable command ∈ enabledEntries caseTable (TrimSpace enabled) ∨
        topLevel (commandPath caseTable command) ∈
          enabledEntries caseTable (TrimSpace enabled))) ∧
    (¬ (commandPath caseTable command ∈ enabledEntries caseTable (TrimSpace enabled) ∨
        topLevel (commandPath caseTable command) ∈
          enabledEntries caseTable (TrimSpace enabled)) →
      enforceEnabledCommands caseTable command enabled =
        some { Code := 2,
               Err := CmdError.notEnabled (commandPath caseTable command)
                 (TrimSpace enabled) }) := by
  have hne : TrimSpace enabled ≠ "" := by
    intro h
    rw [h] at hentry
    exact hentry rfl
  have hlen : ¬ ((parseEnabledCommands caseTable (TrimSpace enabled)).length = 0) := by
    intro h
    have hnil : parseEnabledCommands caseTable (TrimSpace enabled) = [] :=
      List.length_eq_zero.1 h
    obtain ⟨e, rest, he⟩ : ∃ e rest, enabledEntries caseTable (TrimSpace enabled) = e :: rest := by
      cases hx : enabledEntries caseTable (TrimSpace enabled) with
      | nil => exact absurd hx hentry
      | cons e rest => exact ⟨e, rest, rfl⟩
    have hm := (mapGet_parseEnabledCommands caseTable (TrimSpace enabled) e).2
      (by rw [he]; exact List.mem_cons_self _ _)
    rw [hnil] at hm
    simp [mapGet] at hm
  have hs : ¬ (mapGet (parseEnabledCommands caseTable (TrimSpace enabled)) "*" = true ∨
      mapGet (parseEnabledCommands caseTable (TrimSpace enabled)) "all" = true) := by
    rw [mapGet_parseEnabledCommands, mapGet_parseEnabledCommands]
    rintro (h | h)
    · exact hstar h
    · exact hall h
  obtain ⟨rest, hsplit⟩ := Split_head (commandPath caseTable command)
  have key : enforceEnabledCommands caseTable command enabled =
      if commandPath caseTable command ∈ enabledEntries caseTable (TrimSpace enabled) ∨
          topLevel (commandPath caseTable command) ∈
            enabledEntries caseTable (TrimSpace enabled) then none
      else some { Code := 2,
                  Err := CmdError.notEnabled (commandPath caseTable command)
                    (TrimSpace enabled) } := by
    unfold enforceEnabledCommands
    simp only [if_neg hne, if_neg hlen, if_neg hs]
    unfold commandPath at hsplit ⊢
    simp only [hsplit]
    by_cases h1 : mapGet (parseEnabledCommands caseTable (TrimSpace enabled))
        (ToLower caseTable (ReplaceAll command ' ' '.')) = true
    · rw [if_pos h1, if_pos (Or.inl ((mapGet_parseEnabledCommands _ _ _).1 h1))]
    · rw [if_neg h1]
      by_cases h2 : mapGet (parseEnabledCommands caseTable (TrimSpace enabled))
          (topLevel (ToLower caseTable (ReplaceAll command ' ' '.'))) = true
      · rw [if_pos h2, if_pos (Or.inr ((mapGet_parseEnabledCommands _ _ _).1 h2))]
      · rw [if_neg h2, if_neg]
        rintro (h | h)
        · exact h1 ((mapGet_parseEnabledCommands _ _ _).2 h)
        · exact h2 ((mapGet_parseEnabledCommands _ _ _).2 h)
  rw [key]
  constructor
  · constructor
    · intro h
      by_contra hn
      rw [if_neg hn] at h
      exact absurd h (by simp)
    · intro h
      rw [if_pos h]
  · intro hn
    rw [if_neg hn]

/-- C28 on the allow-list `Accounts, sync.create`: a command under `accounts` is
accepted by its top-level name, `sync create` by its path, and `sync list` is
rejected with code 2. -/
theorem C28_allow_list_witness :
    enforceEnabledCommands noCaseTable "accounts list" " Accounts, sync.create " = none ∧
      enforceEnabledCommands noCaseTable "sync create" " Accounts, sync.create " = none ∧
      enforceEnabledCommands noCaseTable "sync list" " Accounts, sync.create " =
        some { Code := 2, Err := CmdError.notEnabled "sync.list" "Accounts, sync.create" } :=
  ⟨(C28_allow_list noCaseTable "accounts list" " Accounts, sync.create " (by decide)
      (by decide) (by decide)).1.2 (by decide),
    (C28_allow_list noCaseTable "sync create" " Accounts, sync.create " (by decide)
      (by decide) (by decide)).1.2 (by decide),
    (C28_allow_list noCaseTable "sync list" " Accounts, sync.create " (by decide)
      (by decide) (by decide)).2 (by decide)⟩

/-! ### Legacy migration under a failing write -/

/-- C25 at its failing inputs. When a store holds the two legacy records of a
profile and no unified record, its three reads work, the write of the migration
fails and the two removals work, `GetCredentials` returns the pair of the legacy
records, and a second `GetCredentials` on the resulting store, whose reads work,
fails with `CredentialsNotFound`: the credentials are lost. -/
theorem C25_failed_write_loses_credentials (s : Keyring) (P : String)
    (clientID clientSecret : Bytes) (err : KeyringError) (hP : TrimSpace P ≠ "")
    (hunified : s.items (credentialsKey (TrimSpace P)) = none)
    (hid : s.items (legacyClientIDKey (TrimSpace P)) = some clientID)
    (hsecret : s.items (legacyClientSecretKey (TrimSpace P)) = some clientSecret)
    (hreads : s.fault s.calls = none ∧ s.fault (s.calls + 1) = none ∧
      s.fault (s.calls + 2) = none)
    (hwrite : s.fault (s.calls + 3) = some err)
    (hremoves : s.fault (s.calls + 4) = none ∧ s.fault (s.calls + 5) = none)
    (hlater : s.fault (s.calls + 6) = none ∧ s.fault (s.calls + 7) = none) :
    (GetCredentials s P).1 = .ok (clientID, clientSecret) ∧
      (GetCredentials (GetCredentials s P).2 P).1 = .error CredentialsNotFound := by
  obtain ⟨f0, f1, f2⟩ := hreads
  obtain ⟨f4, f5⟩ := hremoves
  obtain ⟨f6, f7⟩ := hlater
  have k1 := credentialsKey_ne_legacyClientIDKey (TrimSpace P)
  have k2 := credentialsKey_ne_legacyClientSecretKey (TrimSpace P)
  have k3 := legacyClientIDKey_ne_legacyClientSecretKey (TrimSpace P)
  have hget : GetCredentials s P =
      (.ok (clientID, clientSecret),
       { s with
         calls := s.calls + 1 + 1 + 1 + 1 + 1 + 1,
         items := fun k =>
           if k = legacyClientSecretKey (TrimSpace P) then none
           else if k = legacyClientIDKey (TrimSpace P) then none
           else s.items k }) := by
    simp [GetCredentials, SetCredentials, Keyring.Get, Keyring.Set, Keyring.Remove, hP,
      f0, f1, f2, hwrite, f4, f5, hunified, hid, hsecret, TrimSpace_idem, k1, k1.symm, k2,
      k2.symm, k3, k3.symm]
  rw [hget]
  refine ⟨rfl, ?_⟩
  simp [GetCredentials, Keyring.Get, hP, f6, f7, hunified, k1, k2, k3, CredentialsNotFound]

/-- C25 on a store that holds the legacy records of profile `default` and
refuses the write of the migration. -/
theorem C25_failed_write_loses_credentials_witness :
    (GetCredentials writeFailingKeyring "default").1 = .ok (utf8 "my-id", utf8 "my-secret") ∧
      (GetCredentials (GetCredentials writeFailingKeyring "default").2 "default").1 =
        .error CredentialsNotFound :=
  C25_failed_write_loses_credentials writeFailingKeyring "default" (utf8 "my-id")
    (utf8 "my-secret") (KeyringError.other "read-only") (by decide) (by decide) (by decide) (by decide)
    (by decide) (by decide) (by decide) (by decide)

/-! ### A next link that does not parse -/

/-- C26 at its failing input. A successful page whose next link is `://next`,
which `url.Parse` rejects, makes `ListTransactions` read the path of a missing
parse result after one request: the call ends in a run-time panic and returns
neither a result nor an error. -/
theorem C26_unparsable_next_link_panics :
    decodeTransactionPage brokenLinkEnv.codec ⟨200, samplePageBody [1, 2] "://next"⟩ =
        .ok ([{ zeroTransaction with ID := "1" }, { zeroTransaction with ID := "2" }],
          "://next") ∧
      brokenLinkEnv.urlParse "://next" = none ∧
      ∀ fuel, ListTransactions brokenLinkEnv (fuel + 1) "acc" ⟨"", "", 0⟩ =
        { result := some CallResult.panic,
          requests := ["/accounts/acc/transactions?limit=100"] } :=
  ⟨rfl, rfl, fun _ => rfl⟩

/-! ### Reading ids from standard input -/

theorem readStdin_loop (lines : List String) :
    ∀ ids : Option (List String),
      lines.foldl
          (fun ids text =>
            if TrimSpace text ≠ "" ∧ ¬ HasPrefix (TrimSpace text) "#" then
              some (ids.getD [] ++ [TrimSpace text])
            else ids) ids =
        if (lines.map TrimSpace).filter (fun line => line ≠ "" ∧ ¬ HasPrefix line "#") = []
        then ids
        else some (ids.getD [] ++
          (lines.map TrimSpace).filter (fun line => line ≠ "" ∧ ¬ HasPrefix line "#")) := by
  induction lines with
  | nil => intro ids; simp
  | cons text rest ih =>
    intro ids
    simp only [List.foldl_cons, List.map_cons]
    by_cases h : TrimSpace text ≠ "" ∧ ¬ HasPrefix (TrimSpace text) "#"
    · have hf : List.filter (fun line => decide (line ≠ "" ∧ ¬ HasPrefix line "#"))
          (TrimSpace text :: List.map TrimSpace rest) =
          TrimSpace text :: List.filter (fun line => decide (line ≠ "" ∧ ¬ HasPrefix line "#"))
            (List.map TrimSpace rest) := by
        rw [List.filter_cons]
        simp only [decide_eq_true h, if_true]
      rw [if_pos h, ih, hf]
      simp only [Option.getD_some, List.append_assoc, List.singleton_append, reduceCtorEq,
        if_false]
      split
      · rename_i he
        rw [he]
      · rfl
    · have hf : List.filter (fun line => decide (line ≠ "" ∧ ¬ HasPrefix line "#"))
          (TrimSpace text :: List.map TrimSpace rest) =
          List.filter (fun line => decide (line ≠ "" ∧ ¬ HasPrefix line "#"))
            (List.map TrimSpace rest) := by
        rw [List.filter_cons]
        simp only [decide_eq_false h, Bool.false_eq_true, if_false]
      rw [if_neg h, ih, hf]

/-- What `ReadStdinIDs` returns for the argument `-` when the scanner ends
without an error: nil when standard input holds no id, else its ids. -/
theorem ReadStdinIDs_stdin (stdin : Scanner) (herr : stdin.err = none) :
    ReadStdinIDs "-" stdin =
      .ok (if stdinIDs stdin = [] then none else some (stdinIDs stdin)) := by
  unfold ReadStdinIDs stdinIDs
  rw [if_neg (by decide), herr]
  simp only
  rw [readStdin_loop]
  simp

theorem getEach_requested {T : Type} (fetch : Nat → String → Except Error T)
    (output : T → Option String) (ids : List String) :
    ∀ n, (∀ i, i < ids.length → ∃ item, fetch (n + i) (ids.getD i "") = .ok item ∧
        output item = none) →
      getEach fetch output ids n = { err := none, requested := ids } := by
  induction ids with
  | nil => intro n _; rfl
  | cons id rest ih =>
    intro n h
    obtain ⟨item, h1, h2⟩ := h 0 (by simp)
    simp only [Nat.add_zero, List.getD_cons_zero] at h1
    have := ih (n + 1) (fun i hi => by
      have := h (i + 1) (by simp; omega)
      simpa [show n + (i + 1) = n + 1 + i by omega] using this)
    simp only [getEach, h1, h2, this]

theorem getEach_marker {T : Type} (fetch : Nat → String → Except Error T)
    (output : T → Option String) (id : String) :
    (getEach fetch output [id] 0).requested = [id] := by
  cases hf : fetch 0 id with
  | error e => simp [getEach, hf]
  | ok item =>
    cases ho : output item with
    | some msg => simp [getEach, hf, ho]
    | none => simp [getEach, hf, ho]

/-- How the two `get` commands use standard input when it is read. With the
argument `-`, ids on standard input and every request and output succeeding, the
ids requested are those of standard input, in order; with another argument
`ReadStdinIDs` returns nil and that argument is the one id requested. -/
theorem get_requests (env : CmdEnv) (arg : String) (hclient : env.newClient = none)
    (herr : env.stdin.err = none) :
    (stdinIDs env.stdin ≠ [] →
      (∀ i, i < (stdinIDs env.stdin).length →
        ∃ item, env.getAccount i ((stdinIDs env.stdin).getD i "") = .ok item ∧
          env.outputAccount item = none) →
      AccountsGetCmd.Run ⟨"-"⟩ env = { err := none, requested := stdinIDs env.stdin }) ∧
    (arg ≠ "-" → ReadStdinIDs arg env.stdin = .ok none ∧
      (AccountsGetCmd.Run ⟨arg⟩ env).requested = [arg]) := by
  constructor
  · intro hne hall
    unfold AccountsGetCmd.Run
    simp only [hclient, ReadStdinIDs_stdin env.stdin herr, if_neg hne]
    exact getEach_requested _ _ _ 0 (fun i hi => by simpa using hall i hi)
  · intro harg
    have h : ReadStdinIDs arg env.stdin = .ok none := by
      unfold ReadStdinIDs
      rw [if_pos harg]
    refine ⟨h, ?_⟩
    unfold AccountsGetCmd.Run
    simp only [hclient, h]
    exact getEach_marker _ _ _

/-- C29 at its failing inputs. When the argument is `-` and standard input, read
without an error, holds no id (it is empty, or has only blank lines and lines
that begin with `#`), `ReadStdinIDs` returns nil, which the two `get` commands
take for an argument that was not `-`: each requests the id `-` from the API,
where the specification has no request made. -/
theorem C29_blank_stdin_requests_marker (env : CmdEnv) (accountID : String)
    (hclient : env.newClient = none) (herr : env.stdin.err = none)
    (hblank : stdinIDs env.stdin = []) :
    ReadStdinIDs "-" env.stdin = .ok none ∧
      (AccountsGetCmd.Run ⟨"-"⟩ env).requested = ["-"] ∧
      (∀ resolved, env.resolveAccountID accountID = .ok resolved →
        (TransactionsGetCmd.Run ⟨accountID, "-"⟩ env).requested = ["-"]) := by
  have h := ReadStdinIDs_stdin env.stdin herr
  rw [if_pos hblank] at h
  refine ⟨h, ?_, ?_⟩
  · unfold AccountsGetCmd.Run
    simp only [hclient, h]
    exact getEach_marker _ _ _
  · intro resolved hres
    unfold TransactionsGetCmd.Run
    simp only [hres, hclient, h]
    exact getEach_marker _ _ _

/-- C29 on a standard input of blank lines and a comment: both commands request
the id `-`. On a standard input with two ids the ids are requested in order. -/
theorem C29_blank_stdin_requests_marker_witness :
    stdinIDs blankStdinEnv.stdin = [] ∧
      (AccountsGetCmd.Run ⟨"-"⟩ blankStdinEnv).requested = ["-"] ∧
      (TransactionsGetCmd.Run ⟨"acc", "-"⟩ blankStdinEnv).requested = ["-"] ∧
      AccountsGetCmd.Run ⟨"-"⟩ idsStdinEnv = { err := none, requested := ["acc-1", "acc-2"] } :=
  ⟨by decide,
    (C29_blank_stdin_requests_marker blankStdinEnv "acc" rfl rfl (by decide)).2.1,
    (C29_blank_stdin_requests_marker blankStdinEnv "acc" rfl rfl (by decide)).2.2 "acc" rfl,
    by decide⟩

/-! ### Profile isolation -/

theorem string_append_right_cancel (a b c : String) (h : a ++ c = b ++ c) : a = b := by
  have h1 := congrArg String.data h
  simp only [String.data_append] at h1
  exact String.ext (List.append_cancel_right h1)

theorem credentialsKey_injective (p q : String) (h : credentialsKey p = credentialsKey q) :
    p = q := by
  unfold credentialsKey at h
  rw [String.append_assoc, String.append_assoc] at h
  exact string_append_right_cancel _ _ _ (string_append_left_cancel _ _ _ h)

theorem legacyClientIDKey_injective (p q : String)
    (h : legacyClientIDKey p = legacyClientIDKey q) : p = q := by
  unfold legacyClientIDKey at h
  rw [String.append_assoc, String.append_assoc] at h
  exact string_append_right_cancel _ _ _ (string_append_left_cancel _ _ _ h)

theorem legacyClientSecretKey_injective (p q : String)
    (h : legacyClientSecretKey p = legacyClientSecretKey q) : p = q := by
  unfold legacyClientSecretKey at h
  rw [String.append_assoc, String.append_assoc] at h
  exact string_append_right_cancel _ _ _ (string_append_left_cancel _ _ _ h)

theorem getLast?_append_data (a b : String) (c : Char) (cs : List Char)
    (hb : b.data.reverse = c :: cs) : (a ++ b).data.getLast? = some c := by
  rw [String.data_append, List.getLast?_eq_head?_reverse, List.reverse_append, hb]
  rfl

/-- The three key names end in different characters, so the name of one kind for
a profile is never the name of another kind for any profile. -/
theorem key_ranges_disjoint (p q : String) :
    credentialsKey p ≠ legacyClientIDKey q ∧ credentialsKey p ≠ legacyClientSecretKey q ∧
      legacyClientIDKey p ≠ legacyClientSecretKey q := by
  have h1 : (credentialsKey p).data.getLast? = some 's' :=
    getLast?_append_data _ ":credentials" 's' _ rfl
  have h2 : ∀ r, (legacyClientIDKey r).data.getLast? = some 'd' := fun r =>
    getLast?_append_data _ ":client_id" 'd' _ rfl
  have h3 : (legacyClientSecretKey q).data.getLast? = some 't' :=
    getLast?_append_data _ ":client_secret" 't' _ rfl
  refine ⟨?_, ?_, ?_⟩
  · intro h
    rw [h, h2 q] at h1
    exact absurd h1 (by decide)
  · intro h
    rw [h, h3] at h1
    exact absurd h1 (by decide)
  · intro h
    have := h2 p
    rw [h, h3] at this
    exact absurd this (by decide)

/-- The keys of two profiles that differ are all different. -/
theorem keys_of_ne (p q : String) (h : p ≠ q) (k : String)
    (hk : k = credentialsKey q ∨ k = legacyClientIDKey q ∨ k = legacyClientSecretKey q) :
    k ≠ credentialsKey p ∧ k ≠ legacyClientIDKey p ∧ k ≠ legacyClientSecretKey p := by
  have d1 := key_ranges_disjoint p q
  have d2 := key_ranges_disjoint q p
  rcases hk with rfl | rfl | rfl
  · exact ⟨fun e => h (credentialsKey_injective _ _ e).symm, d2.1, d2.2.1⟩
  · exact ⟨fun e => d1.1 e.symm, fun e => h (legacyClientIDKey_injective _ _ e).symm, d2.2.2⟩
  · exact ⟨fun e => d1.2.1 e.symm, fun e => d1.2.2 e.symm,
      fun e => h (legacyClientSecretKey_injective _ _ e).symm⟩

theorem Keyring.Get_frame (r : Keyring) (key : String) :
    (r.Get key).2.items = r.items ∧ (r.Get key).2.fault = r.fault ∧
      (r.Get key).2.removeAbsent = r.removeAbsent := by
  unfold Keyring.Get
  cases r.fault r.calls with
  | some err => exact ⟨rfl, rfl, rfl⟩
  | none =>
    cases r.items key with
    | some d => exact ⟨rfl, rfl, rfl⟩
    | none => exact ⟨rfl, rfl, rfl⟩

theorem Keyring.Set_frame (r : Keyring) (key : String) (data : Bytes) (k : String)
    (hk : k ≠ key) :
    (r.Set key data).2.items k = r.items k ∧ (r.Set key data).2.fault = r.fault ∧
      (r.Set key data).2.removeAbsent = r.removeAbsent := by
  unfold Keyring.Set
  cases r.fault r.calls with
  | some err => exact ⟨rfl, rfl, rfl⟩
  | none => exact ⟨by simp [hk], rfl, rfl⟩

theorem Keyring.Remove_frame (r : Keyring) (key k : String) (hk : k ≠ key) :
    (r.Remove key).2.items k = r.items k ∧ (r.Remove key).2.fault = r.fault ∧
      (r.Remove key).2.removeAbsent = r.removeAbsent := by
  unfold Keyring.Remove
  cases r.fault r.calls with
  | some err => exact ⟨rfl, rfl, rfl⟩
  | none =>
    cases r.items key with
    | some d => exact ⟨by simp [hk], rfl, rfl⟩
    | none => exact ⟨rfl, rfl, rfl⟩

theorem SetCredentials_frame (s : Keyring) (P : String) (clientID clientSecret : Bytes)
    (k : String) (hk : k ≠ credentialsKey (TrimSpace P)) :
    (SetCredentials s P clientID clientSecret).2.items k = s.items k ∧
      (SetCredentials s P clientID clientSecret).2.fault = s.fault := by
  unfold SetCredentials
  by_cases hP : TrimSpace P = ""
  · simp [hP]
  · have := Keyring.Set_frame s (credentialsKey (TrimSpace P))
      (marshalCredentials { ClientID := clientID, ClientSecret := clientSecret }) k hk
    simp only [hP, if_false]
    split <;> rename_i h <;> rw [h] at this <;> exact ⟨this.1, this.2.1⟩

theorem DeleteCredentials_frame (s : Keyring) (P k : String)
    (hk : k ≠ credentialsKey (TrimSpace P) ∧ k ≠ legacyClientIDKey (TrimSpace P) ∧
      k ≠ legacyClientSecretKey (TrimSpace P)) :
    (DeleteCredentials s P).2.items k = s.items k ∧ (DeleteCredentials s P).2.fault = s.fault := by
  unfold DeleteCredentials
  by_cases hP : TrimSpace P = ""
  · simp [hP]
  · have h1 := Keyring.Remove_frame s (credentialsKey (TrimSpace P)) k hk.1
    have h2 := Keyring.Remove_frame (s.Remove (credentialsKey (TrimSpace P))).2
      (legacyClientIDKey (TrimSpace P)) k hk.2.1
    have h3 := Keyring.Remove_frame
      ((s.Remove (credentialsKey (TrimSpace P))).2.Remove (legacyClientIDKey (TrimSpace P))).2
      (legacyClientSecretKey (TrimSpace P)) k hk.2.2
    simp only [hP, if_false]
    split
    · exact ⟨h1.1, h1.2.1⟩
    · exact ⟨by rw [h3.1, h2.1, h1.1], by rw [h3.2.1, h2.2.1, h1.2.1]⟩

theorem GetCredentials_frame (s : Keyring) (P k : String)
    (hk : k ≠ credentialsKey (TrimSpace P) ∧ k ≠ legacyClientIDKey (TrimSpace P) ∧
      k ≠ legacyClientSecretKey (TrimSpace P)) :
    (GetCredentials s P).2.items k = s.items k ∧ (GetCredentials s P).2.fault = s.fault := by
  unfold GetCredentials
  by_cases hP : TrimSpace P = ""
  · simp [hP]
  · have g1 := Keyring.Get_frame s (credentialsKey (TrimSpace P))
    have g2 := Keyring.Get_frame (s.Get (credentialsKey (TrimSpace P))).2
      (legacyClientIDKey (TrimSpace P))
    simp only [hP, if_false]
    split
    · exact ⟨by rw [g1.1], g1.2.1⟩
    · split
      · rename_i h
        rw [h] at g2
        exact ⟨by rw [g2.1, g1.1], by rw [g2.2.1, g1.2.1]⟩
      · rename_i idData s2 h
        rw [h] at g2
        have g3 := Keyring.Get_frame s2 (legacyClientSecretKey (TrimSpace P))
        split
        · rename_i h3
          rw [h3] at g3
          exact ⟨by rw [g3.1, g2.1, g1.1], by rw [g3.2.1, g2.2.1, g1.2.1]⟩
        · rename_i secretData s3 h3
          rw [h3] at g3
          have hk' : k ≠ credentialsKey (TrimSpace (TrimSpace P)) := by
            rw [TrimSpace_idem]; exact hk.1
          have w := SetCredentials_frame s3 (TrimSpace P) idData secretData k hk'
          have r1 := Keyring.Remove_frame (SetCredentials s3 (TrimSpace P) idData secretData).2
            (legacyClientIDKey (TrimSpace P)) k hk.2.1
          have r2 := Keyring.Remove_frame
            ((SetCredentials s3 (TrimSpace P) idData secretData).2.Remove
              (legacyClientIDKey (TrimSpace P))).2
            (legacyClientSecretKey (TrimSpace P)) k hk.2.2
          exact ⟨by rw [r2.1, r1.1, w.1, g3.1, g2.1, g1.1],
            by rw [r2.2.1, r1.2.1, w.2, g3.2.1, g2.2.1, g1.2.1]⟩

/-- On a working backend the result of `GetCredentials` is a function of the three
records of the profile. -/
theorem GetCredentials_congr (s1 s2 : Keyring) (Q : String) (h1 : s1.reliable)
    (h2 : s2.reliable)
    (ha : s1.items (credentialsKey (TrimSpace Q)) = s2.items (credentialsKey (TrimSpace Q)))
    (hb : s1.items (legacyClientIDKey (TrimSpace Q)) =
      s2.items (legacyClientIDKey (TrimSpace Q)))
    (hc : s1.items (legacyClientSecretKey (TrimSpace Q)) =
      s2.items (legacyClientSecretKey (TrimSpace Q))) :
    (GetCredentials s1 Q).1 = (GetCredentials s2 Q).1 := by
  have f10 := h1 s1.calls
  have f11 := h1 (s1.calls + 1)
  have f12 := h1 (s1.calls + 1 + 1)
  have f20 := h2 s2.calls
  have f21 := h2 (s2.calls + 1)
  have f22 := h2 (s2.calls + 1 + 1)
  by_cases hP : TrimSpace Q = ""
  · simp [GetCredentials, hP]
  · cases ia : s2.items (credentialsKey (TrimSpace Q)) with
    | some data =>
      rw [ia] at ha
      cases hu : unmarshalCredentials data with
      | some creds =>
        simp [GetCredentials, Keyring.Get, hP, f10, f20, ha, ia, hu]
      | none =>
        cases ib : s2.items (legacyClientIDKey (TrimSpace Q)) with
        | none =>
          rw [ib] at hb
          simp [GetCredentials, Keyring.Get, hP, f10, f20, f11, f21, ha, ia, hu, hb, ib]
        | some idData =>
          rw [ib] at hb
          cases ic : s2.items (legacyClientSecretKey (TrimSpace Q)) with
          | none =>
            rw [ic] at hc
            simp [GetCredentials, Keyring.Get, hP, f10, f20, f11, f21, f12, f22, ha, ia, hu,
              hb, ib, hc, ic]
          | some secretData =>
            rw [ic] at hc
            simp [GetCredentials, Keyring.Get, hP, f10, f20, f11, f21, f12, f22, ha, ia, hu,
              hb, ib, hc, ic]
    | none =>
      rw [ia] at ha
      cases ib : s2.items (legacyClientIDKey (TrimSpace Q)) with
      | none =>
        rw [ib] at hb
        simp [GetCredentials, Keyring.Get, hP, f10, f20, f11, f21, ha, ia, hb, ib]
      | some idData =>
        rw [ib] at hb
        cases ic : s2.items (legacyClientSecretKey (TrimSpace Q)) with
        | none =>
          rw [ic] at hc
          simp [GetCredentials, Keyring.Get, hP, f10, f20, f11, f21, f12, f22, ha, ia,
            hb, ib, hc, ic]
        | some secretData =>
          rw [ic] at hc
          simp [GetCredentials, Keyring.Get, hP, f10, f20, f11, f21, f12, f22, ha, ia,
            hb, ib, hc, ic]

/-- C27. Profile isolation: each of the three key names is injective in the
profile and the three ranges are pairwise disjoint; so for profiles `P` and `Q`
that differ after trimming, whatever calls of the backend fail, `SetCredentials`,
`DeleteCredentials` and `GetCredentials` of `P`, its legacy migration included,
leave the three records of `Q` as they were, and on a working backend
`GetCredentials` of `Q` returns after them what it returned before. -/
theorem C27_profile_isolation (s : Keyring) (P Q : String) (clientID clientSecret : Bytes)
    (hPQ : TrimSpace P ≠ TrimSpace Q) :
    (∀ p q, (credentialsKey p = credentialsKey q → p = q) ∧
      (legacyClientIDKey p = legacyClientIDKey q → p = q) ∧
      (legacyClientSecretKey p = legacyClientSecretKey q → p = q) ∧
      credentialsKey p ≠ legacyClientIDKey q ∧ credentialsKey p ≠ legacyClientSecretKey q ∧
      legacyClientIDKey p ≠ legacyClientSecretKey q) ∧
    (∀ after ∈ [(SetCredentials s P clientID clientSecret).2, (DeleteCredentials s P).2,
        (GetCredentials s P).2],
      after.items (credentialsKey (TrimSpace Q)) = s.items (credentialsKey (TrimSpace Q)) ∧
      after.items (legacyClientIDKey (TrimSpace Q)) =
        s.items (legacyClientIDKey (TrimSpace Q)) ∧
      after.items (legacyClientSecretKey (TrimSpace Q)) =
        s.items (legacyClientSecretKey (TrimSpace Q)) ∧
      (s.reliable → (GetCredentials after Q).1 = (GetCredentials s Q).1)) := by
  refine ⟨fun p q => ⟨credentialsKey_injective p q, legacyClientIDKey_injective p q,
    legacyClientSecretKey_injective p q, key_ranges_disjoint p q⟩, ?_⟩
  have k1 := keys_of_ne (TrimSpace P) (TrimSpace Q) hPQ _ (Or.inl rfl)
  have k2 := keys_of_ne (TrimSpace P) (TrimSpace Q) hPQ _ (Or.inr (Or.inl rfl))
  have k3 := keys_of_ne (TrimSpace P) (TrimSpace Q) hPQ _ (Or.inr (Or.inr rfl))
  have frame : ∀ after : Keyring,
      (∀ k, k ≠ credentialsKey (TrimSpace P) ∧ k ≠ legacyClientIDKey (TrimSpace P) ∧
        k ≠ legacyClientSecretKey (TrimSpace P) →
        after.items k = s.items k ∧ after.fault = s.fault) →
      after.items (credentialsKey (TrimSpace Q)) = s.items (credentialsKey (TrimSpace Q)) ∧
      after.items (legacyClientIDKey (TrimSpace Q)) =
        s.items (legacyClientIDKey (TrimSpace Q)) ∧
      after.items (legacyClientSecretKey (TrimSpace Q)) =
        s.items (legacyClientSecretKey (TrimSpace Q)) ∧
      (s.reliable → (GetCredentials after Q).1 = (GetCredentials s Q).1) := by
    intro after h
    refine ⟨(h _ k1).1, (h _ k2).1, (h _ k3).1, fun hrel => ?_⟩
    have hrel2 : after.reliable := by
      intro n
      rw [(h _ k1).2]
      exact hrel n
    exact GetCredentials_congr after s Q hrel2 hrel (h _ k1).1 (h _ k2).1 (h _ k3).1
  intro after hafter
  simp only [List.mem_cons, List.mem_singleton, List.not_mem_nil, or_false] at hafter
  rcases hafter with rfl | rfl | rfl
  · exact frame _ (fun k hk => SetCredentials_frame s P clientID clientSecret k hk.1)
  · exact frame _ (fun k hk => DeleteCredentials_frame s P k hk)
  · exact frame _ (fun k hk => GetCredentials_frame s P k hk)

/-- C27 on a store with the legacy records of profile `default`: storing,
reading and deleting credentials of profile `work` leaves what `GetCredentials`
returns for `default` as it was. -/
theorem C27_profile_isolation_witness :
    TrimSpace "work" ≠ TrimSpace " default " ∧
      (GetCredentials (SetCredentials legacyKeyring "work" (utf8 "w-id") (utf8 "w-secret")).2
        " default ").1 = .ok (utf8 "my-id", utf8 "my-secret") ∧
      (GetCredentials (DeleteCredentials legacyKeyring "work").2 " default ").1 =
        .ok (utf8 "my-id", utf8 "my-secret") ∧
      (GetCredentials (GetCredentials legacyKeyring "work").2 " default ").1 =
        .ok (utf8 "my-id", utf8 "my-secret") :=
  ⟨by decide,
    (((C27_profile_isolation legacyKeyring "work" " default " (utf8 "w-id") (utf8 "w-secret")
      (by decide)).2
      _ (List.mem_cons_self _ _)).2.2.2 (fun _ => rfl)).trans rfl,
    (((C27_profile_isolation legacyKeyring "work" " default " (utf8 "w-id") (utf8 "w-secret")
      (by decide)).2
      _ (List.mem_cons_of_mem _ (List.mem_cons_self _ _))).2.2.2 (fun _ => rfl)).trans rfl,
    (((C27_profile_isolation legacyKeyring "work" " default " (utf8 "w-id") (utf8 "w-secret")
      (by decide)).2
      _ (List.mem_cons_of_mem _ (List.mem_cons_of_mem _ (List.mem_cons_self _ _)))).2.2.2
      (fun _ => rfl)).trans rfl⟩

end Ponto
